import Mathlib

/-!
Shallow embedding of the rawscan line scanner
(source of authority: src/source/include/rawscan_static.h).

Pointers into the scanner arena are modelled as natural-number offsets
from the start of the working buffer: offset 0 is `buf`, offset `bufsz`
is `buftop`.  The read-only sentinel page just above the working buffer
is modelled by `getByte`, which yields the delimiter byte at every
offset at or above `bufsz`, exactly as the sentinel written by rs_open
guarantees for the C code.  Bytes are natural numbers; no arithmetic is
performed on them, only equality tests against the delimiter, so no
wrap-around modelling is needed.

The input file descriptor is modelled as the list of bytes not yet
consumed by read(2), an optional pending read-error code, and a
schedule of per-call transfer sizes: a read against an exhausted input
reports end of file, or the error if one is pending, and a successful
read transfers the scheduled count capped by the bytes available and
the space above `q` (at least one byte when data is available).  The
schedule ranges over all behaviours read(2) permits — pipes and
sockets deliver short reads; an empty schedule gives the full
min(available, space) transfer of a regular file.

Two ghost counters instrument the state: `nreads` counts invocations of
the underlying read, and `ninval` counts buffer-invalidating actions
(the downward shift and the cursor reset), which the pause/resume
protocol is about.  Neither influences control flow.
-/

/-- The result discriminator, mirroring `enum rs_result_type`. -/
inductive RT : Type where
  | rt_full_line
  | rt_full_line_without_eol
  | rt_start_longline
  | rt_within_longline
  | rt_longline_ended
  | rt_paused
  | rt_eof
  | rt_err
deriving DecidableEq, Repr

/-- `RAWSCAN_RESULT`: a tagged result copied to the caller.  The C
struct holds a union of `line.begin`/`line.end` and `errnum`; we model
the fields separately (`none` stands for a NULL pointer). -/
structure RSResult : Type where
  type : RT
  line_begin : Option Nat
  line_end : Option Nat
  errnum : Nat
deriving DecidableEq, Repr

/-- The `RAWSCAN` control record.  Field names follow the C struct. -/
structure RS : Type where
  bufsz : Nat
  mem : Nat → Nat
  p : Nat
  q : Nat
  min1stchunklen : Nat
  delimiterbyte : Nat
  input : List Nat
  readErr : Option Nat
  readSizes : List Nat
  errnum : Nat
  end_this_chunk : Option Nat
  next_val_p : Option Nat
  next_delim_ptr_peek : Nat
  result : RSResult
  in_longline : Bool
  terminate_current_pause : Bool
  longline_ended : Bool
  eof_seen : Bool
  err_seen : Bool
  pause_on_inval : Bool
  ninval : Nat
  nreads : Nat

/-- Read one byte of the arena: working-buffer contents below `bufsz`,
the read-only sentinel delimiter at `bufsz` (= buftop) and above. -/
def getByte (s : RS) (k : Nat) : Nat :=
  if k < s.bufsz then s.mem k else s.delimiterbyte

/-- Auxiliary linear scan for `rawmemchr`, bounded by fuel. -/
def findFrom (s : RS) : Nat → Nat → Nat
  | start, 0 => start
  | start, fuel + 1 =>
      if getByte s start = s.delimiterbyte then start
      else findFrom s (start + 1) fuel

/-- `rawmemchr(start, delimiterbyte)`: first offset at or after `start`
holding the delimiter.  The sentinel at `bufsz` bounds the scan. -/
def rawmemchr (s : RS) (start : Nat) : Nat :=
  findFrom s start (s.bufsz + 1 - start)

/-- The bytes of the arena in offset range `[a, b)`. -/
def bytesBetween (s : RS) (a b : Nat) : List Nat :=
  (List.range (b - a)).map (fun i => getByte s (a + i))

/-- The buffered, not-yet-returned bytes `[p, q)`. -/
def window (s : RS) : List Nat :=
  bytesBetween s s.p s.q

/-- Overwrite `bytes.length` bytes of memory starting at offset `a`. -/
def writeRange (mem : Nat → Nat) (a : Nat) (bytes : List Nat) : Nat → Nat :=
  fun k => if a ≤ k ∧ k < a + bytes.length then bytes.getD (k - a) 0 else mem k

/-- Arena contents after a successful read of `cnt` bytes at `q`: the
transferred bytes land in `[q, q+cnt)` and, after a short read, a copy
of the delimiter is planted at the new `q` (to shorten later scans). -/
def readMemAfter (s : RS) (cnt : Nat) : Nat → Nat :=
  let taken := s.input.take cnt
  let mem1 := writeRange s.mem s.q taken
  let q1 := s.q + cnt
  if q1 < s.bufsz then (fun k => if k = q1 then s.delimiterbyte else mem1 k)
  else mem1

/-- State advance for a successful read of `cnt` bytes. -/
def readAdvance (s : RS) (cnt : Nat) : RS :=
  { s with mem := readMemAfter s cnt, q := s.q + cnt,
           input := s.input.drop cnt, readSizes := s.readSizes.tail,
           nreads := s.nreads + 1 }

/-- The byte count the next `read(2)` transfers: the head of the
`readSizes` schedule (at least 1, defaulting to everything) capped by
the bytes still unread and by the space above `q`.  A short read — any
count below `min(available, space)` — is thus allowed, as `read(2)`'s
contract permits. -/
def readCnt (s : RS) : Nat :=
  min ((s.readSizes.headD (min s.input.length (s.bufsz - s.q))).max 1)
    (min s.input.length (s.bufsz - s.q))

/-- `rawscan_read`: one call of the underlying `read(2)` into
`[q, buftop)`.  On success returns the pre-read `q` (the point from
which the next delimiter scan starts) and the advanced state.  On end
of input latches `eof_seen`, on a read error latches `err_seen` and
captures the error code. -/
def rawscan_read (s : RS) : Option Nat × RS :=
  let space := s.bufsz - s.q
  let cnt := readCnt s
  if 0 < cnt then
    (some s.q, readAdvance s cnt)
  else if space = 0 then
    (none, { s with eof_seen := true, nreads := s.nreads + 1 })
  else
    match s.readErr with
    | some e => (none, { s with errnum := e, err_seen := true,
                                nreads := s.nreads + 1 })
    | none => (none, { s with eof_seen := true, nreads := s.nreads + 1 })

/-- `rawscan_full_line`: return `[p, end_this_chunk]` as a full line,
typed by whether the final byte is the delimiter; advance `p`. -/
def rawscan_full_line (s : RS) : RSResult × RS :=
  let e := s.end_this_chunk.getD 0
  let nv := s.next_val_p.getD 0
  let t := if getByte s e = s.delimiterbyte then RT.rt_full_line
           else RT.rt_full_line_without_eol
  let r : RSResult :=
    { type := t, line_begin := some s.p, line_end := some e,
      errnum := s.result.errnum }
  (r, { s with result := r, p := nv })

/-- `rawscan_eof`. -/
def rawscan_eof (s : RS) : RSResult × RS :=
  let r := { s.result with type := RT.rt_eof }
  (r, { s with result := r, eof_seen := true })

/-- `rawscan_err`. -/
def rawscan_err (s : RS) : RSResult × RS :=
  let r := { s.result with type := RT.rt_err, errnum := s.errnum }
  (r, { s with result := r })

/-- `rawscan_start_of_longline`. -/
def rawscan_start_of_longline (s : RS) : RSResult × RS :=
  let e := s.end_this_chunk.getD 0
  let r : RSResult :=
    { type := RT.rt_start_longline, line_begin := some s.p,
      line_end := some e, errnum := s.result.errnum }
  (r, { s with result := r, p := s.q, in_longline := true,
               longline_ended := false })

/-- `rawscan_within_longline`. -/
def rawscan_within_longline (s : RS) : RSResult × RS :=
  let e := s.end_this_chunk.getD 0
  let nv := s.next_val_p.getD 0
  let r : RSResult :=
    { type := RT.rt_within_longline, line_begin := some s.p,
      line_end := some e, errnum := s.result.errnum }
  (r, { s with result := r, p := nv, end_this_chunk := none,
               next_val_p := none })

/-- `rawscan_terminate_longline`: the data-less end-of-long-line
marker (`line.begin = line.end = NULL`). -/
def rawscan_terminate_longline (s : RS) : RSResult × RS :=
  let r : RSResult :=
    { type := RT.rt_longline_ended, line_begin := none, line_end := none,
      errnum := s.result.errnum }
  (r, { s with result := r, in_longline := false, longline_ended := false })

/-- `rawscan_paused`. -/
def rawscan_paused (s : RS) : RSResult × RS :=
  let r := { s.result with type := RT.rt_paused }
  (r, { s with result := r })

/-- `rawscan_shift_buffer_contents_down`: move `[p, q)` down by
`p - (buftop - min1stchunklen)` bytes (memmove semantics). -/
def rawscan_shift_buffer_contents_down (s : RS) : RS :=
  let howmuchtoshift := s.q - s.p
  let howfartoshift := s.p - (s.bufsz - s.min1stchunklen)
  let new_p := s.p - howfartoshift
  let new_q := s.q - howfartoshift
  let mem1 := fun k =>
    if new_p ≤ k ∧ k < new_p + howmuchtoshift then s.mem (k + howfartoshift)
    else s.mem k
  { s with mem := mem1, p := new_p, q := new_q }

/-- `rawscan_handle_end_of_longline`: first step returns the final
data chunk and latches `longline_ended`; second step terminates. -/
def rawscan_handle_end_of_longline (s : RS) : RSResult × RS :=
  if s.longline_ended = false then
    rawscan_within_longline { s with longline_ended := true }
  else rawscan_terminate_longline s

/-- Which loop of `rs_getline_morecode` is executing. -/
inductive Phase : Type where
  | fast
  | slow
deriving DecidableEq

/-- Outcome of one loop iteration: a returned result, or continuation
at a loop label with a scan-start offset. -/
inductive StepRes : Type where
  | ret (r : RSResult) (s : RS)
  | cont (ph : Phase) (start : Nat) (s : RS)

/-- `rawscan_fast_line`: full-line return from the fast loop (and the
peek fast path), which re-arms the cached delimiter hint. -/
def rawscan_fast_line (s : RS) (d : Nat) : RSResult × RS :=
  let r : RSResult :=
    { type := RT.rt_full_line, line_begin := some s.p, line_end := some d,
      errnum := s.result.errnum }
  let p1 := d + 1
  (r, { s with result := r, p := p1,
               next_delim_ptr_peek := rawmemchr s p1 })

/-- One iteration of the `fast_loop` / `slow_loop` of
`rs_getline_morecode`, transcribed branch for branch. -/
def loopStep (ph : Phase) (start : Nat) (s : RS) : StepRes :=
  match ph with
  | Phase.fast =>
      let d := rawmemchr s start
      if s.p < s.q then
        if d < s.q then
          let pr := rawscan_fast_line s d
          StepRes.ret pr.1 pr.2
        else if s.q < s.bufsz then
          match rawscan_read s with
          | (some preq, s1) => StepRes.cont Phase.fast preq s1
          | (none, s1) => StepRes.cont Phase.slow s1.bufsz s1
        else StepRes.cont Phase.slow start s
      else StepRes.cont Phase.slow start s
  | Phase.slow =>
      let d := rawmemchr s start
      let len := s.q - s.p
      if d < s.q then
        let s1 := { s with end_this_chunk := some d, next_val_p := some (d + 1) }
        if s1.in_longline then
          let pr := rawscan_handle_end_of_longline s1
          StepRes.ret pr.1 pr.2
        else
          let pr := rawscan_full_line s1
          StepRes.ret pr.1 pr.2
      else if s.eof_seen = true ∨ s.err_seen = true then
        if 0 < len then
          let s1 := { s with end_this_chunk := some (s.q - 1), next_val_p := some s.q }
          if s1.in_longline then
            let pr := rawscan_handle_end_of_longline s1
            StepRes.ret pr.1 pr.2
          else
            let pr := rawscan_full_line s1
            StepRes.ret pr.1 pr.2
        else if s.in_longline then
          let s1 := { s with longline_ended := true, end_this_chunk := none,
                             next_val_p := none }
          let pr := rawscan_handle_end_of_longline s1
          StepRes.ret pr.1 pr.2
        else if s.eof_seen then
          let pr := rawscan_eof s
          StepRes.ret pr.1 pr.2
        else
          let pr := rawscan_err s
          StepRes.ret pr.1 pr.2
      else if s.q < s.bufsz then
        match rawscan_read s with
        | (some preq, s1) => StepRes.cont Phase.slow preq s1
        | (none, s1) => StepRes.cont Phase.slow s1.bufsz s1
      else if s.min1stchunklen ≤ len ∧ s.in_longline = false then
        let s1 := { s with end_this_chunk := some (s.q - 1), next_val_p := some s.q }
        let pr := rawscan_start_of_longline s1
        StepRes.ret pr.1 pr.2
      else if 0 < len then
        if 0 < s.p then
          if s.pause_on_inval = true ∧ s.terminate_current_pause = false then
            let pr := rawscan_paused s
            StepRes.ret pr.1 pr.2
          else
            let s1 := rawscan_shift_buffer_contents_down s
            StepRes.cont Phase.slow s1.bufsz
              { s1 with terminate_current_pause := false, ninval := s1.ninval + 1 }
        else
          let s1 := { s with end_this_chunk := some (s.q - 1), next_val_p := some s.q }
          let pr := rawscan_within_longline s1
          StepRes.ret pr.1 pr.2
      else
        if s.pause_on_inval = true ∧ s.terminate_current_pause = false then
          let pr := rawscan_paused s
          StepRes.ret pr.1 pr.2
        else
          let s1 := { s with p := 0, q := 0, terminate_current_pause := false, ninval := s.ninval + 1 }
          match rawscan_read s1 with
          | (some preq, s2) => StepRes.cont Phase.slow preq s2
          | (none, s2) => StepRes.cont Phase.slow s2.bufsz s2

/-- Iterate the loop; `fuel` bounds the number of iterations (each C
iteration terminates because the input is finite, so any sufficiently
large fuel yields `some`). -/
def loopGo : Nat → Phase → Nat → RS → Option (RSResult × RS)
  | 0, _, _, _ => none
  | fuel + 1, ph, start, s =>
      match loopStep ph start s with
      | StepRes.ret r s1 => some (r, s1)
      | StepRes.cont ph1 start1 s1 => loopGo fuel ph1 start1 s1

/-- `rs_getline_morecode`: the slow entry of `rs_getline`. -/
def rs_getline_morecode (fuel : Nat) (s : RS) : Option (RSResult × RS) :=
  if s.in_longline then
    if s.longline_ended then
      let pr := rawscan_handle_end_of_longline s
      some (pr.1, pr.2)
    else loopGo fuel Phase.slow s.bufsz s
  else
    let s1 := { s with next_delim_ptr_peek := s.bufsz }
    loopGo fuel Phase.fast s1.p s1

/-- `rs_getline`: fast path on the cached delimiter hint, else the
general code. -/
def rs_getline (fuel : Nat) (s : RS) : Option (RSResult × RS) :=
  if s.p ≤ s.next_delim_ptr_peek ∧ s.next_delim_ptr_peek < s.q then
    let pr := rawscan_fast_line s s.next_delim_ptr_peek
    some (pr.1, pr.2)
  else rs_getline_morecode fuel s

/-- The delimiter scans one loop iteration performs, as
(state, start offset) pairs, transcribed from the `rawmemchr` call
sites: each `fast_loop`/`slow_loop` pass scans once from
`start_next_rawmemchr_here`, and a fast-loop full-line return scans a
second time from the new `p` to re-arm the peek hint. -/
def stepScans (ph : Phase) (start : Nat) (s : RS) : List (RS × Nat) :=
  match ph with
  | Phase.fast =>
      let d := rawmemchr s start
      if s.p < s.q then
        if d < s.q then [(s, start), (s, d + 1)]
        else [(s, start)]
      else [(s, start)]
  | Phase.slow => [(s, start)]

/-- All delimiter scans a run of the getline loop performs. -/
def loopScans : Nat → Phase → Nat → RS → List (RS × Nat)
  | 0, _, _, _ => []
  | fuel + 1, ph, start, s =>
      stepScans ph start s ++
        match loopStep ph start s with
        | StepRes.ret _ _ => []
        | StepRes.cont ph1 start1 s1 => loopScans fuel ph1 start1 s1

/-- All delimiter scans one `rs_getline` call performs: the peek fast
path scans once from `peek + 1` to re-arm the hint; otherwise
`rs_getline_morecode` runs the loop (the long-line termination path
performs no scan). -/
def getlineScans (fuel : Nat) (s : RS) : List (RS × Nat) :=
  if s.p ≤ s.next_delim_ptr_peek ∧ s.next_delim_ptr_peek < s.q then
    [(s, s.next_delim_ptr_peek + 1)]
  else if s.in_longline then
    if s.longline_ended then []
    else loopScans fuel Phase.slow s.bufsz s
  else
    loopScans fuel Phase.fast
      ({ s with next_delim_ptr_peek := s.bufsz } : RS).p
      { s with next_delim_ptr_peek := s.bufsz }

/-- `rs_open(fd, bufsz, delimiterbyte)` on success: the scanner state
after arena setup.  The input handle is modelled by the unread byte
list, the pending error and the read-size schedule; fresh arena pages
read as zero. -/
def rs_open (input : List Nat) (readErr : Option Nat)
    (readSizes : List Nat) (bufsz : Nat) (delimiterbyte : Nat) : RS :=
  { bufsz := bufsz
    mem := fun _ => 0
    p := bufsz
    q := bufsz
    min1stchunklen := bufsz
    delimiterbyte := delimiterbyte
    input := input
    readErr := readErr
    readSizes := readSizes
    errnum := 0
    end_this_chunk := none
    next_val_p := none
    next_delim_ptr_peek := bufsz
    result := { type := RT.rt_full_line, line_begin := none,
                line_end := none, errnum := 0 }
    in_longline := false
    terminate_current_pause := false
    longline_ended := false
    eof_seen := false
    err_seen := false
    pause_on_inval := false
    ninval := 0
    nreads := 0 }

/-- `rs_enable_pause`. -/
def rs_enable_pause (s : RS) : RS :=
  { s with pause_on_inval := true }

/-- `rs_disable_pause`. -/
def rs_disable_pause (s : RS) : RS :=
  { s with pause_on_inval := false, terminate_current_pause := false }

/-- `rs_resume_from_pause`. -/
def rs_resume_from_pause (s : RS) : RS :=
  { s with terminate_current_pause := true }

/-- `rs_set_min1stchunklen`: returns 0 on success, -1 on failure. -/
def rs_set_min1stchunklen (s : RS) (len : Nat) : Int × RS :=
  if s.bufsz < len then (-1, s)
  else (0, { s with min1stchunklen := len })

/-- `rs_get_min1stchunklen`. -/
def rs_get_min1stchunklen (s : RS) : Nat :=
  s.min1stchunklen

/-- Data-bearing result types. -/
def isDataType : RT → Bool
  | RT.rt_full_line => true
  | RT.rt_full_line_without_eol => true
  | RT.rt_start_longline => true
  | RT.rt_within_longline => true
  | _ => false

/-- The bytes carried by one result: the inclusive range
`[line_begin, line_end]` read from the scanner arena at return time. -/
def dataBytesOf (r : RSResult) (s : RS) : List Nat :=
  if isDataType r.type then
    match r.line_begin, r.line_end with
    | some b, some e => bytesBetween s b (e + 1)
    | _, _ => []
  else []

/-- Repeated `rs_getline` until the first EndOfFile or Error result,
collecting the results and the concatenation of all returned byte
ranges.  `n` bounds the number of calls, `fuel` the loop iterations
within each call. -/
def rs_run : Nat → Nat → RS → Option (List RSResult × List Nat × RS)
  | 0, _, _ => none
  | n + 1, fuel, s =>
      match rs_getline fuel s with
      | none => none
      | some (r, s1) =>
          if r.type = RT.rt_eof ∨ r.type = RT.rt_err then
            some ([r], [], s1)
          else
            match rs_run n fuel s1 with
            | none => none
            | some (rs, bs, s2) => some (r :: rs, dataBytesOf r s1 ++ bs, s2)

/-- No delimiter byte occurs in arena range `[a, b)`. -/
def NoDelim (s : RS) (a b : Nat) : Prop :=
  ∀ k, k < b → a ≤ k → getByte s k ≠ s.delimiterbyte

instance (s : RS) (a b : Nat) : Decidable (NoDelim s a b) :=
  Nat.decidableBallLT b (fun k _ => a ≤ k → getByte s k ≠ s.delimiterbyte)

/-- The cached-hint invariant: whenever `next_delim_ptr_peek` lies in
`[p, q)` it points at the delimiter and no earlier byte of `[p, q)` is
the delimiter; parked at `buftop` the hint is disarmed. -/
def PeekInv (s : RS) : Prop :=
  s.p ≤ s.next_delim_ptr_peek → s.next_delim_ptr_peek < s.q →
    getByte s s.next_delim_ptr_peek = s.delimiterbyte ∧
      NoDelim s s.p s.next_delim_ptr_peek

instance (s : RS) : Decidable (PeekInv s) := by
  unfold PeekInv
  infer_instance

/-- The scanner state invariant at `rs_getline` call boundaries.
Established by `rs_open` and preserved by every operation. -/
def RSInv (s : RS) : Prop :=
  1 ≤ s.bufsz ∧
  s.p ≤ s.q ∧
  s.q ≤ s.bufsz ∧
  1 ≤ s.min1stchunklen ∧
  s.min1stchunklen ≤ s.bufsz ∧
  s.next_delim_ptr_peek ≤ s.bufsz ∧
  PeekInv s ∧
  (s.in_longline = true → s.next_delim_ptr_peek = s.bufsz) ∧
  (s.in_longline = true → s.longline_ended = false →
    s.p = s.q ∧ s.q = s.bufsz) ∧
  (s.longline_ended = true → s.in_longline = true) ∧
  ((s.eof_seen = true ∨ s.err_seen = true) → s.input = [] ∧ s.p = s.q)

instance (s : RS) : Decidable (RSInv s) := by
  unfold RSInv
  infer_instance

/-- States from which the current `rs_getline` call can no longer reach
a Paused return nor another invalidating action: end of input seen,
cursor reset to `buf`, or exactly `min1stchunklen` headroom above `p`
(the post-shift situation) outside a long line. -/
def NoPauseSt (s : RS) : Prop :=
  s.eof_seen = true ∨ s.err_seen = true ∨ s.p = 0 ∨
    (s.p + s.min1stchunklen = s.bufsz ∧ s.in_longline = false ∧
      1 ≤ s.min1stchunklen)

instance (s : RS) : Decidable (NoPauseSt s) := by
  unfold NoPauseSt
  infer_instance

/-- The loop invariant of the `fast_loop`/`slow_loop` iteration at scan
start `start`. -/
def LoopInv (ph : Phase) (start : Nat) (s : RS) : Prop :=
  1 ≤ s.bufsz ∧
  s.p ≤ s.q ∧
  s.q ≤ s.bufsz ∧
  1 ≤ s.min1stchunklen ∧
  s.min1stchunklen ≤ s.bufsz ∧
  s.p ≤ start ∧
  start ≤ s.bufsz ∧
  NoDelim s s.p (min start s.q) ∧
  s.next_delim_ptr_peek = s.bufsz ∧
  s.longline_ended = false ∧
  ((s.eof_seen = true ∨ s.err_seen = true) → s.input = []) ∧
  ((s.eof_seen = true ∨ s.err_seen = true) → s.p = s.q ∨ start = s.bufsz) ∧
  (s.in_longline = true → s.p = 0 ∨ (s.p = s.q ∧ s.q = s.bufsz)) ∧
  (ph = Phase.fast → s.in_longline = false)

instance (ph : Phase) (start : Nat) (s : RS) : Decidable (LoopInv ph start s) := by
  unfold LoopInv
  infer_instance

/-! ### Conclusions of one loop iteration -/

/-- Everything established about a result-returning loop iteration,
relative to the iteration entry state `s`. -/
def RetFacts (s : RS) (r : RSResult) (s1 : RS) : Prop :=
  RSInv s1 ∧
  dataBytesOf r s1 ++ window s1 ++ s1.input = window s ++ s.input ∧
  s1.ninval = s.ninval ∧
  s1.nreads = s.nreads ∧
  s1.terminate_current_pause = s.terminate_current_pause ∧
  s1.pause_on_inval = s.pause_on_inval ∧
  s1.bufsz = s.bufsz ∧
  s1.delimiterbyte = s.delimiterbyte ∧
  s1.min1stchunklen = s.min1stchunklen ∧
  (r.type = RT.rt_eof →
    s1.p = s1.q ∧ s1.input = [] ∧ s1.eof_seen = true ∧ s1.in_longline = false) ∧
  (r.type = RT.rt_err →
    s1.p = s1.q ∧ s1.input = [] ∧ s1.err_seen = true ∧ s1.eof_seen = false ∧
    s1.in_longline = false ∧ r.errnum = s1.errnum) ∧
  (isDataType r.type = true →
    ∃ b e, r.line_begin = some b ∧ r.line_end = some e ∧ e < s1.q) ∧
  (r.type = RT.rt_full_line →
    ∃ b e, r.line_begin = some b ∧ r.line_end = some e ∧ b ≤ e ∧ e < s1.q ∧
      s1.q ≤ s1.bufsz ∧ getByte s1 e = s1.delimiterbyte ∧ NoDelim s1 b e) ∧
  (r.type = RT.rt_full_line_without_eol →
    ∃ b e, r.line_begin = some b ∧ r.line_end = some e ∧ b ≤ e ∧ e < s1.q ∧
      NoDelim s1 b (e + 1)) ∧
  (s.in_longline = true →
    r.type = RT.rt_within_longline ∨ r.type = RT.rt_longline_ended ∨
    r.type = RT.rt_paused) ∧
  (r.type = RT.rt_start_longline →
    s.in_longline = false ∧ s1.in_longline = true ∧ s1.longline_ended = false) ∧
  (r.type = RT.rt_within_longline →
    s.in_longline = true ∧ s1.in_longline = true ∧
    ∃ b e, r.line_begin = some b ∧ r.line_end = some e ∧ b ≤ e) ∧
  (r.type = RT.rt_longline_ended →
    r.line_begin = none ∧ r.line_end = none ∧ s1.in_longline = false ∧
    s1.longline_ended = false) ∧
  (r.type = RT.rt_paused →
    s1.p = s.p ∧ s1.q = s.q ∧ s1.mem = s.mem ∧ s1.input = s.input ∧
    s.pause_on_inval = true ∧ s.terminate_current_pause = false) ∧
  (NoPauseSt s → r.type ≠ RT.rt_paused)

/-- Everything established about a continuing loop iteration, relative
to the iteration entry state `s`. -/
def ContFacts (s : RS) (s1 : RS) : Prop :=
  window s1 ++ s1.input = window s ++ s.input ∧
  s1.ninval ≤ s.ninval + 1 ∧
  (NoPauseSt s → s1.ninval = s.ninval ∧ NoPauseSt s1) ∧
  (s.pause_on_inval = true → s.terminate_current_pause = false →
    s1.ninval = s.ninval) ∧
  (s1.terminate_current_pause = true →
    s.terminate_current_pause = true ∧ s1.ninval = s.ninval) ∧
  ((s1.p = s.p ∧ s.q ≤ s1.q ∧ (∀ k, k < s.q → getByte s1 k = getByte s k)) ∨
    NoPauseSt s1) ∧
  s1.pause_on_inval = s.pause_on_inval ∧
  s1.in_longline = s.in_longline ∧
  s1.bufsz = s.bufsz ∧
  s1.delimiterbyte = s.delimiterbyte ∧
  s1.min1stchunklen = s.min1stchunklen

/-- Both directions of what one loop iteration establishes. -/
def StepConcl (ph : Phase) (start : Nat) (s : RS) : Prop :=
  (∀ r s1, loopStep ph start s = StepRes.ret r s1 → RetFacts s r s1) ∧
  (∀ ph1 start1 s1, loopStep ph start s = StepRes.cont ph1 start1 s1 →
    ContFacts s s1 ∧ LoopInv ph1 start1 s1)


/-- Facts established by a complete run of the getline loop, relative to
the loop entry state `s`: the state invariant, the byte-conservation
equation, pause/invalidation accounting and per-result-type guarantees. -/
def LoopFacts (s : RS) (r : RSResult) (s1 : RS) : Prop :=
  RSInv s1 ∧
  dataBytesOf r s1 ++ window s1 ++ s1.input = window s ++ s.input ∧
  (NoPauseSt s → s1.ninval = s.ninval ∧ r.type ≠ RT.rt_paused) ∧
  (s.pause_on_inval = true → s.terminate_current_pause = false →
    s1.ninval = s.ninval) ∧
  s1.pause_on_inval = s.pause_on_inval ∧
  s1.bufsz = s.bufsz ∧
  s1.delimiterbyte = s.delimiterbyte ∧
  s1.min1stchunklen = s.min1stchunklen ∧
  (r.type = RT.rt_eof →
    s1.p = s1.q ∧ s1.input = [] ∧ s1.eof_seen = true ∧
    s1.in_longline = false) ∧
  (r.type = RT.rt_err →
    s1.p = s1.q ∧ s1.input = [] ∧ s1.err_seen = true ∧ s1.eof_seen = false ∧
    s1.in_longline = false ∧ r.errnum = s1.errnum) ∧
  (isDataType r.type = true →
    ∃ b e, r.line_begin = some b ∧ r.line_end = some e ∧ e < s1.q) ∧
  (r.type = RT.rt_full_line →
    ∃ b e, r.line_begin = some b ∧ r.line_end = some e ∧ b ≤ e ∧ e < s1.q ∧
      s1.q ≤ s1.bufsz ∧ getByte s1 e = s1.delimiterbyte ∧ NoDelim s1 b e) ∧
  (r.type = RT.rt_full_line_without_eol →
    ∃ b e, r.line_begin = some b ∧ r.line_end = some e ∧ b ≤ e ∧ e < s1.q ∧
      NoDelim s1 b (e + 1)) ∧
  (s.in_longline = true →
    r.type = RT.rt_within_longline ∨ r.type = RT.rt_longline_ended ∨
    r.type = RT.rt_paused) ∧
  (r.type = RT.rt_start_longline →
    s.in_longline = false ∧ s1.in_longline = true ∧
    s1.longline_ended = false) ∧
  (r.type = RT.rt_within_longline →
    s.in_longline = true ∧ s1.in_longline = true ∧
    ∃ b e, r.line_begin = some b ∧ r.line_end = some e ∧ b ≤ e) ∧
  (r.type = RT.rt_longline_ended →
    r.line_begin = none ∧ r.line_end = none ∧ s1.in_longline = false ∧
    s1.longline_ended = false) ∧
  (r.type = RT.rt_paused → s.pause_on_inval = true) ∧
  (r.type = RT.rt_paused →
    s1.p = s.p ∧ s.q ≤ s1.q ∧ (∀ k, k < s.q → getByte s1 k = getByte s k)) ∧
  (s.pause_on_inval = true → s1.ninval ≤ s.ninval + 1)


/-- The state marks left behind by an Error return: further calls keep
returning Error without touching the input. -/
def PostErr (s : RS) : Prop :=
  RSInv s ∧ s.err_seen = true ∧ s.eof_seen = false ∧ s.in_longline = false

/-- The state marks left behind by an EndOfFile return: further calls
keep returning EndOfFile without touching the input. -/
def PostEof (s : RS) : Prop :=
  RSInv s ∧ s.eof_seen = true ∧ s.in_longline = false

instance (s : RS) : Decidable (PostErr s) := by
  unfold PostErr
  infer_instance

instance (s : RS) : Decidable (PostEof s) := by
  unfold PostEof
  infer_instance

/-- The scanner state after `k` further `rs_getline` calls (each run
with loop fuel `fuel`), discarding the results. -/
def rs_calls : Nat → Nat → RS → Option RS
  | 0, _, s => some s
  | k + 1, fuel, s =>
      match rs_getline fuel s with
      | none => none
      | some (_, s1) => rs_calls k fuel s1


/-! ### Basic lemmas about the delimiter scan -/

theorem findFrom_spec (s : RS) :
    ∀ fuel start, start ≤ s.bufsz → start + fuel = s.bufsz + 1 →
      start ≤ findFrom s start fuel ∧ findFrom s start fuel ≤ s.bufsz ∧
      getByte s (findFrom s start fuel) = s.delimiterbyte ∧
      ∀ k, start ≤ k → k < findFrom s start fuel →
        getByte s k ≠ s.delimiterbyte := by
  intro fuel
  induction fuel with
  | zero =>
      intro start hs h
      exact absurd h (by omega)
  | succ n ih =>
      intro start hs h
      by_cases hd : getByte s start = s.delimiterbyte
      · have hunf : findFrom s start (n + 1) = start := by
          simp [findFrom, hd]
        rw [hunf]
        refine ⟨le_refl _, hs, hd, ?_⟩
        intro k hk1 hk2
        omega
      · have hlt : start < s.bufsz := by
          rcases Nat.lt_or_ge start s.bufsz with h1 | h1
          · exact h1
          · exfalso
            apply hd
            unfold getByte
            rw [if_neg (by omega)]
        have hunf : findFrom s start (n + 1) = findFrom s (start + 1) n := by
          simp [findFrom, hd]
        have ih2 := ih (start + 1) (by omega) (by omega)
        rw [hunf]
        refine ⟨by omega, ih2.2.1, ih2.2.2.1, ?_⟩
        intro k hk1 hk2
        rcases Nat.eq_or_lt_of_le hk1 with he | hlt2
        · rw [← he]; exact hd
        · exact ih2.2.2.2 k hlt2 hk2

theorem rawmemchr_spec (s : RS) (start : Nat) (h : start ≤ s.bufsz) :
    start ≤ rawmemchr s start ∧ rawmemchr s start ≤ s.bufsz ∧
    getByte s (rawmemchr s start) = s.delimiterbyte ∧
    ∀ k, start ≤ k → k < rawmemchr s start →
      getByte s k ≠ s.delimiterbyte := by
  unfold rawmemchr
  exact findFrom_spec s (s.bufsz + 1 - start) start h (by omega)

theorem rawmemchr_bufsz (s : RS) : rawmemchr s s.bufsz = s.bufsz := by
  have h := rawmemchr_spec s s.bufsz (le_refl _)
  omega

theorem getByte_sentinel (s : RS) (k : Nat) (h : s.bufsz ≤ k) :
    getByte s k = s.delimiterbyte := by
  unfold getByte
  rw [if_neg (by omega)]

/-! ### Basic lemmas about byte ranges -/

theorem bytesBetween_nil (s : RS) (a b : Nat) (h : b ≤ a) :
    bytesBetween s a b = [] := by
  unfold bytesBetween
  rw [Nat.sub_eq_zero_of_le h]
  simp

theorem bytesBetween_split (s : RS) (a m b : Nat) (h1 : a ≤ m) (h2 : m ≤ b) :
    bytesBetween s a b = bytesBetween s a m ++ bytesBetween s m b := by
  unfold bytesBetween
  have hb : b - a = (m - a) + (b - m) := by omega
  rw [hb, List.range_add, List.map_append, List.map_map]
  congr 1
  apply List.map_congr_left
  intro i _
  simp only [Function.comp_apply]
  congr 1
  omega

theorem bytesBetween_congr (s t : RS) (a b : Nat)
    (h : ∀ k, a ≤ k → k < b → getByte s k = getByte t k) :
    bytesBetween s a b = bytesBetween t a b := by
  unfold bytesBetween
  apply List.map_congr_left
  intro i hi
  rw [List.mem_range] at hi
  exact h (a + i) (by omega) (by omega)

theorem bytesBetween_len_congr (s t : RS) (a b c d : Nat)
    (hlen : b - a = d - c)
    (h : ∀ i, i < b - a → getByte s (a + i) = getByte t (c + i)) :
    bytesBetween s a b = bytesBetween t c d := by
  unfold bytesBetween
  rw [← hlen]
  apply List.map_congr_left
  intro i hi
  rw [List.mem_range] at hi
  exact h i hi

theorem list_eq_range_map (l : List Nat) (f : Nat → Nat)
    (h : ∀ i, ∀ hi : i < l.length, l[i] = f i) :
    l = (List.range l.length).map f := by
  apply List.ext_getElem
  · simp
  · intro i h1 h2
    simp only [List.getElem_map, List.getElem_range]
    exact h i h1

/-! ### Lemmas about `rawscan_read` -/

theorem readCnt_le_input (s : RS) : readCnt s ≤ s.input.length := by
  unfold readCnt
  exact le_trans (Nat.min_le_right _ _) (Nat.min_le_left _ _)

theorem readCnt_le_space (s : RS) : readCnt s ≤ s.bufsz - s.q := by
  unfold readCnt
  exact le_trans (Nat.min_le_right _ _) (Nat.min_le_right _ _)

theorem readCnt_pos_iff (s : RS) :
    0 < readCnt s ↔ 0 < min s.input.length (s.bufsz - s.q) := by
  unfold readCnt
  constructor
  · intro h
    exact lt_of_lt_of_le h (Nat.min_le_right _ _)
  · intro h
    exact Nat.lt_min.mpr
      ⟨lt_of_lt_of_le Nat.zero_lt_one (Nat.le_max_right _ 1), h⟩

theorem rawscan_read_pos (s : RS)
    (h : 0 < readCnt s) :
    rawscan_read s = (some s.q, readAdvance s (readCnt s)) := by
  unfold rawscan_read
  simp only []
  rw [if_pos h]

theorem readAdvance_fields (s : RS) (cnt : Nat) :
    (readAdvance s cnt).p = s.p ∧
    (readAdvance s cnt).q = s.q + cnt ∧
    (readAdvance s cnt).input = s.input.drop cnt ∧
    (readAdvance s cnt).bufsz = s.bufsz ∧
    (readAdvance s cnt).min1stchunklen = s.min1stchunklen ∧
    (readAdvance s cnt).delimiterbyte = s.delimiterbyte ∧
    (readAdvance s cnt).next_delim_ptr_peek = s.next_delim_ptr_peek ∧
    (readAdvance s cnt).in_longline = s.in_longline ∧
    (readAdvance s cnt).longline_ended = s.longline_ended ∧
    (readAdvance s cnt).eof_seen = s.eof_seen ∧
    (readAdvance s cnt).err_seen = s.err_seen ∧
    (readAdvance s cnt).pause_on_inval = s.pause_on_inval ∧
    (readAdvance s cnt).terminate_current_pause = s.terminate_current_pause ∧
    (readAdvance s cnt).ninval = s.ninval ∧
    (readAdvance s cnt).nreads = s.nreads + 1 ∧
    (readAdvance s cnt).readErr = s.readErr ∧
    (readAdvance s cnt).errnum = s.errnum ∧
    (readAdvance s cnt).result = s.result ∧
    (readAdvance s cnt).end_this_chunk = s.end_this_chunk ∧
    (readAdvance s cnt).next_val_p = s.next_val_p := by
  unfold readAdvance
  refine ⟨rfl, rfl, rfl, rfl, rfl, rfl, rfl, rfl, rfl, rfl, rfl, rfl, rfl,
    rfl, rfl, rfl, rfl, rfl, rfl, rfl⟩

theorem readAdvance_getByte_lo (s : RS) (cnt : Nat) (k : Nat)
    (hk : k < s.q) : getByte (readAdvance s cnt) k = getByte s k := by
  unfold readAdvance readMemAfter writeRange getByte
  simp only []
  by_cases hb : k < s.bufsz
  · rw [if_pos hb, if_pos hb]
    by_cases hq1 : s.q + cnt < s.bufsz
    · rw [if_pos hq1]
      rw [if_neg (by omega)]
      rw [if_neg (by omega)]
    · rw [if_neg hq1]
      rw [if_neg (by omega)]
  · rw [if_neg hb, if_neg hb]

theorem readAdvance_getByte_new (s : RS) (cnt : Nat)
    (hcnt : cnt ≤ s.input.length) (hsp : s.q + cnt ≤ s.bufsz)
    (i : Nat) (hi : i < cnt) :
    getByte (readAdvance s cnt) (s.q + i) = (s.input.take cnt).getD i 0 := by
  unfold readAdvance readMemAfter writeRange getByte
  simp only []
  rw [if_pos (by omega)]
  have htl : (s.input.take cnt).length = cnt := by
    rw [List.length_take]
    omega
  by_cases hq1 : s.q + cnt < s.bufsz
  · rw [if_pos hq1]
    rw [if_neg (by omega)]
    rw [if_pos (by omega)]
    congr 1
    omega
  · rw [if_neg hq1]
    rw [if_pos (by omega)]
    congr 1
    omega

theorem readAdvance_window_new (s : RS) (cnt : Nat)
    (hcnt : cnt ≤ s.input.length) (hsp : s.q + cnt ≤ s.bufsz) :
    bytesBetween (readAdvance s cnt) s.q (s.q + cnt) = s.input.take cnt := by
  have htl : (s.input.take cnt).length = cnt := by
    rw [List.length_take]
    omega
  have h1 : s.input.take cnt =
      (List.range (s.input.take cnt).length).map
        (fun i => getByte (readAdvance s cnt) (s.q + i)) := by
    apply list_eq_range_map
    intro i hi
    rw [htl] at hi
    rw [readAdvance_getByte_new s cnt hcnt hsp i hi]
    rw [List.getD_eq_getElem]
  rw [htl] at h1
  unfold bytesBetween
  have harg : s.q + cnt - s.q = cnt := by omega
  rw [harg]
  exact h1.symm

theorem rawscan_read_zero (s : RS)
    (h : readCnt s = 0) :
    (rawscan_read s).1 = none ∧
    ((rawscan_read s).2.eof_seen = true ∨ (rawscan_read s).2.err_seen = true) ∧
    (rawscan_read s).2.p = s.p ∧
    (rawscan_read s).2.q = s.q ∧
    (rawscan_read s).2.mem = s.mem ∧
    (rawscan_read s).2.input = s.input ∧
    (rawscan_read s).2.bufsz = s.bufsz ∧
    (rawscan_read s).2.min1stchunklen = s.min1stchunklen ∧
    (rawscan_read s).2.delimiterbyte = s.delimiterbyte ∧
    (rawscan_read s).2.next_delim_ptr_peek = s.next_delim_ptr_peek ∧
    (rawscan_read s).2.in_longline = s.in_longline ∧
    (rawscan_read s).2.longline_ended = s.longline_ended ∧
    (s.eof_seen = true → (rawscan_read s).2.eof_seen = true) ∧
    (s.err_seen = true → (rawscan_read s).2.err_seen = true) ∧
    (rawscan_read s).2.pause_on_inval = s.pause_on_inval ∧
    (rawscan_read s).2.terminate_current_pause = s.terminate_current_pause ∧
    (rawscan_read s).2.ninval = s.ninval ∧
    (rawscan_read s).2.result = s.result ∧
    (rawscan_read s).2.end_this_chunk = s.end_this_chunk ∧
    (rawscan_read s).2.next_val_p = s.next_val_p ∧
    ((rawscan_read s).2.err_seen = true → s.err_seen = true ∨ s.readErr ≠ none) := by
  unfold rawscan_read
  simp only []
  rw [if_neg (by omega)]
  by_cases hsp : s.bufsz - s.q = 0
  · rw [if_pos hsp]
    refine ⟨rfl, Or.inl rfl, rfl, rfl, rfl, rfl, rfl, rfl, rfl, rfl, rfl, rfl,
      fun _ => rfl, fun hh => hh, rfl, rfl, rfl, rfl, rfl, rfl, fun hh => Or.inl hh⟩
  · rw [if_neg hsp]
    cases hre : s.readErr with
    | some e =>
        refine ⟨rfl, Or.inr rfl, rfl, rfl, rfl, rfl, rfl, rfl, rfl, rfl, rfl, rfl,
          fun hh => hh, fun _ => rfl, rfl, rfl, rfl, rfl, rfl, rfl, ?_⟩
        intro _
        exact Or.inr (by simp)
    | none =>
        refine ⟨rfl, Or.inl rfl, rfl, rfl, rfl, rfl, rfl, rfl, rfl, rfl, rfl, rfl,
          fun _ => rfl, fun hh => hh, rfl, rfl, rfl, rfl, rfl, rfl, fun hh => Or.inl hh⟩

theorem rawscan_read_zero_input (s : RS)
    (h : readCnt s = 0) (hq : s.q < s.bufsz) :
    s.input = [] := by
  have hmin : min s.input.length (s.bufsz - s.q) = 0 := by
    have := (readCnt_pos_iff s).mpr
    omega
  have : s.input.length = 0 := by omega
  exact List.length_eq_zero.mp this

/-! ### Lemmas about the downward shift -/

theorem shift_spec (s : RS)
    (hq : s.q = s.bufsz) (hm : s.min1stchunklen ≤ s.bufsz)
    (hp : s.bufsz - s.min1stchunklen < s.p) (hpq : s.p ≤ s.q) :
    (rawscan_shift_buffer_contents_down s).p = s.bufsz - s.min1stchunklen ∧
    (rawscan_shift_buffer_contents_down s).q =
      s.q - (s.p - (s.bufsz - s.min1stchunklen)) ∧
    (rawscan_shift_buffer_contents_down s).q < s.bufsz ∧
    (rawscan_shift_buffer_contents_down s).bufsz = s.bufsz ∧
    (rawscan_shift_buffer_contents_down s).min1stchunklen = s.min1stchunklen ∧
    (rawscan_shift_buffer_contents_down s).delimiterbyte = s.delimiterbyte ∧
    (rawscan_shift_buffer_contents_down s).input = s.input ∧
    (rawscan_shift_buffer_contents_down s).next_delim_ptr_peek = s.next_delim_ptr_peek ∧
    (rawscan_shift_buffer_contents_down s).in_longline = s.in_longline ∧
    (rawscan_shift_buffer_contents_down s).longline_ended = s.longline_ended ∧
    (rawscan_shift_buffer_contents_down s).eof_seen = s.eof_seen ∧
    (rawscan_shift_buffer_contents_down s).err_seen = s.err_seen ∧
    (rawscan_shift_buffer_contents_down s).pause_on_inval = s.pause_on_inval ∧
    (rawscan_shift_buffer_contents_down s).ninval = s.ninval ∧
    (rawscan_shift_buffer_contents_down s).nreads = s.nreads ∧
    (rawscan_shift_buffer_contents_down s).readErr = s.readErr ∧
    (rawscan_shift_buffer_contents_down s).errnum = s.errnum ∧
    (rawscan_shift_buffer_contents_down s).result = s.result ∧
    (rawscan_shift_buffer_contents_down s).min1stchunklen +
      (rawscan_shift_buffer_contents_down s).p = s.bufsz ∧
    (∀ i, i < s.q - s.p →
      getByte (rawscan_shift_buffer_contents_down s)
        ((s.bufsz - s.min1stchunklen) + i) = getByte s (s.p + i)) ∧
    bytesBetween (rawscan_shift_buffer_contents_down s)
        (rawscan_shift_buffer_contents_down s).p
        (rawscan_shift_buffer_contents_down s).q =
      bytesBetween s s.p s.q := by
  have hfar : 0 < s.p - (s.bufsz - s.min1stchunklen) := by omega
  have hsp : (rawscan_shift_buffer_contents_down s).p =
      s.p - (s.p - (s.bufsz - s.min1stchunklen)) := rfl
  have hsq : (rawscan_shift_buffer_contents_down s).q =
      s.q - (s.p - (s.bufsz - s.min1stchunklen)) := rfl
  have hbyte : ∀ i, i < s.q - s.p →
      getByte (rawscan_shift_buffer_contents_down s)
        ((s.bufsz - s.min1stchunklen) + i) = getByte s (s.p + i) := by
    intro i hi
    have hmem : (rawscan_shift_buffer_contents_down s).mem =
        fun k => if s.p - (s.p - (s.bufsz - s.min1stchunklen)) ≤ k ∧
            k < s.p - (s.p - (s.bufsz - s.min1stchunklen)) + (s.q - s.p) then
          s.mem (k + (s.p - (s.bufsz - s.min1stchunklen)))
        else s.mem k := rfl
    have hbz : (rawscan_shift_buffer_contents_down s).bufsz = s.bufsz := rfl
    have hdb : (rawscan_shift_buffer_contents_down s).delimiterbyte =
        s.delimiterbyte := rfl
    unfold getByte
    rw [hmem, hbz, hdb]
    rw [if_pos (by omega), if_pos (by omega)]
    simp only []
    rw [if_pos (by constructor <;> omega)]
    congr 1
    omega
  have hsm : (rawscan_shift_buffer_contents_down s).min1stchunklen =
      s.min1stchunklen := rfl
  refine ⟨by rw [hsp]; omega, hsq, by rw [hsq]; omega, rfl, rfl, rfl, rfl, rfl,
    rfl, rfl, rfl, rfl, rfl, rfl, rfl, rfl, rfl, rfl,
    by rw [hsm, hsp]; omega, ?_, ?_⟩
  · intro i hi
    exact hbyte i hi
  · apply bytesBetween_len_congr
    · rw [hsp, hsq]
      omega
    · intro i hi
      rw [hsp, hsq] at hi
      rw [hsp]
      have h2 : s.p - (s.p - (s.bufsz - s.min1stchunklen)) =
          s.bufsz - s.min1stchunklen := by omega
      rw [h2]
      exact hbyte i (by omega)

/-! ### State congruence helpers -/

theorem getByte_congr_fields (s t : RS) (hm : t.mem = s.mem)
    (hb : t.bufsz = s.bufsz) (hd : t.delimiterbyte = s.delimiterbyte)
    (k : Nat) : getByte t k = getByte s k := by
  unfold getByte
  rw [hm, hb, hd]

theorem bytesBetween_state_congr (s t : RS) (hm : t.mem = s.mem)
    (hb : t.bufsz = s.bufsz) (hd : t.delimiterbyte = s.delimiterbyte)
    (a b : Nat) : bytesBetween t a b = bytesBetween s a b := by
  apply bytesBetween_congr
  intro k _ _
  exact getByte_congr_fields s t hm hb hd k

theorem noDelim_state_congr (s t : RS) (hm : t.mem = s.mem)
    (hb : t.bufsz = s.bufsz) (hd : t.delimiterbyte = s.delimiterbyte)
    (a b : Nat) (h : NoDelim s a b) : NoDelim t a b := by
  intro k hk1 hk2
  rw [getByte_congr_fields s t hm hb hd k, hd]
  exact h k hk1 hk2

theorem handle_end_false (s : RS) (h : s.longline_ended = false) :
    rawscan_handle_end_of_longline s =
      rawscan_within_longline { s with longline_ended := true } := by
  unfold rawscan_handle_end_of_longline
  rw [if_pos h]

theorem handle_end_true (s : RS) (h : s.longline_ended = true) :
    rawscan_handle_end_of_longline s = rawscan_terminate_longline s := by
  unfold rawscan_handle_end_of_longline
  rw [if_neg (by simp [h])]

theorem slow_step_full_delim (start : Nat) (s : RS)
    (hinv : LoopInv Phase.slow start s)
    (hd : rawmemchr s start < s.q) (hill : s.in_longline = false) :
    StepConcl Phase.slow start s := by
  obtain ⟨h1, h2, h3, h4, h5, h6, h7, h8, h9, h10, h11, h12, h13, h15⟩ := hinv
  have hspec := rawmemchr_spec s start h7
  have hstq : start < s.q := by omega
  have hnoeof : ¬ (s.eof_seen = true ∨ s.err_seen = true) := by
    intro he
    rcases h12 he with hpq | hsb
    · omega
    · omega
  constructor
  case right =>
    intro ph1 st1 s1 h
    unfold loopStep at h
    rw [if_pos hd] at h
    dsimp only at h
    rw [if_neg (by simp [hill])] at h
    simp at h
  case left =>
  intro r s1 hstep
  unfold loopStep at hstep
  rw [if_pos hd] at hstep
  dsimp only at hstep
  rw [if_neg (by simp [hill])] at hstep
  unfold rawscan_full_line at hstep
  dsimp only [Option.getD] at hstep
  split at hstep
  case isFalse hc => exact absurd hspec.2.2.1 hc
  case isTrue hc =>
  injection hstep with hr hs
  subst hr
  subst hs
  have hmin : min start s.q = start := by omega
  rw [hmin] at h8
  have hnd : NoDelim s s.p (rawmemchr s start) := by
    intro k hk hpk
    by_cases hks : k < start
    · exact h8 k hks hpk
    · exact hspec.2.2.2 k (by omega) hk
  unfold RetFacts
  refine ⟨?_, ?_, rfl, rfl, rfl, rfl, rfl, rfl, rfl, ?_, ?_, ?_, ?_, ?_, ?_,
    ?_, ?_, ?_, ?_, ?_⟩
  · unfold RSInv
    refine ⟨h1, ?_, h3, h4, h5, ?_, ?_, ?_, ?_, ?_, ?_⟩
    · show rawmemchr s start + 1 ≤ s.q
      omega
    · show s.next_delim_ptr_peek ≤ s.bufsz
      omega
    · unfold PeekInv
      intro ha hb
      have hb2 : s.next_delim_ptr_peek < s.q := hb
      exact absurd hb2 (by omega)
    · intro _
      show s.next_delim_ptr_peek = s.bufsz
      exact h9
    · intro hi
      have hi2 : s.in_longline = true := hi
      simp [hill] at hi2
    · intro he
      have he2 : s.longline_ended = true := he
      simp [h10] at he2
    · intro he
      have he2 : s.eof_seen = true ∨ s.err_seen = true := he
      exact absurd he2 hnoeof
  · have hcong := bytesBetween_state_congr s
      { s with
        end_this_chunk := some (rawmemchr s start),
        next_val_p := some (rawmemchr s start + 1),
        result := { type := RT.rt_full_line,
                    line_begin := some s.p,
                    line_end := some (rawmemchr s start),
                    errnum := s.result.errnum },
        p := rawmemchr s start + 1 } rfl rfl rfl
    have hd1 : dataBytesOf
        { type := RT.rt_full_line,
          line_begin := some s.p,
          line_end := some (rawmemchr s start),
          errnum := s.result.errnum }
        { s with
          end_this_chunk := some (rawmemchr s start),
          next_val_p := some (rawmemchr s start + 1),
          result := { type := RT.rt_full_line,
                      line_begin := some s.p,
                      line_end := some (rawmemchr s start),
                      errnum := s.result.errnum },
          p := rawmemchr s start + 1 } =
        bytesBetween s s.p (rawmemchr s start + 1) := by
      unfold dataBytesOf isDataType
      dsimp only
      rw [if_pos rfl]
      rw [hcong]
    have hw1 : window
        { s with
          end_this_chunk := some (rawmemchr s start),
          next_val_p := some (rawmemchr s start + 1),
          result := { type := RT.rt_full_line,
                      line_begin := some s.p,
                      line_end := some (rawmemchr s start),
                      errnum := s.result.errnum },
          p := rawmemchr s start + 1 } =
        bytesBetween s (rawmemchr s start + 1) s.q := by
      unfold window
      rw [hcong]
    have hw0 : window s = bytesBetween s s.p s.q := rfl
    rw [hd1, hw1, hw0]
    rw [bytesBetween_split s s.p (rawmemchr s start + 1) s.q (by omega) (by omega)]
  · intro h
    simp at h
  · intro h
    simp at h
  · intro _
    exact ⟨s.p, rawmemchr s start, rfl, rfl, hd⟩
  · intro _
    refine ⟨s.p, rawmemchr s start, rfl, rfl, by omega, hd, h3, hspec.2.2.1, ?_⟩
    exact noDelim_state_congr s _ rfl rfl rfl _ _ hnd
  · intro h
    simp at h
  · intro h
    exact absurd h (by simp [hill])
  · intro h
    simp at h
  · intro h
    simp at h
  · intro h
    simp at h
  · intro h
    simp at h
  · intro _ hx
    simp at hx

theorem slow_step_within_delim (start : Nat) (s : RS)
    (hinv : LoopInv Phase.slow start s)
    (hd : rawmemchr s start < s.q) (hil : s.in_longline = true) :
    StepConcl Phase.slow start s := by
  obtain ⟨h1, h2, h3, h4, h5, h6, h7, h8, h9, h10, h11, h12, h13, h15⟩ := hinv
  have hspec := rawmemchr_spec s start h7
  have hstq : start < s.q := by omega
  have hnoeof : ¬ (s.eof_seen = true ∨ s.err_seen = true) := by
    intro he
    rcases h12 he with hpq | hsb
    · omega
    · omega
  constructor
  case right =>
    intro ph1 st1 s1 h
    unfold loopStep at h
    rw [if_pos hd] at h
    dsimp only at h
    rw [if_pos (by exact hil)] at h
    simp at h
  case left =>
  intro r s1 hstep
  unfold loopStep at hstep
  rw [if_pos hd] at hstep
  dsimp only at hstep
  rw [if_pos (by exact hil)] at hstep
  unfold rawscan_handle_end_of_longline at hstep
  rw [if_pos (by exact h10)] at hstep
  unfold rawscan_within_longline at hstep
  dsimp only [Option.getD] at hstep
  injection hstep with hr hs
  subst hr
  subst hs
  unfold RetFacts
  refine ⟨?_, ?_, rfl, rfl, rfl, rfl, rfl, rfl, rfl, ?_, ?_, ?_, ?_, ?_, ?_,
    ?_, ?_, ?_, ?_, ?_⟩
  · unfold RSInv
    refine ⟨h1, ?_, h3, h4, h5, ?_, ?_, ?_, ?_, ?_, ?_⟩
    · show rawmemchr s start + 1 ≤ s.q
      omega
    · show s.next_delim_ptr_peek ≤ s.bufsz
      omega
    · unfold PeekInv
      intro ha hb
      have hb2 : s.next_delim_ptr_peek < s.q := hb
      exact absurd hb2 (by omega)
    · intro _
      show s.next_delim_ptr_peek = s.bufsz
      exact h9
    · intro hi he
      simp at he
    · intro _
      exact hil
    · intro he
      have he2 : s.eof_seen = true ∨ s.err_seen = true := he
      exact absurd he2 hnoeof
  · have hcong := bytesBetween_state_congr s
      { s with
        end_this_chunk := none,
        next_val_p := none,
        longline_ended := true,
        result := { type := RT.rt_within_longline,
                    line_begin := some s.p,
                    line_end := some (rawmemchr s start),
                    errnum := s.result.errnum },
        p := rawmemchr s start + 1 } rfl rfl rfl
    have hd1 : dataBytesOf
        { type := RT.rt_within_longline,
          line_begin := some s.p,
          line_end := some (rawmemchr s start),
          errnum := s.result.errnum }
        { s with
          end_this_chunk := none,
          next_val_p := none,
          longline_ended := true,
          result := { type := RT.rt_within_longline,
                      line_begin := some s.p,
                      line_end := some (rawmemchr s start),
                      errnum := s.result.errnum },
          p := rawmemchr s start + 1 } =
        bytesBetween s s.p (rawmemchr s start + 1) := by
      unfold dataBytesOf isDataType
      dsimp only
      rw [if_pos rfl]
      rw [hcong]
    have hw1 : window
        { s with
          end_this_chunk := none,
          next_val_p := none,
          longline_ended := true,
          result := { type := RT.rt_within_longline,
                      line_begin := some s.p,
                      line_end := some (rawmemchr s start),
                      errnum := s.result.errnum },
          p := rawmemchr s start + 1 } =
        bytesBetween s (rawmemchr s start + 1) s.q := by
      unfold window
      rw [hcong]
    have hw0 : window s = bytesBetween s s.p s.q := rfl
    rw [hd1, hw1, hw0]
    rw [bytesBetween_split s s.p (rawmemchr s start + 1) s.q (by omega) (by omega)]
  · intro h
    simp at h
  · intro h
    simp at h
  · intro _
    exact ⟨s.p, rawmemchr s start, rfl, rfl, hd⟩
  · intro h
    simp at h
  · intro h
    simp at h
  · intro _
    exact Or.inl rfl
  · intro h
    simp at h
  · intro _
    exact ⟨hil, hil, s.p, rawmemchr s start, rfl, rfl, by omega⟩
  · intro h
    simp at h
  · intro h
    simp at h
  · intro _ hx
    simp at hx

theorem slow_step_tail_full (start : Nat) (s : RS)
    (hinv : LoopInv Phase.slow start s)
    (hd2 : ¬ rawmemchr s start < s.q)
    (he : s.eof_seen = true ∨ s.err_seen = true)
    (hlen : 0 < s.q - s.p) (hill : s.in_longline = false) :
    StepConcl Phase.slow start s := by
  obtain ⟨h1, h2, h3, h4, h5, h6, h7, h8, h9, h10, h11, h12, h13, h15⟩ := hinv
  have hspec := rawmemchr_spec s start h7
  have hndq : NoDelim s s.p s.q := by
    intro k hk hpk
    by_cases hks : k < min start s.q
    · exact h8 k hks hpk
    · have hsk : start ≤ k := by omega
      exact hspec.2.2.2 k hsk (by omega)
  constructor
  case right =>
    intro ph1 st1 s1 h
    unfold loopStep at h
    rw [if_neg hd2, if_pos he, if_pos hlen] at h
    dsimp only at h
    rw [if_neg (by simp [hill])] at h
    simp at h
  case left =>
  intro r s1 hstep
  unfold loopStep at hstep
  rw [if_neg hd2, if_pos he, if_pos hlen] at hstep
  dsimp only at hstep
  rw [if_neg (by simp [hill])] at hstep
  unfold rawscan_full_line at hstep
  dsimp only [Option.getD] at hstep
  split at hstep
  case isTrue hc =>
    exact absurd hc (hndq (s.q - 1) (by omega) (by omega))
  case isFalse hc =>
  injection hstep with hr hs
  subst hr
  subst hs
  unfold RetFacts
  refine ⟨?_, ?_, rfl, rfl, rfl, rfl, rfl, rfl, rfl, ?_, ?_, ?_, ?_, ?_, ?_,
    ?_, ?_, ?_, ?_, ?_⟩
  · unfold RSInv
    refine ⟨h1, ?_, h3, h4, h5, ?_, ?_, ?_, ?_, ?_, ?_⟩
    · show s.q ≤ s.q
      exact le_refl _
    · show s.next_delim_ptr_peek ≤ s.bufsz
      omega
    · unfold PeekInv
      intro ha hb
      have hb2 : s.next_delim_ptr_peek < s.q := hb
      exact absurd hb2 (by omega)
    · intro _
      show s.next_delim_ptr_peek = s.bufsz
      exact h9
    · intro hi _
      have hi2 : s.in_longline = true := hi
      simp [hill] at hi2
    · intro hee
      have he2 : s.longline_ended = true := hee
      simp [h10] at he2
    · intro _
      exact ⟨h11 he, rfl⟩
  · have hcong := bytesBetween_state_congr s
      { s with
        end_this_chunk := some (s.q - 1),
        next_val_p := some s.q,
        result := { type := RT.rt_full_line_without_eol,
                    line_begin := some s.p,
                    line_end := some (s.q - 1),
                    errnum := s.result.errnum },
        p := s.q } rfl rfl rfl
    have hq1 : s.q - 1 + 1 = s.q := by omega
    have hd1 : dataBytesOf
        { type := RT.rt_full_line_without_eol,
          line_begin := some s.p,
          line_end := some (s.q - 1),
          errnum := s.result.errnum }
        { s with
          end_this_chunk := some (s.q - 1),
          next_val_p := some s.q,
          result := { type := RT.rt_full_line_without_eol,
                      line_begin := some s.p,
                      line_end := some (s.q - 1),
                      errnum := s.result.errnum },
          p := s.q } =
        bytesBetween s s.p s.q := by
      unfold dataBytesOf isDataType
      dsimp only
      rw [if_pos rfl]
      rw [hcong, hq1]
    have hw1 : window
        { s with
          end_this_chunk := some (s.q - 1),
          next_val_p := some s.q,
          result := { type := RT.rt_full_line_without_eol,
                      line_begin := some s.p,
                      line_end := some (s.q - 1),
                      errnum := s.result.errnum },
          p := s.q } = ([] : List Nat) := by
      unfold window
      rw [hcong]
      exact bytesBetween_nil s s.q s.q (le_refl _)
    have hw0 : window s = bytesBetween s s.p s.q := rfl
    rw [hd1, hw1, hw0]
    simp
  · intro h
    simp at h
  · intro h
    simp at h
  · intro _
    exact ⟨s.p, s.q - 1, rfl, rfl, by show s.q - 1 < s.q; omega⟩
  · intro h
    simp at h
  · intro _
    refine ⟨s.p, s.q - 1, rfl, rfl, by omega, by show s.q - 1 < s.q; omega, ?_⟩
    have hnd2 : NoDelim s s.p (s.q - 1 + 1) := by
      rw [show s.q - 1 + 1 = s.q from by omega]
      exact hndq
    exact noDelim_state_congr s _ rfl rfl rfl _ _ hnd2
  · intro h
    exact absurd h (by simp [hill])
  · intro h
    simp at h
  · intro h
    simp at h
  · intro h
    simp at h
  · intro h
    simp at h
  · intro _ hx
    simp at hx

theorem slow_step_tail_within (start : Nat) (s : RS)
    (hinv : LoopInv Phase.slow start s)
    (hd2 : ¬ rawmemchr s start < s.q)
    (he : s.eof_seen = true ∨ s.err_seen = true)
    (hlen : 0 < s.q - s.p) (hil : s.in_longline = true) :
    StepConcl Phase.slow start s := by
  obtain ⟨h1, h2, h3, h4, h5, h6, h7, h8, h9, h10, h11, h12, h13, h15⟩ := hinv
  constructor
  case right =>
    intro ph1 st1 s1 h
    unfold loopStep at h
    rw [if_neg hd2, if_pos he, if_pos hlen] at h
    dsimp only at h
    rw [if_pos (by exact hil)] at h
    simp at h
  case left =>
  intro r s1 hstep
  unfold loopStep at hstep
  rw [if_neg hd2, if_pos he, if_pos hlen] at hstep
  dsimp only at hstep
  rw [if_pos (by exact hil)] at hstep
  unfold rawscan_handle_end_of_longline at hstep
  rw [if_pos (by exact h10)] at hstep
  unfold rawscan_within_longline at hstep
  dsimp only [Option.getD] at hstep
  injection hstep with hr hs
  subst hr
  subst hs
  unfold RetFacts
  refine ⟨?_, ?_, rfl, rfl, rfl, rfl, rfl, rfl, rfl, ?_, ?_, ?_, ?_, ?_, ?_,
    ?_, ?_, ?_, ?_, ?_⟩
  · unfold RSInv
    refine ⟨h1, ?_, h3, h4, h5, ?_, ?_, ?_, ?_, ?_, ?_⟩
    · show s.q ≤ s.q
      exact le_refl _
    · show s.next_delim_ptr_peek ≤ s.bufsz
      omega
    · unfold PeekInv
      intro ha hb
      have hb2 : s.next_delim_ptr_peek < s.q := hb
      exact absurd hb2 (by omega)
    · intro _
      show s.next_delim_ptr_peek = s.bufsz
      exact h9
    · intro hi he2
      simp at he2
    · intro _
      exact hil
    · intro _
      exact ⟨h11 he, rfl⟩
  · have hcong := bytesBetween_state_congr s
      { s with
        end_this_chunk := none,
        next_val_p := none,
        longline_ended := true,
        result := { type := RT.rt_within_longline,
                    line_begin := some s.p,
                    line_end := some (s.q - 1),
                    errnum := s.result.errnum },
        p := s.q } rfl rfl rfl
    have hq1 : s.q - 1 + 1 = s.q := by omega
    have hd1 : dataBytesOf
        { type := RT.rt_within_longline,
          line_begin := some s.p,
          line_end := some (s.q - 1),
          errnum := s.result.errnum }
        { s with
          end_this_chunk := none,
          next_val_p := none,
          longline_ended := true,
          result := { type := RT.rt_within_longline,
                      line_begin := some s.p,
                      line_end := some (s.q - 1),
                      errnum := s.result.errnum },
          p := s.q } =
        bytesBetween s s.p s.q := by
      unfold dataBytesOf isDataType
      dsimp only
      rw [if_pos rfl]
      rw [hcong, hq1]
    have hw1 : window
        { s with
          end_this_chunk := none,
          next_val_p := none,
          longline_ended := true,
          result := { type := RT.rt_within_longline,
                      line_begin := some s.p,
                      line_end := some (s.q - 1),
                      errnum := s.result.errnum },
          p := s.q } = ([] : List Nat) := by
      unfold window
      rw [hcong]
      exact bytesBetween_nil s s.q s.q (le_refl _)
    have hw0 : window s = bytesBetween s s.p s.q := rfl
    rw [hd1, hw1, hw0]
    simp
  · intro h
    simp at h
  · intro h
    simp at h
  · intro _
    exact ⟨s.p, s.q - 1, rfl, rfl, by show s.q - 1 < s.q; omega⟩
  · intro h
    simp at h
  · intro h
    simp at h
  · intro _
    exact Or.inl rfl
  · intro h
    simp at h
  · intro _
    exact ⟨hil, hil, s.p, s.q - 1, rfl, rfl, by omega⟩
  · intro h
    simp at h
  · intro h
    simp at h
  · intro _ hx
    simp at hx

theorem slow_step_latch_end (start : Nat) (s : RS)
    (hinv : LoopInv Phase.slow start s)
    (hd2 : ¬ rawmemchr s start < s.q)
    (he : s.eof_seen = true ∨ s.err_seen = true)
    (hlen0 : ¬ 0 < s.q - s.p) (hil : s.in_longline = true) :
    StepConcl Phase.slow start s := by
  obtain ⟨h1, h2, h3, h4, h5, h6, h7, h8, h9, h10, h11, h12, h13, h15⟩ := hinv
  constructor
  case right =>
    intro ph1 st1 s1 h
    unfold loopStep at h
    rw [if_neg hd2, if_pos he, if_neg hlen0] at h
    dsimp only at h
    rw [if_pos (by exact hil)] at h
    unfold rawscan_handle_end_of_longline at h
    rw [if_neg (by simp)] at h
    simp [rawscan_terminate_longline] at h
  case left =>
  intro r s1 hstep
  unfold loopStep at hstep
  rw [if_neg hd2, if_pos he, if_neg hlen0] at hstep
  dsimp only at hstep
  rw [if_pos (by exact hil)] at hstep
  unfold rawscan_handle_end_of_longline at hstep
  rw [if_neg (by simp)] at hstep
  unfold rawscan_terminate_longline at hstep
  dsimp only at hstep
  injection hstep with hr hs
  subst hr
  subst hs
  unfold RetFacts
  refine ⟨?_, ?_, rfl, rfl, rfl, rfl, rfl, rfl, rfl, ?_, ?_, ?_, ?_, ?_, ?_,
    ?_, ?_, ?_, ?_, ?_⟩
  · unfold RSInv
    refine ⟨h1, h2, h3, h4, h5, ?_, ?_, ?_, ?_, ?_, ?_⟩
    · show s.next_delim_ptr_peek ≤ s.bufsz
      omega
    · unfold PeekInv
      intro ha hb
      have hb2 : s.next_delim_ptr_peek < s.q := hb
      exact absurd hb2 (by omega)
    · intro hi
      simp at hi
    · intro hi
      simp at hi
    · intro hee
      simp at hee
    · intro _
      refine ⟨h11 he, ?_⟩
      show s.p = s.q
      omega
  · have hcong := bytesBetween_state_congr s
      { s with
        end_this_chunk := none,
        next_val_p := none,
        longline_ended := false,
        in_longline := false,
        result := { type := RT.rt_longline_ended,
                    line_begin := none,
                    line_end := none,
                    errnum := s.result.errnum } } rfl rfl rfl
    have hd1 : dataBytesOf
        { type := RT.rt_longline_ended,
          line_begin := none,
          line_end := none,
          errnum := s.result.errnum }
        { s with
          end_this_chunk := none,
          next_val_p := none,
          longline_ended := false,
          in_longline := false,
          result := { type := RT.rt_longline_ended,
                      line_begin := none,
                      line_end := none,
                      errnum := s.result.errnum } } = ([] : List Nat) := by
      unfold dataBytesOf isDataType
      dsimp only
      rw [if_neg (by simp)]
    have hw1 : window
        { s with
          end_this_chunk := none,
          next_val_p := none,
          longline_ended := false,
          in_longline := false,
          result := { type := RT.rt_longline_ended,
                      line_begin := none,
                      line_end := none,
                      errnum := s.result.errnum } } = window s := by
      unfold window
      rw [hcong]
    rw [hd1, hw1]
    simp
  · intro h
    simp at h
  · intro h
    simp at h
  · intro h
    simp [isDataType] at h
  · intro h
    simp at h
  · intro h
    simp at h
  · intro _
    exact Or.inr (Or.inl rfl)
  · intro h
    simp at h
  · intro h
    simp at h
  · intro _
    exact ⟨rfl, rfl, rfl, rfl⟩
  · intro h
    simp at h
  · intro _ hx
    simp at hx

theorem slow_step_eof (start : Nat) (s : RS)
    (hinv : LoopInv Phase.slow start s)
    (hd2 : ¬ rawmemchr s start < s.q)
    (he : s.eof_seen = true ∨ s.err_seen = true)
    (hlen0 : ¬ 0 < s.q - s.p) (hill : s.in_longline = false)
    (heof : s.eof_seen = true) :
    StepConcl Phase.slow start s := by
  obtain ⟨h1, h2, h3, h4, h5, h6, h7, h8, h9, h10, h11, h12, h13, h15⟩ := hinv
  constructor
  case right =>
    intro ph1 st1 s1 h
    unfold loopStep at h
    rw [if_neg hd2, if_pos he, if_neg hlen0] at h
    dsimp only at h
    rw [if_neg (by simp [hill])] at h
    rw [if_pos (by exact heof)] at h
    simp [rawscan_eof] at h
  case left =>
  intro r s1 hstep
  unfold loopStep at hstep
  rw [if_neg hd2, if_pos he, if_neg hlen0] at hstep
  dsimp only at hstep
  rw [if_neg (by simp [hill])] at hstep
  rw [if_pos (by exact heof)] at hstep
  unfold rawscan_eof at hstep
  dsimp only at hstep
  injection hstep with hr hs
  subst hr
  subst hs
  unfold RetFacts
  refine ⟨?_, ?_, rfl, rfl, rfl, rfl, rfl, rfl, rfl, ?_, ?_, ?_, ?_, ?_, ?_,
    ?_, ?_, ?_, ?_, ?_⟩
  · unfold RSInv
    refine ⟨h1, h2, h3, h4, h5, ?_, ?_, ?_, ?_, ?_, ?_⟩
    · show s.next_delim_ptr_peek ≤ s.bufsz
      omega
    · unfold PeekInv
      intro ha hb
      have hb2 : s.next_delim_ptr_peek < s.q := hb
      exact absurd hb2 (by omega)
    · intro _
      show s.next_delim_ptr_peek = s.bufsz
      exact h9
    · intro hi _
      have hi2 : s.in_longline = true := hi
      simp [hill] at hi2
    · intro hee
      have he2 : s.longline_ended = true := hee
      simp [h10] at he2
    · intro _
      refine ⟨h11 he, ?_⟩
      show s.p = s.q
      omega
  · have hcong := bytesBetween_state_congr s
      { s with
        result := { s.result with type := RT.rt_eof },
        eof_seen := true } rfl rfl rfl
    have hd1 : dataBytesOf { s.result with type := RT.rt_eof }
        { s with
          result := { s.result with type := RT.rt_eof },
          eof_seen := true } = ([] : List Nat) := by
      unfold dataBytesOf isDataType
      dsimp only
      rw [if_neg (by simp)]
    have hw1 : window
        { s with
          result := { s.result with type := RT.rt_eof },
          eof_seen := true } = window s := by
      unfold window
      rw [hcong]
    rw [hd1, hw1]
    simp
  · intro _
    refine ⟨by show s.p = s.q; omega, h11 he, rfl, by exact hill⟩
  · intro h
    simp at h
  · intro h
    simp [isDataType] at h
  · intro h
    simp at h
  · intro h
    simp at h
  · intro h
    exact absurd h (by simp [hill])
  · intro h
    simp at h
  · intro h
    simp at h
  · intro h
    simp at h
  · intro h
    simp at h
  · intro _ hx
    simp at hx

theorem slow_step_err (start : Nat) (s : RS)
    (hinv : LoopInv Phase.slow start s)
    (hd2 : ¬ rawmemchr s start < s.q)
    (he : s.eof_seen = true ∨ s.err_seen = true)
    (hlen0 : ¬ 0 < s.q - s.p) (hill : s.in_longline = false)
    (heof2 : ¬ s.eof_seen = true) :
    StepConcl Phase.slow start s := by
  obtain ⟨h1, h2, h3, h4, h5, h6, h7, h8, h9, h10, h11, h12, h13, h15⟩ := hinv
  have herr : s.err_seen = true := by
    rcases he with he1 | he1
    · exact absurd he1 heof2
    · exact he1
  have heoff : s.eof_seen = false := by
    revert heof2
    cases s.eof_seen <;> simp
  constructor
  case right =>
    intro ph1 st1 s1 h
    unfold loopStep at h
    rw [if_neg hd2, if_pos he, if_neg hlen0] at h
    dsimp only at h
    rw [if_neg (by simp [hill])] at h
    rw [if_neg (by exact heof2)] at h
    simp [rawscan_err] at h
  case left =>
  intro r s1 hstep
  unfold loopStep at hstep
  rw [if_neg hd2, if_pos he, if_neg hlen0] at hstep
  dsimp only at hstep
  rw [if_neg (by simp [hill])] at hstep
  rw [if_neg (by exact heof2)] at hstep
  unfold rawscan_err at hstep
  dsimp only at hstep
  injection hstep with hr hs
  subst hr
  subst hs
  unfold RetFacts
  refine ⟨?_, ?_, rfl, rfl, rfl, rfl, rfl, rfl, rfl, ?_, ?_, ?_, ?_, ?_, ?_,
    ?_, ?_, ?_, ?_, ?_⟩
  · unfold RSInv
    refine ⟨h1, h2, h3, h4, h5, ?_, ?_, ?_, ?_, ?_, ?_⟩
    · show s.next_delim_ptr_peek ≤ s.bufsz
      omega
    · unfold PeekInv
      intro ha hb
      have hb2 : s.next_delim_ptr_peek < s.q := hb
      exact absurd hb2 (by omega)
    · intro _
      show s.next_delim_ptr_peek = s.bufsz
      exact h9
    · intro hi _
      have hi2 : s.in_longline = true := hi
      simp [hill] at hi2
    · intro hee
      have he2 : s.longline_ended = true := hee
      simp [h10] at he2
    · intro _
      refine ⟨h11 he, ?_⟩
      show s.p = s.q
      omega
  · have hcong := bytesBetween_state_congr s
      { s with
        result := { s.result with type := RT.rt_err, errnum := s.errnum } }
        rfl rfl rfl
    have hd1 : dataBytesOf { s.result with type := RT.rt_err, errnum := s.errnum }
        { s with
          result := { s.result with type := RT.rt_err, errnum := s.errnum } } =
        ([] : List Nat) := by
      unfold dataBytesOf isDataType
      dsimp only
      rw [if_neg (by simp)]
    have hw1 : window
        { s with
          result := { s.result with type := RT.rt_err, errnum := s.errnum } } =
        window s := by
      unfold window
      rw [hcong]
    rw [hd1, hw1]
    simp
  · intro h
    simp at h
  · intro _
    refine ⟨by show s.p = s.q; omega, h11 he, herr, heoff, by exact hill, rfl⟩
  · intro h
    simp [isDataType] at h
  · intro h
    simp at h
  · intro h
    simp at h
  · intro h
    exact absurd h (by simp [hill])
  · intro h
    simp at h
  · intro h
    simp at h
  · intro h
    simp at h
  · intro h
    simp at h
  · intro _ hx
    simp at hx

theorem slow_step_start_longline (start : Nat) (s : RS)
    (hinv : LoopInv Phase.slow start s)
    (hd2 : ¬ rawmemchr s start < s.q)
    (hne : ¬ (s.eof_seen = true ∨ s.err_seen = true))
    (hq2 : ¬ s.q < s.bufsz)
    (hlm : s.min1stchunklen ≤ s.q - s.p ∧ s.in_longline = false) :
    StepConcl Phase.slow start s := by
  obtain ⟨h1, h2, h3, h4, h5, h6, h7, h8, h9, h10, h11, h12, h13, h15⟩ := hinv
  have hlen : 0 < s.q - s.p := by omega
  constructor
  case right =>
    intro ph1 st1 s1 h
    unfold loopStep at h
    dsimp only at h
    rw [if_neg hd2, if_neg hne, if_neg hq2, if_pos hlm] at h
    simp [rawscan_start_of_longline] at h
  case left =>
  intro r s1 hstep
  unfold loopStep at hstep
  dsimp only at hstep
  rw [if_neg hd2, if_neg hne, if_neg hq2, if_pos hlm] at hstep
  unfold rawscan_start_of_longline at hstep
  dsimp only [Option.getD] at hstep
  injection hstep with hr hs
  subst hr
  subst hs
  unfold RetFacts
  refine ⟨?_, ?_, rfl, rfl, rfl, rfl, rfl, rfl, rfl, ?_, ?_, ?_, ?_, ?_, ?_,
    ?_, ?_, ?_, ?_, ?_⟩
  · unfold RSInv
    refine ⟨h1, ?_, h3, h4, h5, ?_, ?_, ?_, ?_, ?_, ?_⟩
    · show s.q ≤ s.q
      exact le_refl _
    · show s.next_delim_ptr_peek ≤ s.bufsz
      omega
    · unfold PeekInv
      intro ha hb
      have hb2 : s.next_delim_ptr_peek < s.q := hb
      exact absurd hb2 (by omega)
    · intro _
      show s.next_delim_ptr_peek = s.bufsz
      exact h9
    · intro _ _
      refine ⟨rfl, ?_⟩
      show s.q = s.bufsz
      omega
    · intro _
      rfl
    · intro hee
      have he2 : s.eof_seen = true ∨ s.err_seen = true := hee
      exact absurd he2 hne
  · have hcong := bytesBetween_state_congr s
      { s with
        end_this_chunk := some (s.q - 1),
        next_val_p := some s.q,
        result := { type := RT.rt_start_longline,
                    line_begin := some s.p,
                    line_end := some (s.q - 1),
                    errnum := s.result.errnum },
        p := s.q,
        in_longline := true,
        longline_ended := false } rfl rfl rfl
    have hq1 : s.q - 1 + 1 = s.q := by omega
    have hd1 : dataBytesOf
        { type := RT.rt_start_longline,
          line_begin := some s.p,
          line_end := some (s.q - 1),
          errnum := s.result.errnum }
        { s with
          end_this_chunk := some (s.q - 1),
          next_val_p := some s.q,
          result := { type := RT.rt_start_longline,
                      line_begin := some s.p,
                      line_end := some (s.q - 1),
                      errnum := s.result.errnum },
          p := s.q,
          in_longline := true,
          longline_ended := false } =
        bytesBetween s s.p s.q := by
      unfold dataBytesOf isDataType
      dsimp only
      rw [if_pos rfl]
      rw [hcong, hq1]
    have hw1 : window
        { s with
          end_this_chunk := some (s.q - 1),
          next_val_p := some s.q,
          result := { type := RT.rt_start_longline,
                      line_begin := some s.p,
                      line_end := some (s.q - 1),
                      errnum := s.result.errnum },
          p := s.q,
          in_longline := true,
          longline_ended := false } = ([] : List Nat) := by
      unfold window
      rw [hcong]
      exact bytesBetween_nil s s.q s.q (le_refl _)
    have hw0 : window s = bytesBetween s s.p s.q := rfl
    rw [hd1, hw1, hw0]
    simp
  · intro h
    simp at h
  · intro h
    simp at h
  · intro _
    exact ⟨s.p, s.q - 1, rfl, rfl, by show s.q - 1 < s.q; omega⟩
  · intro h
    simp at h
  · intro h
    simp at h
  · intro h
    exact absurd h (by simp [hlm.2])
  · intro _
    exact ⟨hlm.2, rfl, rfl⟩
  · intro h
    simp at h
  · intro h
    simp at h
  · intro h
    simp at h
  · intro _ hx
    simp at hx

theorem slow_step_paused_shift (start : Nat) (s : RS)
    (hinv : LoopInv Phase.slow start s)
    (hd2 : ¬ rawmemchr s start < s.q)
    (hne : ¬ (s.eof_seen = true ∨ s.err_seen = true))
    (hq2 : ¬ s.q < s.bufsz)
    (hlmn : ¬ (s.min1stchunklen ≤ s.q - s.p ∧ s.in_longline = false))
    (hlen : 0 < s.q - s.p) (hp : 0 < s.p)
    (hpa : s.pause_on_inval = true ∧ s.terminate_current_pause = false) :
    StepConcl Phase.slow start s := by
  obtain ⟨h1, h2, h3, h4, h5, h6, h7, h8, h9, h10, h11, h12, h13, h15⟩ := hinv
  constructor
  case right =>
    intro ph1 st1 s1 h
    unfold loopStep at h
    dsimp only at h
    rw [if_neg hd2, if_neg hne, if_neg hq2, if_neg hlmn, if_pos hlen,
      if_pos hp, if_pos hpa] at h
    simp [rawscan_paused] at h
  case left =>
  intro r s1 hstep
  unfold loopStep at hstep
  dsimp only at hstep
  rw [if_neg hd2, if_neg hne, if_neg hq2, if_neg hlmn, if_pos hlen,
    if_pos hp, if_pos hpa] at hstep
  unfold rawscan_paused at hstep
  dsimp only at hstep
  injection hstep with hr hs
  subst hr
  subst hs
  unfold RetFacts
  refine ⟨?_, ?_, rfl, rfl, rfl, rfl, rfl, rfl, rfl, ?_, ?_, ?_, ?_, ?_, ?_,
    ?_, ?_, ?_, ?_, ?_⟩
  · unfold RSInv
    refine ⟨h1, h2, h3, h4, h5, ?_, ?_, ?_, ?_, ?_, ?_⟩
    · show s.next_delim_ptr_peek ≤ s.bufsz
      omega
    · unfold PeekInv
      intro ha hb
      have hb2 : s.next_delim_ptr_peek < s.q := hb
      exact absurd hb2 (by omega)
    · intro hi
      show s.next_delim_ptr_peek = s.bufsz
      exact h9
    · intro hi _
      have hi2 : s.in_longline = true := hi
      exfalso
      rcases h13 hi2 with hc | hc
      · omega
      · omega
    · intro hee
      have he2 : s.longline_ended = true := hee
      simp [h10] at he2
    · intro hee
      have he2 : s.eof_seen = true ∨ s.err_seen = true := hee
      exact absurd he2 hne
  · have hcong := bytesBetween_state_congr s
      { s with result := { s.result with type := RT.rt_paused } } rfl rfl rfl
    have hd1 : dataBytesOf { s.result with type := RT.rt_paused }
        { s with result := { s.result with type := RT.rt_paused } } =
        ([] : List Nat) := by
      unfold dataBytesOf isDataType
      dsimp only
      rw [if_neg (by simp)]
    have hw1 : window
        { s with result := { s.result with type := RT.rt_paused } } =
        window s := by
      unfold window
      rw [hcong]
    rw [hd1, hw1]
    simp
  · intro h
    simp at h
  · intro h
    simp at h
  · intro h
    simp [isDataType] at h
  · intro h
    simp at h
  · intro h
    simp at h
  · intro _
    exact Or.inr (Or.inr rfl)
  · intro h
    simp at h
  · intro h
    simp at h
  · intro h
    simp at h
  · intro _
    exact ⟨rfl, rfl, rfl, rfl, hpa.1, hpa.2⟩
  · intro hnp
    exfalso
    rcases hnp with hc | hc | hc | ⟨hc1, hc2, hc3⟩
    · exact hne (Or.inl hc)
    · exact hne (Or.inr hc)
    · omega
    · exact hlmn ⟨by omega, hc2⟩

theorem slow_step_paused_reset (start : Nat) (s : RS)
    (hinv : LoopInv Phase.slow start s)
    (hd2 : ¬ rawmemchr s start < s.q)
    (hne : ¬ (s.eof_seen = true ∨ s.err_seen = true))
    (hq2 : ¬ s.q < s.bufsz)
    (hlmn : ¬ (s.min1stchunklen ≤ s.q - s.p ∧ s.in_longline = false))
    (hlen0 : ¬ 0 < s.q - s.p)
    (hpa : s.pause_on_inval = true ∧ s.terminate_current_pause = false) :
    StepConcl Phase.slow start s := by
  obtain ⟨h1, h2, h3, h4, h5, h6, h7, h8, h9, h10, h11, h12, h13, h15⟩ := hinv
  constructor
  case right =>
    intro ph1 st1 s1 h
    unfold loopStep at h
    dsimp only at h
    rw [if_neg hd2, if_neg hne, if_neg hq2, if_neg hlmn, if_neg hlen0,
      if_pos hpa] at h
    simp [rawscan_paused] at h
  case left =>
  intro r s1 hstep
  unfold loopStep at hstep
  dsimp only at hstep
  rw [if_neg hd2, if_neg hne, if_neg hq2, if_neg hlmn, if_neg hlen0,
    if_pos hpa] at hstep
  unfold rawscan_paused at hstep
  dsimp only at hstep
  injection hstep with hr hs
  subst hr
  subst hs
  unfold RetFacts
  refine ⟨?_, ?_, rfl, rfl, rfl, rfl, rfl, rfl, rfl, ?_, ?_, ?_, ?_, ?_, ?_,
    ?_, ?_, ?_, ?_, ?_⟩
  · unfold RSInv
    refine ⟨h1, h2, h3, h4, h5, ?_, ?_, ?_, ?_, ?_, ?_⟩
    · show s.next_delim_ptr_peek ≤ s.bufsz
      omega
    · unfold PeekInv
      intro ha hb
      have hb2 : s.next_delim_ptr_peek < s.q := hb
      exact absurd hb2 (by omega)
    · intro hi
      show s.next_delim_ptr_peek = s.bufsz
      exact h9
    · intro hi _
      refine ⟨?_, ?_⟩
      · show s.p = s.q
        omega
      · show s.q = s.bufsz
        omega
    · intro hee
      have he2 : s.longline_ended = true := hee
      simp [h10] at he2
    · intro hee
      have he2 : s.eof_seen = true ∨ s.err_seen = true := hee
      exact absurd he2 hne
  · have hcong := bytesBetween_state_congr s
      { s with result := { s.result with type := RT.rt_paused } } rfl rfl rfl
    have hd1 : dataBytesOf { s.result with type := RT.rt_paused }
        { s with result := { s.result with type := RT.rt_paused } } =
        ([] : List Nat) := by
      unfold dataBytesOf isDataType
      dsimp only
      rw [if_neg (by simp)]
    have hw1 : window
        { s with result := { s.result with type := RT.rt_paused } } =
        window s := by
      unfold window
      rw [hcong]
    rw [hd1, hw1]
    simp
  · intro h
    simp at h
  · intro h
    simp at h
  · intro h
    simp [isDataType] at h
  · intro h
    simp at h
  · intro h
    simp at h
  · intro _
    exact Or.inr (Or.inr rfl)
  · intro h
    simp at h
  · intro h
    simp at h
  · intro h
    simp at h
  · intro _
    exact ⟨rfl, rfl, rfl, rfl, hpa.1, hpa.2⟩
  · intro hnp
    exfalso
    rcases hnp with hc | hc | hc | ⟨hc1, hc2, hc3⟩
    · exact hne (Or.inl hc)
    · exact hne (Or.inr hc)
    · omega
    · omega

theorem slow_step_saturated_within (start : Nat) (s : RS)
    (hinv : LoopInv Phase.slow start s)
    (hd2 : ¬ rawmemchr s start < s.q)
    (hne : ¬ (s.eof_seen = true ∨ s.err_seen = true))
    (hq2 : ¬ s.q < s.bufsz)
    (hlmn : ¬ (s.min1stchunklen ≤ s.q - s.p ∧ s.in_longline = false))
    (hlen : 0 < s.q - s.p) (hpn : ¬ 0 < s.p) :
    StepConcl Phase.slow start s := by
  obtain ⟨h1, h2, h3, h4, h5, h6, h7, h8, h9, h10, h11, h12, h13, h15⟩ := hinv
  have hp0 : s.p = 0 := by omega
  have hqb : s.q = s.bufsz := by omega
  have hill2 : s.in_longline = true := by
    cases hi : s.in_longline
    · exfalso
      apply hlmn
      exact ⟨by omega, hi⟩
    · rfl
  constructor
  case right =>
    intro ph1 st1 s1 h
    unfold loopStep at h
    dsimp only at h
    rw [if_neg hd2, if_neg hne, if_neg hq2, if_neg hlmn, if_pos hlen,
      if_neg hpn] at h
    simp [rawscan_within_longline] at h
  case left =>
  intro r s1 hstep
  unfold loopStep at hstep
  dsimp only at hstep
  rw [if_neg hd2, if_neg hne, if_neg hq2, if_neg hlmn, if_pos hlen,
    if_neg hpn] at hstep
  unfold rawscan_within_longline at hstep
  dsimp only [Option.getD] at hstep
  injection hstep with hr hs
  subst hr
  subst hs
  unfold RetFacts
  refine ⟨?_, ?_, rfl, rfl, rfl, rfl, rfl, rfl, rfl, ?_, ?_, ?_, ?_, ?_, ?_,
    ?_, ?_, ?_, ?_, ?_⟩
  · unfold RSInv
    refine ⟨h1, ?_, h3, h4, h5, ?_, ?_, ?_, ?_, ?_, ?_⟩
    · show s.q ≤ s.q
      exact le_refl _
    · show s.next_delim_ptr_peek ≤ s.bufsz
      omega
    · unfold PeekInv
      intro ha hb
      have hb2 : s.next_delim_ptr_peek < s.q := hb
      exact absurd hb2 (by omega)
    · intro _
      show s.next_delim_ptr_peek = s.bufsz
      exact h9
    · intro _ _
      refine ⟨rfl, ?_⟩
      show s.q = s.bufsz
      omega
    · intro hee
      have he2 : s.longline_ended = true := hee
      simp [h10] at he2
    · intro hee
      have he2 : s.eof_seen = true ∨ s.err_seen = true := hee
      exact absurd he2 hne
  · have hcong := bytesBetween_state_congr s
      { s with
        end_this_chunk := none,
        next_val_p := none,
        result := { type := RT.rt_within_longline,
                    line_begin := some s.p,
                    line_end := some (s.q - 1),
                    errnum := s.result.errnum },
        p := s.q } rfl rfl rfl
    have hq1 : s.q - 1 + 1 = s.q := by omega
    have hd1 : dataBytesOf
        { type := RT.rt_within_longline,
          line_begin := some s.p,
          line_end := some (s.q - 1),
          errnum := s.result.errnum }
        { s with
          end_this_chunk := none,
          next_val_p := none,
          result := { type := RT.rt_within_longline,
                      line_begin := some s.p,
                      line_end := some (s.q - 1),
                      errnum := s.result.errnum },
          p := s.q } =
        bytesBetween s s.p s.q := by
      unfold dataBytesOf isDataType
      dsimp only
      rw [if_pos rfl]
      rw [hcong, hq1]
    have hw1 : window
        { s with
          end_this_chunk := none,
          next_val_p := none,
          result := { type := RT.rt_within_longline,
                      line_begin := some s.p,
                      line_end := some (s.q - 1),
                      errnum := s.result.errnum },
          p := s.q } = ([] : List Nat) := by
      unfold window
      rw [hcong]
      exact bytesBetween_nil s s.q s.q (le_refl _)
    have hw0 : window s = bytesBetween s s.p s.q := rfl
    rw [hd1, hw1, hw0]
    simp
  · intro h
    simp at h
  · intro h
    simp at h
  · intro _
    exact ⟨s.p, s.q - 1, rfl, rfl, by show s.q - 1 < s.q; omega⟩
  · intro h
    simp at h
  · intro h
    simp at h
  · intro _
    exact Or.inl rfl
  · intro h
    simp at h
  · intro _
    exact ⟨hill2, hill2, s.p, s.q - 1, rfl, rfl, by omega⟩
  · intro h
    simp at h
  · intro h
    simp at h
  · intro _ hx
    simp at hx

theorem noDelim_through (start : Nat) (s : RS)
    (hinv : LoopInv Phase.slow start s ∨ LoopInv Phase.fast start s)
    (hd2 : ¬ rawmemchr s start < s.q) :
    NoDelim s s.p s.q := by
  have hparts : s.p ≤ start ∧ start ≤ s.bufsz ∧ NoDelim s s.p (min start s.q) := by
    rcases hinv with h | h
    · exact ⟨h.2.2.2.2.2.1, h.2.2.2.2.2.2.1, h.2.2.2.2.2.2.2.1⟩
    · exact ⟨h.2.2.2.2.2.1, h.2.2.2.2.2.2.1, h.2.2.2.2.2.2.2.1⟩
  obtain ⟨h6, h7, h8⟩ := hparts
  have hspec := rawmemchr_spec s start h7
  intro k hk hpk
  by_cases hks : k < min start s.q
  · exact h8 k hks hpk
  · have hsk : start ≤ k := by omega
    exact hspec.2.2.2 k hsk (by omega)

theorem read_ok_concl (ph2 : Phase) (start : Nat) (s : RS)
    (hinv : LoopInv ph2 start s)
    (hd2 : ¬ rawmemchr s start < s.q)
    (hc : 0 < readCnt s) :
    ContFacts s (readAdvance s (readCnt s)) ∧
    LoopInv ph2 s.q (readAdvance s (readCnt s)) := by
  obtain ⟨h1, h2, h3, h4, h5, h6, h7, h8, h9, h10, h11, h12, h13, h15⟩ := hinv
  have hndq : NoDelim s s.p s.q := by
    apply noDelim_through start s _ hd2
    cases ph2
    · exact Or.inr ⟨h1, h2, h3, h4, h5, h6, h7, h8, h9, h10, h11, h12, h13, h15⟩
    · exact Or.inl ⟨h1, h2, h3, h4, h5, h6, h7, h8, h9, h10, h11, h12, h13, h15⟩
  have hinne : s.input ≠ [] := by
    intro hnil
    have := (readCnt_pos_iff s).mp hc
    rw [hnil] at this
    simp at this
  have hcle : readCnt s ≤ s.input.length := readCnt_le_input s
  have hcsp : readCnt s ≤ s.bufsz - s.q := readCnt_le_space s
  have hqlt : s.q < s.bufsz := by
    have := (readCnt_pos_iff s).mp hc
    omega
  have hflds := readAdvance_fields s (readCnt s)
  obtain ⟨f1, f2, f3, f4, f5, f6, f7, f8, f9, f10, f11, f12, f13, f14, f15,
    f16, f17, f18, f19, f20⟩ := hflds
  have hsp : s.q + readCnt s ≤ s.bufsz := by omega
  have hwnew := readAdvance_window_new s (readCnt s) hcle hsp
  have hndq2 : ∀ k, k < s.q → s.p ≤ k →
      getByte (readAdvance s (readCnt s)) k ≠
        (readAdvance s (readCnt s)).delimiterbyte := by
    intro k hk hpk
    rw [readAdvance_getByte_lo s _ k hk, f6]
    exact hndq k hk hpk
  have hwin : window (readAdvance s (readCnt s)) =
      window s ++ s.input.take (readCnt s) := by
    unfold window
    rw [f1, f2]
    rw [bytesBetween_split _ s.p s.q (s.q + readCnt s) h2 (by omega)]
    rw [hwnew]
    congr 1
    apply bytesBetween_congr
    intro k hk1 hk2
    exact readAdvance_getByte_lo s _ k hk2
  constructor
  · unfold ContFacts
    refine ⟨?_, ?_, ?_, ?_, ?_, ?_, f12, f8, f4, f6, f5⟩
    · rw [hwin, f3, List.append_assoc, List.take_append_drop]
    · rw [f14]
      omega
    · intro hnp
      refine ⟨f14, ?_⟩
      unfold NoPauseSt
      rcases hnp with hx | hx | hx | ⟨hx1, hx2, hx3⟩
      · exact absurd (h11 (Or.inl hx)) hinne
      · exact absurd (h11 (Or.inr hx)) hinne
      · exact Or.inr (Or.inr (Or.inl (by rw [f1]; exact hx)))
      · refine Or.inr (Or.inr (Or.inr ?_))
        rw [f1, f4, f5, f8]
        exact ⟨hx1, hx2, hx3⟩
    · intro _ _
      exact f14
    · intro h
      rw [f13] at h
      exact ⟨h, f14⟩
    · refine Or.inl ⟨f1, ?_, ?_⟩
      · rw [f2]
        omega
      · intro k hk
        exact readAdvance_getByte_lo s _ k hk
  · unfold LoopInv
    rw [f1, f2, f3, f4, f5, f7, f8, f9, f10, f11]
    refine ⟨h1, by omega, by omega, h4, h5, h2, h3, ?_, h9, h10, ?_, ?_, ?_, ?_⟩
    · have hmq : min s.q (s.q + readCnt s) = s.q := by omega
      rw [hmq]
      exact fun k hk hpk => hndq2 k hk hpk
    · intro he
      exact absurd (h11 he) hinne
    · intro he
      exact absurd (h11 he) hinne
    · intro hi
      rcases h13 hi with hp0 | ⟨hpq2, hqb⟩
      · exact Or.inl hp0
      · exact absurd hqb (by omega)
    · intro hph
      exact h15 hph

theorem read_fail_concl (start : Nat) (s : RS)
    (hinv : LoopInv Phase.slow start s ∨ LoopInv Phase.fast start s)
    (hd2 : ¬ rawmemchr s start < s.q)
    (hq1 : s.q < s.bufsz)
    (hz : readCnt s = 0) :
    ContFacts s (rawscan_read s).2 ∧
    LoopInv Phase.slow (rawscan_read s).2.bufsz (rawscan_read s).2 := by
  have hparts : (1 ≤ s.bufsz ∧ s.p ≤ s.q ∧ s.q ≤ s.bufsz ∧
      1 ≤ s.min1stchunklen ∧ s.min1stchunklen ≤ s.bufsz) ∧
      (s.next_delim_ptr_peek = s.bufsz ∧ s.longline_ended = false) ∧
      (s.in_longline = true → s.p = 0 ∨ (s.p = s.q ∧ s.q = s.bufsz)) := by
    rcases hinv with h | h
    · exact ⟨⟨h.1, h.2.1, h.2.2.1, h.2.2.2.1, h.2.2.2.2.1⟩,
        ⟨h.2.2.2.2.2.2.2.2.1, h.2.2.2.2.2.2.2.2.2.1⟩, h.2.2.2.2.2.2.2.2.2.2.2.2.1⟩
    · exact ⟨⟨h.1, h.2.1, h.2.2.1, h.2.2.2.1, h.2.2.2.2.1⟩,
        ⟨h.2.2.2.2.2.2.2.2.1, h.2.2.2.2.2.2.2.2.2.1⟩, h.2.2.2.2.2.2.2.2.2.2.2.2.1⟩
  obtain ⟨⟨h1, h2, h3, h4, h5⟩, ⟨h9, h10⟩, h13⟩ := hparts
  have hndq : NoDelim s s.p s.q := noDelim_through start s hinv hd2
  have hzi : s.input = [] := rawscan_read_zero_input s hz hq1
  have hzf := rawscan_read_zero s hz
  obtain ⟨z1, z2, z3, z4, z5, z6, z7, z8, z9, z10, z11, z12, z13, z14, z15,
    z16, z17, z18, z19, z20, z21⟩ := hzf
  have hwin : window (rawscan_read s).2 = window s := by
    unfold window
    rw [z3, z4]
    apply bytesBetween_congr
    intro k _ _
    exact getByte_congr_fields s _ z5 z7 z9 k
  constructor
  · unfold ContFacts
    refine ⟨?_, ?_, ?_, ?_, ?_, ?_, z15, z11, z7, z9, z8⟩
    · rw [hwin, z6]
    · rw [z17]
      omega
    · intro hnp
      refine ⟨z17, ?_⟩
      unfold NoPauseSt
      rcases hnp with hx | hx | hx | hx
      · exact Or.inl (z13 hx)
      · exact Or.inr (Or.inl (z14 hx))
      · exact Or.inr (Or.inr (Or.inl (by rw [z3]; exact hx)))
      · exact Or.inr (Or.inr (Or.inr (by rw [z3, z8, z7, z11]; exact hx)))
    · intro _ _
      exact z17
    · intro h
      rw [z16] at h
      exact ⟨h, z17⟩
    · refine Or.inl ⟨z3, z4.ge, ?_⟩
      intro k _
      exact getByte_congr_fields s _ z5 z7 z9 k
  · unfold LoopInv
    rw [z3, z4, z7, z8, z10, z11, z12, z6]
    refine ⟨h1, h2, h3, h4, h5, by omega, le_refl _, ?_, h9, h10, ?_, ?_, ?_, ?_⟩
    · have hmq : min s.bufsz s.q = s.q := by omega
      rw [hmq]
      intro k hk hpk
      rw [getByte_congr_fields s _ z5 z7 z9 k, z9]
      exact hndq k hk hpk
    · intro _
      exact hzi
    · intro _
      exact Or.inr rfl
    · exact h13
    · intro hph
      simp at hph

theorem contFacts_refl (s : RS) : ContFacts s s := by
  unfold ContFacts
  exact ⟨rfl, by omega, fun h => ⟨rfl, h⟩, fun _ _ => rfl, fun h => ⟨h, rfl⟩,
    Or.inl ⟨rfl, le_refl _, fun _ _ => rfl⟩, rfl, rfl, rfl, rfl, rfl⟩

theorem loopInv_fast_to_slow (start : Nat) (s : RS)
    (hinv : LoopInv Phase.fast start s) : LoopInv Phase.slow start s := by
  obtain ⟨h1, h2, h3, h4, h5, h6, h7, h8, h9, h10, h11, h12, h13, h15⟩ := hinv
  exact ⟨h1, h2, h3, h4, h5, h6, h7, h8, h9, h10, h11, h12, h13,
    fun hph => by simp at hph⟩

theorem slow_step_read (start : Nat) (s : RS)
    (hinv : LoopInv Phase.slow start s)
    (hd2 : ¬ rawmemchr s start < s.q)
    (hne : ¬ (s.eof_seen = true ∨ s.err_seen = true))
    (hq1 : s.q < s.bufsz) :
    StepConcl Phase.slow start s := by
  constructor
  case left =>
    intro r s1 h
    unfold loopStep at h
    dsimp only at h
    rw [if_neg hd2, if_neg hne, if_pos hq1] at h
    rcases hrw : rawscan_read s with ⟨o, sR⟩
    rw [hrw] at h
    cases o <;> simp at h
  case right =>
  intro ph1 st1 s1 h
  unfold loopStep at h
  dsimp only at h
  rw [if_neg hd2, if_neg hne, if_pos hq1] at h
  rcases hrw : rawscan_read s with ⟨o, sR⟩
  rw [hrw] at h
  cases o with
  | none =>
      dsimp only at h
      injection h with hph hst hs
      subst hph
      subst hst
      subst hs
      by_cases hc : 0 < readCnt s
      · have hre := rawscan_read_pos s hc
        rw [hre] at hrw
        simp at hrw
      · have hz : readCnt s = 0 := by omega
        have hgoal := read_fail_concl start s (Or.inl hinv) hd2 hq1 hz
        have h2nd : (rawscan_read s).2 = sR := by rw [hrw]
        rw [h2nd] at hgoal
        exact hgoal
  | some preq =>
      dsimp only at h
      injection h with hph hst hs
      subst hph
      subst hst
      subst hs
      by_cases hc : 0 < readCnt s
      · have hre := rawscan_read_pos s hc
        rw [hre] at hrw
        injection hrw with ha hb
        injection ha with ha2
        subst ha2
        subst hb
        exact read_ok_concl Phase.slow start s hinv hd2 hc
      · have hz : readCnt s = 0 := by omega
        have := (rawscan_read_zero s hz).1
        rw [hrw] at this
        simp at this

theorem fast_step_read (start : Nat) (s : RS)
    (hinv : LoopInv Phase.fast start s)
    (hpq : s.p < s.q)
    (hd2 : ¬ rawmemchr s start < s.q)
    (hq1 : s.q < s.bufsz) :
    StepConcl Phase.fast start s := by
  constructor
  case left =>
    intro r s1 h
    unfold loopStep at h
    dsimp only at h
    rw [if_pos hpq, if_neg hd2, if_pos hq1] at h
    rcases hrw : rawscan_read s with ⟨o, sR⟩
    rw [hrw] at h
    cases o <;> simp at h
  case right =>
  intro ph1 st1 s1 h
  unfold loopStep at h
  dsimp only at h
  rw [if_pos hpq, if_neg hd2, if_pos hq1] at h
  rcases hrw : rawscan_read s with ⟨o, sR⟩
  rw [hrw] at h
  cases o with
  | none =>
      dsimp only at h
      injection h with hph hst hs
      subst hph
      subst hst
      subst hs
      by_cases hc : 0 < readCnt s
      · have hre := rawscan_read_pos s hc
        rw [hre] at hrw
        simp at hrw
      · have hz : readCnt s = 0 := by omega
        have hgoal := read_fail_concl start s (Or.inr hinv) hd2 hq1 hz
        have h2nd : (rawscan_read s).2 = sR := by rw [hrw]
        rw [h2nd] at hgoal
        exact hgoal
  | some preq =>
      dsimp only at h
      injection h with hph hst hs
      subst hph
      subst hst
      subst hs
      by_cases hc : 0 < readCnt s
      · have hre := rawscan_read_pos s hc
        rw [hre] at hrw
        injection hrw with ha hb
        injection ha with ha2
        subst ha2
        subst hb
        exact read_ok_concl Phase.fast start s hinv hd2 hc
      · have hz : readCnt s = 0 := by omega
        have := (rawscan_read_zero s hz).1
        rw [hrw] at this
        simp at this

theorem fast_step_fall_top (start : Nat) (s : RS)
    (hinv : LoopInv Phase.fast start s)
    (hpq : s.p < s.q)
    (hd2 : ¬ rawmemchr s start < s.q)
    (hq2 : ¬ s.q < s.bufsz) :
    StepConcl Phase.fast start s := by
  constructor
  case left =>
    intro r s1 h
    unfold loopStep at h
    dsimp only at h
    rw [if_pos hpq, if_neg hd2, if_neg hq2] at h
    simp at h
  case right =>
  intro ph1 st1 s1 h
  unfold loopStep at h
  dsimp only at h
  rw [if_pos hpq, if_neg hd2, if_neg hq2] at h
  injection h with hph hst hs
  subst hph
  subst hst
  subst hs
  exact ⟨contFacts_refl s, loopInv_fast_to_slow start s hinv⟩

theorem fast_step_fall_empty (start : Nat) (s : RS)
    (hinv : LoopInv Phase.fast start s)
    (hpq2 : ¬ s.p < s.q) :
    StepConcl Phase.fast start s := by
  constructor
  case left =>
    intro r s1 h
    unfold loopStep at h
    dsimp only at h
    rw [if_neg hpq2] at h
    simp at h
  case right =>
  intro ph1 st1 s1 h
  unfold loopStep at h
  dsimp only at h
  rw [if_neg hpq2] at h
  injection h with hph hst hs
  subst hph
  subst hst
  subst hs
  exact ⟨contFacts_refl s, loopInv_fast_to_slow start s hinv⟩

theorem fast_step_line (start : Nat) (s : RS)
    (hinv : LoopInv Phase.fast start s)
    (hpq : s.p < s.q)
    (hd : rawmemchr s start < s.q) :
    StepConcl Phase.fast start s := by
  obtain ⟨h1, h2, h3, h4, h5, h6, h7, h8, h9, h10, h11, h12, h13, h15⟩ := hinv
  have hill : s.in_longline = false := h15 rfl
  have hspec := rawmemchr_spec s start h7
  have hstq : start < s.q := by omega
  have hnoeof : ¬ (s.eof_seen = true ∨ s.err_seen = true) := by
    intro he
    rcases h12 he with hpq2 | hsb
    · omega
    · omega
  have hspec2 := rawmemchr_spec s (rawmemchr s start + 1) (by omega)
  have hmin : min start s.q = start := by omega
  rw [hmin] at h8
  have hnd : NoDelim s s.p (rawmemchr s start) := by
    intro k hk hpk
    by_cases hks : k < start
    · exact h8 k hks hpk
    · exact hspec.2.2.2 k (by omega) hk
  constructor
  case right =>
    intro ph1 st1 s1 h
    unfold loopStep at h
    dsimp only at h
    rw [if_pos hpq, if_pos hd] at h
    simp [rawscan_fast_line] at h
  case left =>
  intro r s1 hstep
  unfold loopStep at hstep
  dsimp only at hstep
  rw [if_pos hpq, if_pos hd] at hstep
  unfold rawscan_fast_line at hstep
  dsimp only at hstep
  injection hstep with hr hs
  subst hr
  subst hs
  unfold RetFacts
  refine ⟨?_, ?_, rfl, rfl, rfl, rfl, rfl, rfl, rfl, ?_, ?_, ?_, ?_, ?_, ?_,
    ?_, ?_, ?_, ?_, ?_⟩
  · unfold RSInv
    refine ⟨h1, ?_, h3, h4, h5, ?_, ?_, ?_, ?_, ?_, ?_⟩
    · show rawmemchr s start + 1 ≤ s.q
      omega
    · show rawmemchr s (rawmemchr s start + 1) ≤ s.bufsz
      exact hspec2.2.1
    · unfold PeekInv
      intro ha hb
      refine ⟨hspec2.2.2.1, ?_⟩
      have hnd2 : NoDelim s (rawmemchr s start + 1)
          (rawmemchr s (rawmemchr s start + 1)) :=
        fun k hk hpk => hspec2.2.2.2 k hpk hk
      exact noDelim_state_congr s _ rfl rfl rfl _ _ hnd2
    · intro hi
      have hi2 : s.in_longline = true := hi
      simp [hill] at hi2
    · intro hi
      have hi2 : s.in_longline = true := hi
      simp [hill] at hi2
    · intro he
      have he2 : s.longline_ended = true := he
      simp [h10] at he2
    · intro he
      have he2 : s.eof_seen = true ∨ s.err_seen = true := he
      exact absurd he2 hnoeof
  · have hcong := bytesBetween_state_congr s
      { s with
        result := { type := RT.rt_full_line,
                    line_begin := some s.p,
                    line_end := some (rawmemchr s start),
                    errnum := s.result.errnum },
        p := rawmemchr s start + 1,
        next_delim_ptr_peek := rawmemchr s (rawmemchr s start + 1) } rfl rfl rfl
    have hd1 : dataBytesOf
        { type := RT.rt_full_line,
          line_begin := some s.p,
          line_end := some (rawmemchr s start),
          errnum := s.result.errnum }
        { s with
          result := { type := RT.rt_full_line,
                      line_begin := some s.p,
                      line_end := some (rawmemchr s start),
                      errnum := s.result.errnum },
          p := rawmemchr s start + 1,
          next_delim_ptr_peek := rawmemchr s (rawmemchr s start + 1) } =
        bytesBetween s s.p (rawmemchr s start + 1) := by
      unfold dataBytesOf isDataType
      dsimp only
      rw [if_pos rfl]
      rw [hcong]
    have hw1 : window
        { s with
          result := { type := RT.rt_full_line,
                      line_begin := some s.p,
                      line_end := some (rawmemchr s start),
                      errnum := s.result.errnum },
          p := rawmemchr s start + 1,
          next_delim_ptr_peek := rawmemchr s (rawmemchr s start + 1) } =
        bytesBetween s (rawmemchr s start + 1) s.q := by
      unfold window
      rw [hcong]
    have hw0 : window s = bytesBetween s s.p s.q := rfl
    rw [hd1, hw1, hw0]
    rw [bytesBetween_split s s.p (rawmemchr s start + 1) s.q (by omega) (by omega)]
  · intro h
    simp at h
  · intro h
    simp at h
  · intro _
    exact ⟨s.p, rawmemchr s start, rfl, rfl, hd⟩
  · intro _
    refine ⟨s.p, rawmemchr s start, rfl, rfl, by omega, hd, h3, hspec.2.2.1, ?_⟩
    exact noDelim_state_congr s _ rfl rfl rfl _ _ hnd
  · intro h
    simp at h
  · intro h
    exact absurd h (by simp [hill])
  · intro h
    simp at h
  · intro h
    simp at h
  · intro h
    simp at h
  · intro h
    simp at h
  · intro _ hx
    simp at hx

theorem slow_step_shift (start : Nat) (s : RS)
    (hinv : LoopInv Phase.slow start s)
    (hd2 : ¬ rawmemchr s start < s.q)
    (hne : ¬ (s.eof_seen = true ∨ s.err_seen = true))
    (hq2 : ¬ s.q < s.bufsz)
    (hlmn : ¬ (s.min1stchunklen ≤ s.q - s.p ∧ s.in_longline = false))
    (hlen : 0 < s.q - s.p) (hp : 0 < s.p)
    (hnpa : ¬ (s.pause_on_inval = true ∧ s.terminate_current_pause = false)) :
    StepConcl Phase.slow start s := by
  obtain ⟨h1, h2, h3, h4, h5, h6, h7, h8, h9, h10, h11, h12, h13, h15⟩ := hinv
  have hill2 : s.in_longline = false := by
    cases hi : s.in_longline
    · rfl
    · rcases h13 hi with hc | hc
      · omega
      · omega
  have hlenm : s.q - s.p < s.min1stchunklen := by
    rcases Nat.lt_or_ge (s.q - s.p) s.min1stchunklen with hx | hx
    · exact hx
    · exact absurd ⟨hx, hill2⟩ hlmn
  have hqb : s.q = s.bufsz := by omega
  have hndq : NoDelim s s.p s.q :=
    noDelim_through start s
      (Or.inl ⟨h1, h2, h3, h4, h5, h6, h7, h8, h9, h10, h11, h12, h13, h15⟩)
      hd2
  obtain ⟨g1, g2, g3, g4, g5, g6, g7, g8, g9, g10, g11, g12, g13, g14, g15,
    g16, g17, g18, g19, g20, g21⟩ := shift_spec s hqb h5 (by omega) h2
  have heoff : s.eof_seen = false := by
    cases he : s.eof_seen
    · rfl
    · exact absurd (Or.inl he) hne
  have herf : s.err_seen = false := by
    cases he : s.err_seen
    · rfl
    · exact absurd (Or.inr he) hne
  constructor
  case left =>
    intro r s1 h
    unfold loopStep at h
    dsimp only at h
    rw [if_neg hd2, if_neg hne, if_neg hq2, if_neg hlmn, if_pos hlen,
      if_pos hp, if_neg hnpa] at h
    simp at h
  case right =>
  intro ph1 st1 s1 h
  unfold loopStep at h
  dsimp only at h
  rw [if_neg hd2, if_neg hne, if_neg hq2, if_neg hlmn, if_pos hlen,
    if_pos hp, if_neg hnpa] at h
  injection h with hph hst hs
  subst hph
  subst hst
  subst hs
  constructor
  · unfold ContFacts
    refine ⟨?_, ?_, ?_, ?_, ?_, ?_, ?_, ?_, ?_, ?_, ?_⟩
    · show bytesBetween
        { rawscan_shift_buffer_contents_down s with
          terminate_current_pause := false,
          ninval := (rawscan_shift_buffer_contents_down s).ninval + 1 }
        (rawscan_shift_buffer_contents_down s).p
        (rawscan_shift_buffer_contents_down s).q ++
        (rawscan_shift_buffer_contents_down s).input =
        window s ++ s.input
      rw [bytesBetween_state_congr (rawscan_shift_buffer_contents_down s)
        { rawscan_shift_buffer_contents_down s with
          terminate_current_pause := false,
          ninval := (rawscan_shift_buffer_contents_down s).ninval + 1 }
        rfl rfl rfl]
      rw [g21, g7]
      rfl
    · show (rawscan_shift_buffer_contents_down s).ninval + 1 ≤ s.ninval + 1
      rw [g14]
    · intro hnp
      exfalso
      rcases hnp with hx | hx | hx | ⟨hc1, hc2, hc3⟩
      · rw [heoff] at hx
        simp at hx
      · rw [herf] at hx
        simp at hx
      · omega
      · omega
    · intro hp1 hp2
      exact absurd ⟨hp1, hp2⟩ hnpa
    · intro hx
      have hx2 : (false : Bool) = true := hx
      simp at hx2
    · refine Or.inr ?_
      unfold NoPauseSt
      refine Or.inr (Or.inr (Or.inr ⟨?_, ?_, ?_⟩))
      · show (rawscan_shift_buffer_contents_down s).p +
          (rawscan_shift_buffer_contents_down s).min1stchunklen =
          (rawscan_shift_buffer_contents_down s).bufsz
        rw [g1, g5, g4]
        omega
      · show (rawscan_shift_buffer_contents_down s).in_longline = false
        rw [g9]
        exact hill2
      · show 1 ≤ (rawscan_shift_buffer_contents_down s).min1stchunklen
        rw [g5]
        exact h4
    · show (rawscan_shift_buffer_contents_down s).pause_on_inval = s.pause_on_inval
      exact g13
    · show (rawscan_shift_buffer_contents_down s).in_longline = s.in_longline
      exact g9
    · show (rawscan_shift_buffer_contents_down s).bufsz = s.bufsz
      exact g4
    · show (rawscan_shift_buffer_contents_down s).delimiterbyte = s.delimiterbyte
      exact g6
    · show (rawscan_shift_buffer_contents_down s).min1stchunklen = s.min1stchunklen
      exact g5
  · unfold LoopInv
    refine ⟨?_, ?_, ?_, ?_, ?_, ?_, ?_, ?_, ?_, ?_, ?_, ?_, ?_, ?_⟩
    · show 1 ≤ (rawscan_shift_buffer_contents_down s).bufsz
      rw [g4]
      exact h1
    · show (rawscan_shift_buffer_contents_down s).p ≤
        (rawscan_shift_buffer_contents_down s).q
      rw [g1, g2]
      omega
    · show (rawscan_shift_buffer_contents_down s).q ≤
        (rawscan_shift_buffer_contents_down s).bufsz
      rw [g2, g4]
      omega
    · show 1 ≤ (rawscan_shift_buffer_contents_down s).min1stchunklen
      rw [g5]
      exact h4
    · show (rawscan_shift_buffer_contents_down s).min1stchunklen ≤
        (rawscan_shift_buffer_contents_down s).bufsz
      rw [g5, g4]
      exact h5
    · show (rawscan_shift_buffer_contents_down s).p ≤
        (rawscan_shift_buffer_contents_down s).bufsz
      rw [g1, g4]
      omega
    · show (rawscan_shift_buffer_contents_down s).bufsz ≤
        (rawscan_shift_buffer_contents_down s).bufsz
      exact le_refl _
    · show NoDelim
        { rawscan_shift_buffer_contents_down s with
          terminate_current_pause := false,
          ninval := (rawscan_shift_buffer_contents_down s).ninval + 1 }
        (rawscan_shift_buffer_contents_down s).p
        (min (rawscan_shift_buffer_contents_down s).bufsz
          (rawscan_shift_buffer_contents_down s).q)
      have hminq : min (rawscan_shift_buffer_contents_down s).bufsz
          (rawscan_shift_buffer_contents_down s).q =
          (rawscan_shift_buffer_contents_down s).q := by
        rw [g2, g4]
        omega
      rw [hminq, g1, g2]
      intro k hk hpk
      have hkk : (s.bufsz - s.min1stchunklen) +
          (k - (s.bufsz - s.min1stchunklen)) = k := by omega
      have hb := g20 (k - (s.bufsz - s.min1stchunklen)) (by omega)
      rw [hkk] at hb
      have hgb : getByte
          { rawscan_shift_buffer_contents_down s with
            terminate_current_pause := false,
            ninval := (rawscan_shift_buffer_contents_down s).ninval + 1 } k =
          getByte (rawscan_shift_buffer_contents_down s) k :=
        getByte_congr_fields (rawscan_shift_buffer_contents_down s) _ rfl rfl rfl k
      rw [hgb, hb]
      have hdel : ({ rawscan_shift_buffer_contents_down s with
          terminate_current_pause := false,
          ninval := (rawscan_shift_buffer_contents_down s).ninval + 1 } : RS).delimiterbyte =
          s.delimiterbyte := g6
      rw [hdel]
      exact hndq (s.p + (k - (s.bufsz - s.min1stchunklen))) (by omega) (by omega)
    · show (rawscan_shift_buffer_contents_down s).next_delim_ptr_peek =
        (rawscan_shift_buffer_contents_down s).bufsz
      rw [g8, g4]
      exact h9
    · show (rawscan_shift_buffer_contents_down s).longline_ended = false
      rw [g10]
      exact h10
    · show ((rawscan_shift_buffer_contents_down s).eof_seen = true ∨
          (rawscan_shift_buffer_contents_down s).err_seen = true) →
        (rawscan_shift_buffer_contents_down s).input = []
      rw [g11, g12]
      intro he
      exact absurd he hne
    · show ((rawscan_shift_buffer_contents_down s).eof_seen = true ∨
          (rawscan_shift_buffer_contents_down s).err_seen = true) → _
      rw [g11, g12]
      intro he
      exact absurd he hne
    · show (rawscan_shift_buffer_contents_down s).in_longline = true → _
      rw [g9]
      intro hi
      exact absurd hi (by simp [hill2])
    · intro hph
      simp at hph

theorem slow_step_reset (start : Nat) (s : RS)
    (hinv : LoopInv Phase.slow start s)
    (hd2 : ¬ rawmemchr s start < s.q)
    (hne : ¬ (s.eof_seen = true ∨ s.err_seen = true))
    (hq2 : ¬ s.q < s.bufsz)
    (hlmn : ¬ (s.min1stchunklen ≤ s.q - s.p ∧ s.in_longline = false))
    (hlen0 : ¬ 0 < s.q - s.p)
    (hnpa : ¬ (s.pause_on_inval = true ∧ s.terminate_current_pause = false)) :
    StepConcl Phase.slow start s := by
  obtain ⟨h1, h2, h3, h4, h5, h6, h7, h8, h9, h10, h11, h12, h13, h15⟩ := hinv
  have hpq : s.p = s.q := by omega
  have hqb : s.q = s.bufsz := by omega
  have hnps : ¬ NoPauseSt s := by
    intro hnp
    rcases hnp with hx | hx | hx | ⟨hc1, hc2, hc3⟩
    · exact hne (Or.inl hx)
    · exact hne (Or.inr hx)
    · omega
    · omega
  have hws : window s = ([] : List Nat) := by
    unfold window bytesBetween
    rw [show s.q - s.p = 0 from by omega]
    simp
  constructor
  case left =>
    intro r s1 h
    unfold loopStep at h
    dsimp only at h
    rw [if_neg hd2, if_neg hne, if_neg hq2, if_neg hlmn, if_neg hlen0,
      if_neg hnpa] at h
    rcases hrw : rawscan_read { s with p := 0, q := 0, terminate_current_pause := false, ninval := s.ninval + 1 } with ⟨o, sR⟩
    rw [hrw] at h
    cases o <;> simp at h
  case right =>
  intro ph1 st1 s1 h
  unfold loopStep at h
  dsimp only at h
  rw [if_neg hd2, if_neg hne, if_neg hq2, if_neg hlmn, if_neg hlen0,
    if_neg hnpa] at h
  rcases hrw : rawscan_read { s with p := 0, q := 0, terminate_current_pause := false, ninval := s.ninval + 1 } with ⟨o, sR⟩
  rw [hrw] at h
  cases o with
  | some preq =>
      dsimp only at h
      injection h with hph hst hs
      subst hph
      subst hst
      subst hs
      by_cases hc : 0 < readCnt { s with p := 0, q := 0, terminate_current_pause := false, ninval := s.ninval + 1 }
      case neg =>
        have hz : readCnt { s with p := 0, q := 0, terminate_current_pause := false, ninval := s.ninval + 1 } = 0 := Nat.eq_zero_of_not_pos hc
        have := (rawscan_read_zero _ hz).1
        rw [hrw] at this
        simp at this
      case pos =>
        have hre := rawscan_read_pos _ hc
        rw [hre] at hrw
        injection hrw with ha hb
        injection ha with ha2
        subst ha2
        subst hb
        have hcle : readCnt { s with p := 0, q := 0, terminate_current_pause := false, ninval := s.ninval + 1 } ≤ s.input.length := readCnt_le_input _
        have hcsp : readCnt { s with p := 0, q := 0, terminate_current_pause := false, ninval := s.ninval + 1 } ≤ s.bufsz - 0 := readCnt_le_space _
        have hw2 : window (readAdvance { s with p := 0, q := 0, terminate_current_pause := false, ninval := s.ninval + 1 }
            (readCnt { s with p := 0, q := 0, terminate_current_pause := false, ninval := s.ninval + 1 })) =
            s.input.take (readCnt { s with p := 0, q := 0, terminate_current_pause := false, ninval := s.ninval + 1 }) :=
          readAdvance_window_new { s with p := 0, q := 0, terminate_current_pause := false, ninval := s.ninval + 1 }
            (readCnt { s with p := 0, q := 0, terminate_current_pause := false, ninval := s.ninval + 1 }) hcle
            (show (0 : Nat) + readCnt { s with p := 0, q := 0, terminate_current_pause := false, ninval := s.ninval + 1 } ≤ s.bufsz from by omega)
        constructor
        · unfold ContFacts
          refine ⟨?_, ?_, ?_, ?_, ?_, ?_, ?_, ?_, ?_, ?_, ?_⟩
          · rw [show window (readAdvance { s with p := 0, q := 0, terminate_current_pause := false, ninval := s.ninval + 1 }
              (readCnt { s with p := 0, q := 0, terminate_current_pause := false, ninval := s.ninval + 1 })) =
              s.input.take (readCnt { s with p := 0, q := 0, terminate_current_pause := false, ninval := s.ninval + 1 }) from hw2]
            rw [hws]
            show s.input.take (readCnt { s with p := 0, q := 0, terminate_current_pause := false, ninval := s.ninval + 1 }) ++
              s.input.drop (readCnt { s with p := 0, q := 0, terminate_current_pause := false, ninval := s.ninval + 1 }) = [] ++ s.input
            rw [List.take_append_drop]
            simp
          · show s.ninval + 1 ≤ s.ninval + 1
            exact le_refl _
          · intro hnp
            exact absurd hnp hnps
          · intro hp1 hp2
            exact absurd ⟨hp1, hp2⟩ hnpa
          · intro hx
            have hx2 : (false : Bool) = true := hx
            simp at hx2
          · refine Or.inr ?_
            unfold NoPauseSt
            exact Or.inr (Or.inr (Or.inl rfl))
          · rfl
          · rfl
          · rfl
          · rfl
          · rfl
        · unfold LoopInv
          refine ⟨h1, ?_, ?_, h4, h5, ?_, ?_, ?_, h9, h10, ?_, ?_, ?_, ?_⟩
          · show (0 : Nat) ≤ 0 + readCnt { s with p := 0, q := 0, terminate_current_pause := false, ninval := s.ninval + 1 }
            omega
          · show 0 + readCnt { s with p := 0, q := 0, terminate_current_pause := false, ninval := s.ninval + 1 } ≤ s.bufsz
            omega
          · show (0 : Nat) ≤ 0
            exact le_refl _
          · show (0 : Nat) ≤ s.bufsz
            exact Nat.zero_le _
          · intro k hk hpk
            exfalso
            have hk2 : k < min 0 (0 + readCnt { s with p := 0, q := 0, terminate_current_pause := false, ninval := s.ninval + 1 }) := hk
            omega
          · intro he
            exfalso
            have he2 : s.eof_seen = true ∨ s.err_seen = true := he
            exact hne he2
          · intro he
            exfalso
            have he2 : s.eof_seen = true ∨ s.err_seen = true := he
            exact hne he2
          · intro _
            exact Or.inl rfl
          · intro hph
            simp at hph
  | none =>
      dsimp only at h
      injection h with hph hst hs
      subst hph
      subst hst
      subst hs
      by_cases hc : 0 < readCnt { s with p := 0, q := 0, terminate_current_pause := false, ninval := s.ninval + 1 }
      case pos =>
        have hre := rawscan_read_pos _ hc
        rw [hre] at hrw
        simp at hrw
      case neg =>
        have hz : readCnt { s with p := 0, q := 0, terminate_current_pause := false, ninval := s.ninval + 1 } = 0 := Nat.eq_zero_of_not_pos hc
        have hzf := rawscan_read_zero _ hz
        obtain ⟨z1, z2, z3, z4, z5, z6, z7, z8, z9, z10, z11, z12, z13, z14,
          z15, z16, z17, z18, z19, z20, z21⟩ := hzf
        have h2nd : (rawscan_read { s with p := 0, q := 0, terminate_current_pause := false, ninval := s.ninval + 1 }).2 = sR := by
          rw [hrw]
        rw [h2nd] at z2 z3 z4 z5 z6 z7 z8 z9 z10 z11 z12 z13 z14 z15 z16 z17 z18 z19 z20 z21
        have z3' : sR.p = 0 := z3
        have z4' : sR.q = 0 := z4
        have z6' : sR.input = s.input := z6
        have z7' : sR.bufsz = s.bufsz := z7
        have z8' : sR.min1stchunklen = s.min1stchunklen := z8
        have z9' : sR.delimiterbyte = s.delimiterbyte := z9
        have z10' : sR.next_delim_ptr_peek = s.next_delim_ptr_peek := z10
        have z11' : sR.in_longline = s.in_longline := z11
        have z12' : sR.longline_ended = s.longline_ended := z12
        have z15' : sR.pause_on_inval = s.pause_on_inval := z15
        have z16' : sR.terminate_current_pause = false := z16
        have z17' : sR.ninval = s.ninval + 1 := z17
        have hinempty : s.input = [] := by
          have := rawscan_read_zero_input { s with p := 0, q := 0, terminate_current_pause := false, ninval := s.ninval + 1 } hz
            (by show (0 : Nat) < s.bufsz; omega)
          exact this
        have hwsr : window sR = ([] : List Nat) := by
          unfold window bytesBetween
          rw [z3', z4']
          simp
        constructor
        · unfold ContFacts
          refine ⟨?_, ?_, ?_, ?_, ?_, ?_, z15', z11', z7', z9', z8'⟩
          · rw [hwsr, hws, z6']
          · rw [z17']
          · intro hnp
            exact absurd hnp hnps
          · intro hp1 hp2
            exact absurd ⟨hp1, hp2⟩ hnpa
          · intro hx
            rw [z16'] at hx
            simp at hx
          · exact Or.inr (Or.inr (Or.inr (Or.inl z3')))
        · unfold LoopInv
          refine ⟨?_, ?_, ?_, ?_, ?_, ?_, ?_, ?_, ?_, ?_, ?_, ?_, ?_, ?_⟩
          · rw [z7']
            exact h1
          · rw [z3', z4']
          · rw [z4', z7']
            exact Nat.zero_le _
          · rw [z8']
            exact h4
          · rw [z8', z7']
            exact h5
          · rw [z3']
            exact Nat.zero_le _
          · exact le_refl _
          · intro k hk hpk
            exfalso
            rw [z7', z4'] at hk
            omega
          · rw [z10', z7']
            exact h9
          · rw [z12']
            exact h10
          · intro _
            rw [z6']
            exact hinempty
          · intro _
            exact Or.inr rfl
          · intro _
            exact Or.inl z3'
          · intro hph
            simp at hph

theorem loopStep_concl (ph : Phase) (start : Nat) (s : RS)
    (hinv : LoopInv ph start s) : StepConcl ph start s := by
  cases ph with
  | fast =>
      by_cases hpq : s.p < s.q
      · by_cases hd : rawmemchr s start < s.q
        · exact fast_step_line start s hinv hpq hd
        · by_cases hq1 : s.q < s.bufsz
          · exact fast_step_read start s hinv hpq hd hq1
          · exact fast_step_fall_top start s hinv hpq hd hq1
      · exact fast_step_fall_empty start s hinv hpq
  | slow =>
      by_cases hd : rawmemchr s start < s.q
      · cases hil : s.in_longline with
        | false => exact slow_step_full_delim start s hinv hd hil
        | true => exact slow_step_within_delim start s hinv hd hil
      · by_cases he : s.eof_seen = true ∨ s.err_seen = true
        · by_cases hlen : 0 < s.q - s.p
          · cases hil : s.in_longline with
            | false => exact slow_step_tail_full start s hinv hd he hlen hil
            | true => exact slow_step_tail_within start s hinv hd he hlen hil
          · cases hil : s.in_longline with
            | true => exact slow_step_latch_end start s hinv hd he hlen hil
            | false =>
                by_cases heof : s.eof_seen = true
                · exact slow_step_eof start s hinv hd he hlen hil heof
                · exact slow_step_err start s hinv hd he hlen hil heof
        · by_cases hq1 : s.q < s.bufsz
          · exact slow_step_read start s hinv hd he hq1
          · by_cases hlm : s.min1stchunklen ≤ s.q - s.p ∧ s.in_longline = false
            · exact slow_step_start_longline start s hinv hd he hq1 hlm
            · by_cases hlen : 0 < s.q - s.p
              · by_cases hp : 0 < s.p
                · by_cases hpa : s.pause_on_inval = true ∧
                      s.terminate_current_pause = false
                  · exact slow_step_paused_shift start s hinv hd he hq1 hlm
                      hlen hp hpa
                  · exact slow_step_shift start s hinv hd he hq1 hlm hlen hp hpa
                · exact slow_step_saturated_within start s hinv hd he hq1 hlm
                    hlen hp
              · by_cases hpa : s.pause_on_inval = true ∧
                    s.terminate_current_pause = false
                · exact slow_step_paused_reset start s hinv hd he hq1 hlm
                    hlen hpa
                · exact slow_step_reset start s hinv hd he hq1 hlm hlen hpa

theorem retFacts_loopFacts (s : RS) (r : RSResult) (s1 : RS)
    (h : RetFacts s r s1) : LoopFacts s r s1 := by
  obtain ⟨k1, k2, k3, k4, k5, k6, k7, k8, k9, k10, k11, k12, k13, k14, k15,
    k16, k17, k18, k19, k20⟩ := h
  refine ⟨k1, k2, ?_, ?_, k6, k7, k8, k9, k10, k11, k12, k13, k14, k15, k16,
    k17, k18, ?_, ?_, ?_⟩
  · intro hnp
    exact ⟨k3, k20 hnp⟩
  · intro _ _
    exact k3
  · intro hpa
    exact (k19 hpa).2.2.2.2.1
  · intro hpa
    exact ⟨(k19 hpa).1, ((k19 hpa).2.1).ge,
      fun k _ => getByte_congr_fields s s1 (k19 hpa).2.2.1 k7 k8 k⟩
  · intro _
    omega

theorem loopFacts_trans (s s1 s2 : RS) (r : RSResult)
    (hc : ContFacts s s1) (h : LoopFacts s1 r s2) : LoopFacts s r s2 := by
  obtain ⟨c1, c2, c3, c4, c5, c6, c7, c8, c9, c10, c11⟩ := hc
  obtain ⟨k1, k2, k3, k4, k5, k6, k7, k8, k9, k10, k11, k12, k13, k14, k15,
    k16, k17, k18, k19, k20⟩ := h
  refine ⟨k1, ?_, ?_, ?_, ?_, ?_, ?_, ?_, k9, k10, k11, k12, k13, ?_, ?_,
    ?_, k17, ?_, ?_, ?_⟩
  · rw [k2, c1]
  · intro hnp
    obtain ⟨he1, he2⟩ := c3 hnp
    obtain ⟨he3, he4⟩ := k3 he2
    exact ⟨he3.trans he1, he4⟩
  · intro hpa hlat
    have hlat1 : s1.terminate_current_pause = false := by
      cases hx : s1.terminate_current_pause
      · rfl
      · exact absurd ((c5 hx).1) (by simp [hlat])
    have := k4 (c7.trans hpa) hlat1
    rw [this]
    exact c4 hpa hlat
  · exact k5.trans c7
  · exact k6.trans c9
  · exact k7.trans c10
  · exact k8.trans c11
  · intro hil
    exact k14 (c8.trans hil)
  · intro hr
    obtain ⟨m1, m2, m3⟩ := k15 hr
    exact ⟨c8 ▸ m1, m2, m3⟩
  · intro hr
    obtain ⟨m1, m2, m3⟩ := k16 hr
    exact ⟨c8 ▸ m1, m2, m3⟩
  · intro hr
    exact c7 ▸ k18 hr
  · intro hr
    rcases c6 with ⟨f1, f2, f3⟩ | hnp
    · obtain ⟨g1, g2, g3⟩ := k19 hr
      exact ⟨g1.trans f1, le_trans f2 g2,
        fun k hk => (g3 k (lt_of_lt_of_le hk f2)).trans (f3 k hk)⟩
    · exact absurd hr (k3 hnp).2
  · intro hpa
    have hpa1 : s1.pause_on_inval = true := c7.trans hpa
    cases hx : s1.terminate_current_pause with
    | false =>
        rw [k4 hpa1 hx]
        exact c2
    | true =>
        obtain ⟨_, heq⟩ := c5 hx
        have hk := k20 hpa1
        omega

theorem loopGo_facts (fuel : Nat) : ∀ (ph : Phase) (start : Nat) (s : RS)
    (r : RSResult) (s1 : RS), LoopInv ph start s →
    loopGo fuel ph start s = some (r, s1) → LoopFacts s r s1 := by
  induction fuel with
  | zero =>
      intro ph start s r s1 _ h
      simp [loopGo] at h
  | succ n ih =>
      intro ph start s r s1 hinv h
      unfold loopGo at h
      rcases hstep : loopStep ph start s with ⟨r1, sA⟩ | ⟨ph1, st1, sA⟩
      · rw [hstep] at h
        dsimp only at h
        simp only [Option.some.injEq, Prod.mk.injEq] at h
        obtain ⟨hr, hs⟩ := h
        subst hr
        subst hs
        exact retFacts_loopFacts s r1 sA
          ((loopStep_concl ph start s hinv).1 r1 sA hstep)
      · rw [hstep] at h
        dsimp only at h
        have hcl := (loopStep_concl ph start s hinv).2 ph1 st1 sA hstep
        exact loopFacts_trans s sA s1 r hcl.1 (ih ph1 st1 sA r s1 hcl.2 h)

theorem fast_path_facts (s : RS) (hinv : RSInv s)
    (hpd : s.p ≤ s.next_delim_ptr_peek) (hd : s.next_delim_ptr_peek < s.q) :
    RetFacts s (rawscan_fast_line s s.next_delim_ptr_peek).1
      (rawscan_fast_line s s.next_delim_ptr_peek).2 := by
  obtain ⟨h1, h2, h3, h4, h5, h6, h7, h8, h9, h10, h11⟩ := hinv
  obtain ⟨hdel, hnd⟩ := h7 hpd hd
  have hill : s.in_longline = false := by
    cases hx : s.in_longline
    · rfl
    · have := h8 hx
      omega
  have hended : s.longline_ended = false := by
    cases hx : s.longline_ended
    · rfl
    · have h2x := h10 hx
      simp [hill] at h2x
  have hnoeof : ¬ (s.eof_seen = true ∨ s.err_seen = true) := by
    intro he
    have := (h11 he).2
    omega
  have hspec2 := rawmemchr_spec s (s.next_delim_ptr_peek + 1) (by omega)
  unfold rawscan_fast_line
  dsimp only
  unfold RetFacts
  refine ⟨?_, ?_, rfl, rfl, rfl, rfl, rfl, rfl, rfl, ?_, ?_, ?_, ?_, ?_, ?_,
    ?_, ?_, ?_, ?_, ?_⟩
  · unfold RSInv
    refine ⟨h1, ?_, h3, h4, h5, ?_, ?_, ?_, ?_, ?_, ?_⟩
    · show s.next_delim_ptr_peek + 1 ≤ s.q
      omega
    · show rawmemchr s (s.next_delim_ptr_peek + 1) ≤ s.bufsz
      exact hspec2.2.1
    · unfold PeekInv
      intro ha hb
      refine ⟨hspec2.2.2.1, ?_⟩
      have hnd2 : NoDelim s (s.next_delim_ptr_peek + 1)
          (rawmemchr s (s.next_delim_ptr_peek + 1)) :=
        fun k hk hpk => hspec2.2.2.2 k hpk hk
      exact noDelim_state_congr s _ rfl rfl rfl _ _ hnd2
    · intro hi
      have hi2 : s.in_longline = true := hi
      simp [hill] at hi2
    · intro hi
      have hi2 : s.in_longline = true := hi
      simp [hill] at hi2
    · intro he
      have he2 : s.longline_ended = true := he
      simp [hended] at he2
    · intro he
      have he2 : s.eof_seen = true ∨ s.err_seen = true := he
      exact absurd he2 hnoeof
  · have hcong := bytesBetween_state_congr s
      { s with
        result := { type := RT.rt_full_line,
                    line_begin := some s.p,
                    line_end := some s.next_delim_ptr_peek,
                    errnum := s.result.errnum },
        p := s.next_delim_ptr_peek + 1,
        next_delim_ptr_peek := rawmemchr s (s.next_delim_ptr_peek + 1) } rfl rfl rfl
    have hd1 : dataBytesOf
        { type := RT.rt_full_line,
          line_begin := some s.p,
          line_end := some s.next_delim_ptr_peek,
          errnum := s.result.errnum }
        { s with
          result := { type := RT.rt_full_line,
                      line_begin := some s.p,
                      line_end := some s.next_delim_ptr_peek,
                      errnum := s.result.errnum },
          p := s.next_delim_ptr_peek + 1,
          next_delim_ptr_peek := rawmemchr s (s.next_delim_ptr_peek + 1) } =
        bytesBetween s s.p (s.next_delim_ptr_peek + 1) := by
      unfold dataBytesOf isDataType
      dsimp only
      rw [if_pos rfl]
      rw [hcong]
    have hw1 : window
        { s with
          result := { type := RT.rt_full_line,
                      line_begin := some s.p,
                      line_end := some s.next_delim_ptr_peek,
                      errnum := s.result.errnum },
          p := s.next_delim_ptr_peek + 1,
          next_delim_ptr_peek := rawmemchr s (s.next_delim_ptr_peek + 1) } =
        bytesBetween s (s.next_delim_ptr_peek + 1) s.q := by
      unfold window
      rw [hcong]
    have hw0 : window s = bytesBetween s s.p s.q := rfl
    rw [hd1, hw1, hw0]
    rw [bytesBetween_split s s.p (s.next_delim_ptr_peek + 1) s.q (by omega)
      (by omega)]
  · intro h
    simp at h
  · intro h
    simp at h
  · intro _
    exact ⟨s.p, s.next_delim_ptr_peek, rfl, rfl, hd⟩
  · intro _
    refine ⟨s.p, s.next_delim_ptr_peek, rfl, rfl, by omega, hd, h3, hdel, ?_⟩
    exact noDelim_state_congr s _ rfl rfl rfl _ _ hnd
  · intro h
    simp at h
  · intro h
    exact absurd h (by simp [hill])
  · intro h
    simp at h
  · intro h
    simp at h
  · intro h
    simp at h
  · intro h
    simp at h
  · intro _ hx
    simp at hx

theorem terminate_facts (s : RS) (hinv : RSInv s) (hend : s.longline_ended = true) :
    RetFacts s (rawscan_handle_end_of_longline s).1
      (rawscan_handle_end_of_longline s).2 := by
  obtain ⟨h1, h2, h3, h4, h5, h6, h7, h8, h9, h10, h11⟩ := hinv
  rw [handle_end_true s hend]
  unfold rawscan_terminate_longline
  dsimp only
  unfold RetFacts
  refine ⟨?_, ?_, rfl, rfl, rfl, rfl, rfl, rfl, rfl, ?_, ?_, ?_, ?_, ?_, ?_,
    ?_, ?_, ?_, ?_, ?_⟩
  · unfold RSInv
    refine ⟨h1, h2, h3, h4, h5, h6, ?_, ?_, ?_, ?_, ?_⟩
    · unfold PeekInv
      intro ha hb
      obtain ⟨hg, hn⟩ := h7 ha hb
      exact ⟨hg, noDelim_state_congr s _ rfl rfl rfl _ _ hn⟩
    · intro hi
      have hi2 : (false : Bool) = true := hi
      simp at hi2
    · intro hi
      have hi2 : (false : Bool) = true := hi
      simp at hi2
    · intro he
      have he2 : (false : Bool) = true := he
      simp at he2
    · intro he
      have he2 : s.eof_seen = true ∨ s.err_seen = true := he
      exact h11 he2
  · have hcong := bytesBetween_state_congr s
      { s with
        result := { type := RT.rt_longline_ended, line_begin := none,
                    line_end := none, errnum := s.result.errnum },
        in_longline := false,
        longline_ended := false } rfl rfl rfl
    show dataBytesOf
        { type := RT.rt_longline_ended, line_begin := none, line_end := none,
          errnum := s.result.errnum }
        { s with
          result := { type := RT.rt_longline_ended, line_begin := none,
                      line_end := none, errnum := s.result.errnum },
          in_longline := false,
          longline_ended := false } ++
        window { s with
          result := { type := RT.rt_longline_ended, line_begin := none,
                      line_end := none, errnum := s.result.errnum },
          in_longline := false,
          longline_ended := false } ++ s.input = window s ++ s.input
    have hd1 : dataBytesOf
        { type := RT.rt_longline_ended, line_begin := none, line_end := none,
          errnum := s.result.errnum }
        { s with
          result := { type := RT.rt_longline_ended, line_begin := none,
                      line_end := none, errnum := s.result.errnum },
          in_longline := false,
          longline_ended := false } = ([] : List Nat) := rfl
    have hw1 : window
        { s with
          result := { type := RT.rt_longline_ended, line_begin := none,
                      line_end := none, errnum := s.result.errnum },
          in_longline := false,
          longline_ended := false } = bytesBetween s s.p s.q := by
      unfold window
      rw [hcong]
    rw [hd1, hw1]
    rfl
  · intro h
    simp at h
  · intro h
    simp at h
  · intro h
    simp [isDataType] at h
  · intro h
    simp at h
  · intro h
    simp at h
  · intro _
    exact Or.inr (Or.inl rfl)
  · intro h
    simp at h
  · intro h
    simp at h
  · intro _
    exact ⟨rfl, rfl, rfl, rfl⟩
  · intro h
    simp at h
  · intro _ hx
    simp at hx

theorem loopInv_entry_slow (s : RS) (hinv : RSInv s)
    (hil : s.in_longline = true) (hend : s.longline_ended = false) :
    LoopInv Phase.slow s.bufsz s := by
  obtain ⟨h1, h2, h3, h4, h5, h6, h7, h8, h9, h10, h11⟩ := hinv
  have hpq : s.p = s.q := (h9 hil hend).1
  have hqb : s.q = s.bufsz := (h9 hil hend).2
  unfold LoopInv
  refine ⟨h1, h2, h3, h4, h5, by omega, le_refl _, ?_, h8 hil, hend, ?_,
    ?_, ?_, ?_⟩
  · intro k hk hpk
    exact absurd hk (by omega)
  · intro he
    exact (h11 he).1
  · intro _
    exact Or.inr rfl
  · intro _
    exact Or.inr ⟨hpq, hqb⟩
  · intro hph
    simp at hph

theorem loopInv_entry_fast (s : RS) (hinv : RSInv s)
    (hil : s.in_longline = false) :
    LoopInv Phase.fast s.p { s with next_delim_ptr_peek := s.bufsz } := by
  obtain ⟨h1, h2, h3, h4, h5, h6, h7, h8, h9, h10, h11⟩ := hinv
  have hend : s.longline_ended = false := by
    cases hx : s.longline_ended
    · rfl
    · have := h10 hx
      simp [hil] at this
  unfold LoopInv
  refine ⟨h1, h2, h3, h4, h5, le_refl _, ?_, ?_, rfl, hend, ?_, ?_, ?_, ?_⟩
  · show s.p ≤ s.bufsz
    omega
  · intro k hk hpk
    have hk2 : k < min s.p s.q := hk
    have hpk2 : s.p ≤ k := hpk
    exact absurd hk2 (by omega)
  · intro he
    have he2 : s.eof_seen = true ∨ s.err_seen = true := he
    exact (h11 he2).1
  · intro he
    have he2 : s.eof_seen = true ∨ s.err_seen = true := he
    exact Or.inl (h11 he2).2
  · intro hx
    exact absurd (show s.in_longline = true from hx) (by simp [hil])
  · intro _
    exact hil

theorem loopFacts_peek (s : RS) (x : Nat) (r : RSResult) (s1 : RS)
    (h : LoopFacts { s with next_delim_ptr_peek := x } r s1) :
    LoopFacts s r s1 := h

theorem rs_getline_facts (fuel : Nat) (s : RS) (r : RSResult) (s1 : RS)
    (hinv : RSInv s) (h : rs_getline fuel s = some (r, s1)) :
    LoopFacts s r s1 := by
  unfold rs_getline at h
  by_cases hfp : s.p ≤ s.next_delim_ptr_peek ∧ s.next_delim_ptr_peek < s.q
  · rw [if_pos hfp] at h
    dsimp only at h
    simp only [Option.some.injEq, Prod.mk.injEq] at h
    obtain ⟨hr, hs⟩ := h
    subst hr
    subst hs
    exact retFacts_loopFacts s _ _ (fast_path_facts s hinv hfp.1 hfp.2)
  · rw [if_neg hfp] at h
    unfold rs_getline_morecode at h
    by_cases hil : s.in_longline = true
    · rw [if_pos hil] at h
      by_cases hend : s.longline_ended = true
      · rw [if_pos hend] at h
        dsimp only at h
        simp only [Option.some.injEq, Prod.mk.injEq] at h
        obtain ⟨hr, hs⟩ := h
        subst hr
        subst hs
        exact retFacts_loopFacts s _ _ (terminate_facts s hinv hend)
      · rw [if_neg hend] at h
        have hend2 : s.longline_ended = false := by
          cases hx : s.longline_ended
          · rfl
          · exact absurd hx hend
        exact loopGo_facts fuel Phase.slow s.bufsz s r s1
          (loopInv_entry_slow s hinv hil hend2) h
    · rw [if_neg hil] at h
      dsimp only at h
      have hil2 : s.in_longline = false := by
        cases hx : s.in_longline
        · rfl
        · exact absurd hx hil
      exact loopFacts_peek s s.bufsz r s1
        (loopGo_facts fuel Phase.fast _ _ r s1 (loopInv_entry_fast s hinv hil2) h)

theorem rs_open_RSInv (input : List Nat) (readErr : Option Nat)
    (readSizes : List Nat) (bufsz delim : Nat) (hb : 1 ≤ bufsz) :
    RSInv (rs_open input readErr readSizes bufsz delim) := by
  unfold RSInv rs_open
  dsimp only
  refine ⟨hb, le_refl _, le_refl _, hb, le_refl _, le_refl _, ?_, ?_, ?_, ?_,
    ?_⟩
  · unfold PeekInv
    dsimp only
    intro _ hb2
    exact absurd hb2 (by omega)
  · intro hx
    simp at hx
  · intro hx
    simp at hx
  · intro hx
    simp at hx
  · intro he
    simp at he

theorem window_empty (s : RS) (h : s.p = s.q) : window s = [] := by
  unfold window bytesBetween
  rw [h, Nat.sub_self]
  rfl

theorem dataBytesOf_nondata (r : RSResult) (s : RS)
    (h : isDataType r.type = false) : dataBytesOf r s = [] := by
  unfold dataBytesOf
  rw [if_neg (by simp [h])]

theorem rs_run_facts : ∀ (n fuel : Nat) (s : RS) (rs : List RSResult)
    (bs : List Nat) (s2 : RS), RSInv s → rs_run n fuel s = some (rs, bs, s2) →
    bs ++ window s2 ++ s2.input = window s ++ s.input ∧ s2.p = s2.q ∧
      s2.input = [] := by
  intro n
  induction n with
  | zero =>
      intro fuel s rs bs s2 _ h
      simp [rs_run] at h
  | succ k ih =>
      intro fuel s rs bs s2 hinv h
      unfold rs_run at h
      cases hg : rs_getline fuel s with
      | none =>
          rw [hg] at h
          simp at h
      | some pr =>
          rw [hg] at h
          obtain ⟨r, sA⟩ := pr
          obtain ⟨l1, l2, l3, l4, l5, l6, l7, l8, l9, l10, l11, l12, l13,
            l14, l15, l16, l17, l18, l19, l20⟩ :=
            rs_getline_facts fuel s r sA hinv hg
          dsimp only at h
          by_cases hend : r.type = RT.rt_eof ∨ r.type = RT.rt_err
          · rw [if_pos hend] at h
            simp only [Option.some.injEq, Prod.mk.injEq] at h
            obtain ⟨h1, h2, h3⟩ := h
            subst h1
            subst h2
            subst h3
            have hdb : dataBytesOf r sA = [] :=
              dataBytesOf_nondata r sA
                (by rcases hend with he | he <;> simp [isDataType, he])
            rw [hdb] at l2
            constructor
            · simpa using l2
            · rcases hend with he | he
              · exact ⟨(l9 he).1, (l9 he).2.1⟩
              · exact ⟨(l10 he).1, (l10 he).2.1⟩
          · rw [if_neg hend] at h
            cases hrec : rs_run k fuel sA with
            | none =>
                rw [hrec] at h
                simp at h
            | some out =>
                rw [hrec] at h
                obtain ⟨rs2, bs2, s3⟩ := out
                dsimp only at h
                simp only [Option.some.injEq, Prod.mk.injEq] at h
                obtain ⟨h1, h2, h3⟩ := h
                subst h1
                subst h2
                subst h3
                have hih := ih fuel sA rs2 bs2 s3 l1 hrec
                refine ⟨?_, hih.2.1, hih.2.2⟩
                have hb2 : bs2 ++ (window s3 ++ s3.input) =
                    window sA ++ sA.input := by
                  simpa [List.append_assoc] using hih.1
                have hl2 : dataBytesOf r sA ++ (window sA ++ sA.input) =
                    window s ++ s.input := by
                  simpa [List.append_assoc] using l2
                simp only [List.append_assoc]
                rw [hb2]
                simpa [List.append_assoc] using hl2

theorem loopGo_succ (fuel : Nat) (ph : Phase) (start : Nat) (s : RS) :
    loopGo (fuel + 1) ph start s =
      match loopStep ph start s with
      | StepRes.ret r s1 => some (r, s1)
      | StepRes.cont ph1 start1 s1 => loopGo fuel ph1 start1 s1 := rfl

theorem post_err_loop (fuel : Nat) (t : RS) (hpq : t.p = t.q)
    (herr : t.err_seen = true) (heof : t.eof_seen = false)
    (hil : t.in_longline = false) (hq : t.q ≤ t.bufsz) :
    loopGo (fuel + 2) Phase.fast t.p t =
      some ((rawscan_err t).1, (rawscan_err t).2) := by
  have e1 : loopStep Phase.fast t.p t = StepRes.cont Phase.slow t.p t := by
    unfold loopStep
    dsimp only
    rw [if_neg (show ¬ t.p < t.q from by omega)]
  have e2 : loopStep Phase.slow t.p t =
      StepRes.ret (rawscan_err t).1 (rawscan_err t).2 := by
    unfold loopStep
    dsimp only
    have hd := (rawmemchr_spec t t.p (by omega)).1
    rw [if_neg (show ¬ rawmemchr t t.p < t.q from by omega)]
    rw [if_pos (Or.inr herr)]
    rw [if_neg (show ¬ 0 < t.q - t.p from by omega)]
    rw [if_neg (show ¬ t.in_longline = true from by simp [hil])]
    rw [if_neg (show ¬ t.eof_seen = true from by simp [heof])]
  show loopGo (fuel + 1 + 1) Phase.fast t.p t = _
  rw [loopGo_succ, e1]
  show loopGo (fuel + 1) Phase.slow t.p t = _
  rw [loopGo_succ, e2]

theorem post_eof_loop (fuel : Nat) (t : RS) (hpq : t.p = t.q)
    (heof : t.eof_seen = true) (hil : t.in_longline = false)
    (hq : t.q ≤ t.bufsz) :
    loopGo (fuel + 2) Phase.fast t.p t =
      some ((rawscan_eof t).1, (rawscan_eof t).2) := by
  have e1 : loopStep Phase.fast t.p t = StepRes.cont Phase.slow t.p t := by
    unfold loopStep
    dsimp only
    rw [if_neg (show ¬ t.p < t.q from by omega)]
  have e2 : loopStep Phase.slow t.p t =
      StepRes.ret (rawscan_eof t).1 (rawscan_eof t).2 := by
    unfold loopStep
    dsimp only
    have hd := (rawmemchr_spec t t.p (by omega)).1
    rw [if_neg (show ¬ rawmemchr t t.p < t.q from by omega)]
    rw [if_pos (Or.inl heof)]
    rw [if_neg (show ¬ 0 < t.q - t.p from by omega)]
    rw [if_neg (show ¬ t.in_longline = true from by simp [hil])]
    rw [if_pos heof]
  show loopGo (fuel + 1 + 1) Phase.fast t.p t = _
  rw [loopGo_succ, e1]
  show loopGo (fuel + 1) Phase.slow t.p t = _
  rw [loopGo_succ, e2]

theorem post_err_call (n : Nat) (s : RS) (hp : PostErr s) :
    ∃ r s1, rs_getline (n + 2) s = some (r, s1) ∧ r.type = RT.rt_err ∧
      r.errnum = s.errnum ∧ s1.nreads = s.nreads ∧ s1.ninval = s.ninval ∧
      s1.errnum = s.errnum ∧ s1.input = s.input ∧ PostErr s1 := by
  obtain ⟨hinv, herr, heof, hil⟩ := hp
  obtain ⟨h1, h2, h3, h4, h5, h6, h7, h8, h9, h10, h11⟩ := hinv
  have hpq : s.p = s.q := (h11 (Or.inr herr)).2
  refine ⟨(rawscan_err { s with next_delim_ptr_peek := s.bufsz }).1,
    (rawscan_err { s with next_delim_ptr_peek := s.bufsz }).2,
    ?_, rfl, rfl, rfl, rfl, rfl, rfl, ?_⟩
  · unfold rs_getline
    rw [if_neg (by intro hx; omega)]
    unfold rs_getline_morecode
    rw [if_neg (by simp [hil])]
    dsimp only
    exact post_err_loop n { s with next_delim_ptr_peek := s.bufsz } hpq herr
      heof hil h3
  · refine ⟨?_, herr, heof, hil⟩
    unfold RSInv
    refine ⟨h1, h2, h3, h4, h5, le_refl _, ?_, ?_, ?_, ?_, ?_⟩
    · unfold PeekInv
      intro _ hb2
      exact absurd (show s.bufsz < s.q from hb2) (by omega)
    · intro _
      rfl
    · intro hx _
      exact absurd (show s.in_longline = true from hx) (by simp [hil])
    · intro hx
      exact h10 hx
    · intro he
      exact h11 he

theorem post_eof_call (n : Nat) (s : RS) (hp : PostEof s) :
    ∃ r s1, rs_getline (n + 2) s = some (r, s1) ∧ r.type = RT.rt_eof ∧
      s1.nreads = s.nreads ∧ s1.ninval = s.ninval ∧
      s1.input = s.input ∧ PostEof s1 := by
  obtain ⟨hinv, heof, hil⟩ := hp
  obtain ⟨h1, h2, h3, h4, h5, h6, h7, h8, h9, h10, h11⟩ := hinv
  have hpq : s.p = s.q := (h11 (Or.inl heof)).2
  refine ⟨(rawscan_eof { s with next_delim_ptr_peek := s.bufsz }).1,
    (rawscan_eof { s with next_delim_ptr_peek := s.bufsz }).2,
    ?_, rfl, rfl, rfl, rfl, ?_⟩
  · unfold rs_getline
    rw [if_neg (by intro hx; omega)]
    unfold rs_getline_morecode
    rw [if_neg (by simp [hil])]
    dsimp only
    exact post_eof_loop n { s with next_delim_ptr_peek := s.bufsz } hpq heof
      hil h3
  · refine ⟨?_, rfl, hil⟩
    unfold RSInv
    refine ⟨h1, h2, h3, h4, h5, le_refl _, ?_, ?_, ?_, ?_, ?_⟩
    · unfold PeekInv
      intro _ hb2
      exact absurd (show s.bufsz < s.q from hb2) (by omega)
    · intro _
      rfl
    · intro hx _
      exact absurd (show s.in_longline = true from hx) (by simp [hil])
    · intro hx
      exact h10 hx
    · intro he
      exact h11 (Or.inl heof)

theorem post_err_iter : ∀ (k n : Nat) (s : RS), PostErr s →
    ∃ s2, rs_calls k (n + 2) s = some s2 ∧ PostErr s2 ∧
      s2.nreads = s.nreads ∧ s2.errnum = s.errnum := by
  intro k
  induction k with
  | zero =>
      intro n s hp
      exact ⟨s, rfl, hp, rfl, rfl⟩
  | succ m ih =>
      intro n s hp
      obtain ⟨r, s1, heq, _, _, hnr, _, hen, _, hp1⟩ := post_err_call n s hp
      obtain ⟨s2, h2, hp2, hn2, he2⟩ := ih n s1 hp1
      refine ⟨s2, ?_, hp2, hn2.trans hnr, he2.trans hen⟩
      unfold rs_calls
      rw [heq]
      exact h2

theorem post_eof_iter : ∀ (k n : Nat) (s : RS), PostEof s →
    ∃ s2, rs_calls k (n + 2) s = some s2 ∧ PostEof s2 ∧
      s2.nreads = s.nreads := by
  intro k
  induction k with
  | zero =>
      intro n s hp
      exact ⟨s, rfl, hp, rfl⟩
  | succ m ih =>
      intro n s hp
      obtain ⟨r, s1, heq, _, hnr, _, _, hp1⟩ := post_eof_call n s hp
      obtain ⟨s2, h2, hp2, hn2⟩ := ih n s1 hp1
      refine ⟨s2, ?_, hp2, hn2.trans hnr⟩
      unfold rs_calls
      rw [heq]
      exact h2

theorem stepScans_bound (ph : Phase) (start : Nat) (s : RS)
    (hinv : LoopInv ph start s) :
    ∀ t st, (t, st) ∈ stepScans ph start s → st ≤ t.bufsz := by
  obtain ⟨h1, h2, h3, h4, h5, h6, h7, h8, h9, h10, h11, h12, h13, h15⟩ := hinv
  intro t st hmem
  cases ph with
  | slow =>
      unfold stepScans at hmem
      simp at hmem
      obtain ⟨ht, hst⟩ := hmem
      subst ht
      subst hst
      exact h7
  | fast =>
      unfold stepScans at hmem
      dsimp only at hmem
      by_cases hpq : s.p < s.q
      · rw [if_pos hpq] at hmem
        by_cases hd : rawmemchr s start < s.q
        · rw [if_pos hd] at hmem
          simp at hmem
          rcases hmem with ⟨ht, hst⟩ | ⟨ht, hst⟩
          · subst ht
            subst hst
            exact h7
          · subst ht
            subst hst
            omega
        · rw [if_neg hd] at hmem
          simp at hmem
          obtain ⟨ht, hst⟩ := hmem
          subst ht
          subst hst
          exact h7
      · rw [if_neg hpq] at hmem
        simp at hmem
        obtain ⟨ht, hst⟩ := hmem
        subst ht
        subst hst
        exact h7

theorem loopScans_bound (fuel : Nat) : ∀ (ph : Phase) (start : Nat) (s : RS),
    LoopInv ph start s → ∀ t st, (t, st) ∈ loopScans fuel ph start s →
    st ≤ t.bufsz := by
  induction fuel with
  | zero =>
      intro ph start s _ t st hmem
      simp [loopScans] at hmem
  | succ n ih =>
      intro ph start s hinv t st hmem
      unfold loopScans at hmem
      rw [List.mem_append] at hmem
      rcases hmem with hm | hm
      · exact stepScans_bound ph start s hinv t st hm
      · rcases hstep : loopStep ph start s with ⟨r1, sA⟩ | ⟨ph1, st1, sA⟩
        · rw [hstep] at hm
          dsimp only at hm
          simp at hm
        · rw [hstep] at hm
          dsimp only at hm
          exact ih ph1 st1 sA
            ((loopStep_concl ph start s hinv).2 ph1 st1 sA hstep).2 t st hm

theorem getlineScans_bound (fuel : Nat) (s : RS) (hinv : RSInv s) :
    ∀ t st, (t, st) ∈ getlineScans fuel s → st ≤ t.bufsz := by
  intro t st hmem
  unfold getlineScans at hmem
  by_cases hfp : s.p ≤ s.next_delim_ptr_peek ∧ s.next_delim_ptr_peek < s.q
  · rw [if_pos hfp] at hmem
    simp at hmem
    obtain ⟨ht, hst⟩ := hmem
    rw [ht, hst]
    have h3 : s.q ≤ s.bufsz := hinv.2.2.1
    have hlt : s.next_delim_ptr_peek < s.q := hfp.2
    omega
  · rw [if_neg hfp] at hmem
    by_cases hil : s.in_longline = true
    · rw [if_pos hil] at hmem
      by_cases hend : s.longline_ended = true
      · rw [if_pos hend] at hmem
        simp at hmem
      · rw [if_neg hend] at hmem
        have hend2 : s.longline_ended = false := by
          cases hx : s.longline_ended
          · rfl
          · exact absurd hx hend
        exact loopScans_bound fuel Phase.slow s.bufsz s
          (loopInv_entry_slow s hinv hil hend2) t st hmem
    · rw [if_neg hil] at hmem
      dsimp only at hmem
      have hil2 : s.in_longline = false := by
        cases hx : s.in_longline
        · rfl
        · exact absurd hx hil
      exact loopScans_bound fuel Phase.fast _ _
        (loopInv_entry_fast s hinv hil2) t st hmem

/-! ### Claim theorems -/

/-- C4 (corrected): a successful `rs_open` initialises the cursors to the
empty condition `p = q = buftop` (not `p = q = buf`), clears the
long-line, end-of-input and pause flags, and sets `min1stchunklen` to
`bufsz`. -/
theorem C4_open_initial_state (input : List Nat) (readErr : Option Nat)
    (readSizes : List Nat) (bufsz delimiterbyte : Nat) :
    (rs_open input readErr readSizes bufsz delimiterbyte).p = bufsz ∧
    (rs_open input readErr readSizes bufsz delimiterbyte).q = bufsz ∧
    (rs_open input readErr readSizes bufsz delimiterbyte).p =
      (rs_open input readErr readSizes bufsz delimiterbyte).q ∧
    (rs_open input readErr readSizes bufsz delimiterbyte).in_longline = false ∧
    (rs_open input readErr readSizes bufsz delimiterbyte).longline_ended = false ∧
    (rs_open input readErr readSizes bufsz delimiterbyte).eof_seen = false ∧
    (rs_open input readErr readSizes bufsz delimiterbyte).err_seen = false ∧
    (rs_open input readErr readSizes bufsz delimiterbyte).pause_on_inval = false ∧
    (rs_open input readErr readSizes bufsz delimiterbyte).terminate_current_pause = false ∧
    (rs_open input readErr readSizes bufsz delimiterbyte).min1stchunklen = bufsz :=
  ⟨rfl, rfl, rfl, rfl, rfl, rfl, rfl, rfl, rfl, rfl⟩

/-- C4 counterexample: the claim says `p = q = buf`; with `buf = 0` in
the arena model, `rs_open` in fact parks both cursors at
`buftop = bufsz`, here `8 ≠ 0`. -/
theorem C4_counterexample :
    (rs_open [] none [] 8 10).p = 8 ∧ (rs_open [] none [] 8 10).q = 8 ∧
      ¬ (rs_open [] none [] 8 10).p = 0 := by
  decide

/-- C9 (corrected): `rs_set_min1stchunklen` succeeds exactly when
`len ≤ bufsz` — the lower bound `1 ≤ len` of the claim is not checked,
so `len = 0` is accepted; on failure it returns -1 and leaves the
state unchanged. -/
theorem C9_set_min1stchunklen (s : RS) (len : Nat) :
    ((rs_set_min1stchunklen s len).1 = 0 ↔ len ≤ s.bufsz) ∧
    (len ≤ s.bufsz → (rs_set_min1stchunklen s len).1 = 0 ∧
      (rs_set_min1stchunklen s len).2.min1stchunklen = len) ∧
    (s.bufsz < len → (rs_set_min1stchunklen s len).1 = -1 ∧
      (rs_set_min1stchunklen s len).2 = s) := by
  unfold rs_set_min1stchunklen
  by_cases hc : s.bufsz < len
  · rw [if_pos hc]
    refine ⟨⟨?_, ?_⟩, ?_, ?_⟩
    · intro h0
      simp at h0
    · intro hle
      exact absurd hle (by omega)
    · intro hle
      exact absurd hle (by omega)
    · intro _
      exact ⟨rfl, rfl⟩
  · rw [if_neg hc]
    refine ⟨⟨?_, ?_⟩, ?_, ?_⟩
    · intro _
      omega
    · intro _
      rfl
    · intro _
      exact ⟨rfl, rfl⟩
    · intro hgt
      exact absurd hgt hc

/-- C9 counterexample: `len = 0` violates the claimed requirement
`1 ≤ len`, yet the setter accepts it and installs 0. -/
theorem C9_counterexample :
    (rs_set_min1stchunklen (rs_open [] none [] 8 10) 0).1 = 0 ∧
    (rs_set_min1stchunklen (rs_open [] none [] 8 10) 0).2.min1stchunklen = 0 ∧
    ¬ 1 ≤ 0 := by
  decide

/-- C9 witness: a concrete successful call installing `len = 3` on a
scanner with `bufsz = 8`. -/
theorem C9_witness :
    ((rs_set_min1stchunklen (rs_open [] none [] 8 10) 3).1 = 0 ↔
      3 ≤ (rs_open [] none [] 8 10).bufsz) ∧
    (3 ≤ (rs_open [] none [] 8 10).bufsz →
      (rs_set_min1stchunklen (rs_open [] none [] 8 10) 3).1 = 0 ∧
      (rs_set_min1stchunklen (rs_open [] none [] 8 10) 3).2.min1stchunklen = 3) ∧
    ((rs_open [] none [] 8 10).bufsz < 3 →
      (rs_set_min1stchunklen (rs_open [] none [] 8 10) 3).1 = -1 ∧
      (rs_set_min1stchunklen (rs_open [] none [] 8 10) 3).2 =
        rs_open [] none [] 8 10) :=
  C9_set_min1stchunklen (rs_open [] none [] 8 10) 3

/-- C1: for every finite input stream and every `bufsz ≥ 1`, the
concatenation in call order of the inclusive `[begin, end]` byte ranges
of all data-bearing results returned before the first EndOfFile or
Error equals the input stream exactly. -/
theorem C1_concatenation_identity (input : List Nat) (readErr : Option Nat)
    (readSizes : List Nat) (bufsz delimiterbyte n fuel : Nat) (hb : 1 ≤ bufsz)
    (rs : List RSResult) (bs : List Nat) (s2 : RS)
    (h : rs_run n fuel (rs_open input readErr readSizes bufsz delimiterbyte) =
      some (rs, bs, s2)) : bs = input := by
  have hinv := rs_open_RSInv input readErr readSizes bufsz delimiterbyte hb
  have hr := rs_run_facts n fuel _ rs bs s2 hinv h
  have hw0 : window (rs_open input readErr readSizes bufsz delimiterbyte) = [] :=
    window_empty _ rfl
  have hw2 : window s2 = [] := window_empty s2 hr.2.1
  have h1 := hr.1
  rw [hw0, hw2, hr.2.2] at h1
  simp only [List.append_nil, List.nil_append] at h1
  exact h1

/-- C1 witness: the two-byte stream `"A\n"` with `bufsz = 4` is
reproduced exactly by one FullLine result followed by EndOfFile. -/
theorem C1_witness :
    1 ≤ 4 ∧
    ((rs_run 3 8 (rs_open [65, 10] none [] 4 10)).get (by decide)).2.1 =
      [65, 10] :=
  ⟨by decide,
   C1_concatenation_identity [65, 10] none [] 4 10 3 8 (by decide)
     ((rs_run 3 8 (rs_open [65, 10] none [] 4 10)).get (by decide)).1
     ((rs_run 3 8 (rs_open [65, 10] none [] 4 10)).get (by decide)).2.1
     ((rs_run 3 8 (rs_open [65, 10] none [] 4 10)).get (by decide)).2.2
     rfl⟩

/-- C2: every delimiter scan `rs_getline` performs — the per-iteration
scans of the fast and slow loops, the fast-loop re-arming scan after a
full line, and the peek fast path's re-arming scan, as transcribed
from the call sites into `getlineScans` — starts at or below `buftop`
in a state whose sentinel byte at `buftop` reads as the delimiter, and
therefore terminates at or before `buftop`; and a returned data
range's `end` is always strictly below `q`, so a match in
`[q, buftop]` is never used as a returned line end. -/
theorem C2_sentinel_scan (fuel : Nat) (s : RS) (r : RSResult) (s1 : RS)
    (hinv : RSInv s) (h : rs_getline fuel s = some (r, s1)) :
    (∀ t st, (t, st) ∈ getlineScans fuel s →
      st ≤ t.bufsz ∧ getByte t t.bufsz = t.delimiterbyte ∧
      st ≤ rawmemchr t st ∧ rawmemchr t st ≤ t.bufsz ∧
      getByte t (rawmemchr t st) = t.delimiterbyte) ∧
    (isDataType r.type = true →
      ∃ b e, r.line_begin = some b ∧ r.line_end = some e ∧ e < s1.q ∧
        s1.q ≤ s1.bufsz) := by
  obtain ⟨l1, l2, l3, l4, l5, l6, l7, l8, l9, l10, l11, l12, l13,
    l14, l15, l16, l17, l18, l19, l20⟩ := rs_getline_facts fuel s r s1 hinv h
  constructor
  · intro t st hmem
    have hb := getlineScans_bound fuel s hinv t st hmem
    have hs := rawmemchr_spec t st hb
    exact ⟨hb, getByte_sentinel t t.bufsz (le_refl _), hs.1, hs.2.1, hs.2.2.1⟩
  · intro hdata
    obtain ⟨b, e, m1, m2, m3⟩ := l11 hdata
    exact ⟨b, e, m1, m2, m3, l1.2.2.1⟩

/-- C2 witness: the `"A\n"` call returns a FullLine whose end pointer
lies strictly below `q`; the scan facts are instantiated on the same
call. -/
theorem C2_witness :
    RSInv (rs_open [65, 10] none [] 4 10) ∧
    isDataType ((rs_getline 8 (rs_open [65, 10] none [] 4 10)).get
      (by decide)).1.type = true ∧
    (∃ b e, ((rs_getline 8 (rs_open [65, 10] none [] 4 10)).get
        (by decide)).1.line_begin = some b ∧
      ((rs_getline 8 (rs_open [65, 10] none [] 4 10)).get
        (by decide)).1.line_end = some e ∧
      e < ((rs_getline 8 (rs_open [65, 10] none [] 4 10)).get
        (by decide)).2.q ∧
      ((rs_getline 8 (rs_open [65, 10] none [] 4 10)).get (by decide)).2.q ≤
      ((rs_getline 8 (rs_open [65, 10] none [] 4 10)).get
        (by decide)).2.bufsz) :=
  ⟨by decide, by decide,
   (C2_sentinel_scan 8 (rs_open [65, 10] none [] 4 10)
      ((rs_getline 8 (rs_open [65, 10] none [] 4 10)).get (by decide)).1
      ((rs_getline 8 (rs_open [65, 10] none [] 4 10)).get (by decide)).2
      (by decide) rfl).2 (by decide)⟩

/-- C3 (corrected): once EndOfFile has been returned every subsequent
call returns EndOfFile, and once Error has been returned every
subsequent call returns Error again (not EndOfFile, as claimed) with
the same errno; in both cases `nreads` never changes again, so the
underlying read is never invoked on those calls. -/
theorem C3_terminal_sticky :
    (∀ (fuel : Nat) (s : RS) (r : RSResult) (s1 : RS), RSInv s →
      rs_getline fuel s = some (r, s1) →
      (r.type = RT.rt_eof → PostEof s1) ∧
      (r.type = RT.rt_err → PostErr s1)) ∧
    (∀ (k n : Nat) (s : RS), PostEof s →
      ∃ s2, rs_calls k (n + 2) s = some s2 ∧ s2.nreads = s.nreads ∧
        ∃ r3 s3, rs_getline (n + 2) s2 = some (r3, s3) ∧
          r3.type = RT.rt_eof ∧ s3.nreads = s2.nreads) ∧
    (∀ (k n : Nat) (s : RS), PostErr s →
      ∃ s2, rs_calls k (n + 2) s = some s2 ∧ s2.nreads = s.nreads ∧
        ∃ r3 s3, rs_getline (n + 2) s2 = some (r3, s3) ∧
          r3.type = RT.rt_err ∧ r3.errnum = s.errnum ∧
          s3.nreads = s2.nreads) := by
  refine ⟨?_, ?_, ?_⟩
  · intro fuel s r s1 hinv h
    obtain ⟨l1, l2, l3, l4, l5, l6, l7, l8, l9, l10, l11, l12, l13,
      l14, l15, l16, l17, l18, l19, l20⟩ := rs_getline_facts fuel s r s1 hinv h
    constructor
    · intro ht
      exact ⟨l1, (l9 ht).2.2.1, (l9 ht).2.2.2⟩
    · intro ht
      exact ⟨l1, (l10 ht).2.2.1, (l10 ht).2.2.2.1, (l10 ht).2.2.2.2.1⟩
  · intro k n s hp
    obtain ⟨s2, h2, hp2, hn2⟩ := post_eof_iter k n s hp
    obtain ⟨r3, s3, h3, ht3, hnr3, _, _, _⟩ := post_eof_call n s2 hp2
    exact ⟨s2, h2, hn2, r3, s3, h3, ht3, hnr3⟩
  · intro k n s hp
    obtain ⟨s2, h2, hp2, hn2, he2⟩ := post_err_iter k n s hp
    obtain ⟨r3, s3, h3, ht3, hen3, hnr3, _, _, _, _⟩ := post_err_call n s2 hp2
    exact ⟨s2, h2, hn2, r3, s3, h3, ht3, hen3.trans he2, hnr3⟩

/-- C3 counterexample: a scanner whose read fails with errno 5 returns
Error, and the next call returns Error again — not EndOfFile. -/
theorem C3_counterexample :
    ((rs_getline 4 (rs_open [] (some 5) [] 1 10)).map
        (fun pr => pr.1.type)) = some RT.rt_err ∧
    ((rs_getline 4 (rs_open [] (some 5) [] 1 10)).bind
        (fun pr => rs_getline 4 pr.2)).map (fun pr => pr.1.type) =
      some RT.rt_err ∧
    RT.rt_err ≠ RT.rt_eof := by
  refine ⟨rfl, rfl, by decide⟩

/-- C3 witness: a concrete post-Error state on which the repeat-call
guarantee is exercised (one intervening call, then an Error return
with `nreads` unchanged). -/
theorem C3_witness :
    PostErr ((rs_getline 4 (rs_open [] (some 5) [] 1 10)).get (by decide)).2 ∧
    (∃ s2, rs_calls 1 (2 + 2)
        ((rs_getline 4 (rs_open [] (some 5) [] 1 10)).get (by decide)).2 =
          some s2 ∧
      s2.nreads =
        ((rs_getline 4 (rs_open [] (some 5) [] 1 10)).get (by decide)).2.nreads ∧
      ∃ r3 s3, rs_getline (2 + 2) s2 = some (r3, s3) ∧
        r3.type = RT.rt_err ∧
        r3.errnum =
          ((rs_getline 4 (rs_open [] (some 5) [] 1 10)).get (by decide)).2.errnum ∧
        s3.nreads = s2.nreads) :=
  ⟨by decide,
   C3_terminal_sticky.2.2 1 2
     ((rs_getline 4 (rs_open [] (some 5) [] 1 10)).get (by decide)).2
     (by decide)⟩

/-- C5 (corrected): while a long line is open every result is a
LongLineChunk, a LongLineEnd or a Paused — so every intervening
data-bearing result is a chunk; each chunk is non-empty
(`begin ≤ end`); LongLineEnd carries no data (`begin = end = NULL`).
The claim's further assertion that the result immediately preceding
LongLineEnd is always a LongLineChunk is refuted by the
counterexample. -/
theorem C5_longline_sequencing (fuel : Nat) (s : RS) (r : RSResult) (s1 : RS)
    (hinv : RSInv s) (h : rs_getline fuel s = some (r, s1)) :
    (s.in_longline = true →
      r.type = RT.rt_within_longline ∨ r.type = RT.rt_longline_ended ∨
      r.type = RT.rt_paused) ∧
    (r.type = RT.rt_within_longline →
      s.in_longline = true ∧ s1.in_longline = true ∧
      ∃ b e, r.line_begin = some b ∧ r.line_end = some e ∧ b ≤ e) ∧
    (r.type = RT.rt_longline_ended →
      r.line_begin = none ∧ r.line_end = none ∧ s1.in_longline = false ∧
      dataBytesOf r s1 = []) ∧
    (r.type = RT.rt_start_longline →
      s.in_longline = false ∧ s1.in_longline = true) := by
  obtain ⟨l1, l2, l3, l4, l5, l6, l7, l8, l9, l10, l11, l12, l13,
    l14, l15, l16, l17, l18, l19, l20⟩ := rs_getline_facts fuel s r s1 hinv h
  refine ⟨l14, l16, ?_, ?_⟩
  · intro ht
    exact ⟨(l17 ht).1, (l17 ht).2.1, (l17 ht).2.2.1,
      dataBytesOf_nondata r s1 (by simp [isDataType, ht])⟩
  · intro ht
    exact ⟨(l15 ht).1, (l15 ht).2.1⟩

/-- C5 counterexample: with `bufsz = 4`, input `"0123"` and no
delimiter, the LongLineStart result is immediately followed by
LongLineEnd — no LongLineChunk carries the final data. -/
theorem C5_counterexample :
    (rs_getline 8 (rs_open [48, 49, 50, 51] none [] 4 10)).map
        (fun pr => pr.1.type) = some RT.rt_start_longline ∧
    ((rs_getline 8 (rs_open [48, 49, 50, 51] none [] 4 10)).bind
        (fun pr => rs_getline 8 pr.2)).map (fun pr => pr.1.type) =
      some RT.rt_longline_ended ∧
    RT.rt_longline_ended ≠ RT.rt_within_longline := by
  refine ⟨rfl, rfl, by decide⟩

/-- C5 witness: the LongLineStart call of the counterexample input,
with the call-sequencing facts instantiated there. -/
theorem C5_witness :
    RSInv (rs_open [48, 49, 50, 51] none [] 4 10) ∧
    (((rs_getline 8 (rs_open [48, 49, 50, 51] none [] 4 10)).get
        (by decide)).1.type = RT.rt_start_longline →
      (rs_open [48, 49, 50, 51] none [] 4 10).in_longline = false ∧
      ((rs_getline 8 (rs_open [48, 49, 50, 51] none [] 4 10)).get
        (by decide)).2.in_longline = true) :=
  ⟨by decide,
   (C5_longline_sequencing 8 (rs_open [48, 49, 50, 51] none [] 4 10)
     ((rs_getline 8 (rs_open [48, 49, 50, 51] none [] 4 10)).get (by decide)).1
     ((rs_getline 8 (rs_open [48, 49, 50, 51] none [] 4 10)).get (by decide)).2
     (by decide) rfl).2.2.2⟩

/-- C8: every FullLine result's byte range ends at a delimiter byte, no
byte in `[begin, end)` is the delimiter, and the range lies entirely
inside the working buffer: `begin ≤ end < q ≤ buftop`. -/
theorem C8_full_line_fidelity (fuel : Nat) (s : RS) (r : RSResult) (s1 : RS)
    (hinv : RSInv s) (h : rs_getline fuel s = some (r, s1))
    (ht : r.type = RT.rt_full_line) :
    ∃ b e, r.line_begin = some b ∧ r.line_end = some e ∧ b ≤ e ∧
      getByte s1 e = s1.delimiterbyte ∧ NoDelim s1 b e ∧
      e < s1.q ∧ s1.q ≤ s1.bufsz ∧ e < s1.bufsz ∧
      s1.delimiterbyte = s.delimiterbyte ∧ s1.bufsz = s.bufsz := by
  obtain ⟨l1, l2, l3, l4, l5, l6, l7, l8, l9, l10, l11, l12, l13,
    l14, l15, l16, l17, l18, l19, l20⟩ := rs_getline_facts fuel s r s1 hinv h
  obtain ⟨b, e, m1, m2, m3, m4, m5, m6, m7⟩ := l12 ht
  exact ⟨b, e, m1, m2, m3, m6, m7, m4, m5, by omega, l7, l6⟩

/-- C8 witness: the FullLine returned for `"A\n"` with `bufsz = 4`. -/
theorem C8_witness :
    RSInv (rs_open [65, 10] none [] 4 10) ∧
    ((rs_getline 8 (rs_open [65, 10] none [] 4 10)).get
      (by decide)).1.type = RT.rt_full_line ∧
    (∃ b e, ((rs_getline 8 (rs_open [65, 10] none [] 4 10)).get
        (by decide)).1.line_begin = some b ∧
      ((rs_getline 8 (rs_open [65, 10] none [] 4 10)).get
        (by decide)).1.line_end = some e ∧ b ≤ e ∧
      getByte ((rs_getline 8 (rs_open [65, 10] none [] 4 10)).get
          (by decide)).2 e =
        ((rs_getline 8 (rs_open [65, 10] none [] 4 10)).get
          (by decide)).2.delimiterbyte ∧
      NoDelim ((rs_getline 8 (rs_open [65, 10] none [] 4 10)).get
          (by decide)).2 b e ∧
      e < ((rs_getline 8 (rs_open [65, 10] none [] 4 10)).get (by decide)).2.q ∧
      ((rs_getline 8 (rs_open [65, 10] none [] 4 10)).get (by decide)).2.q ≤
        ((rs_getline 8 (rs_open [65, 10] none [] 4 10)).get
          (by decide)).2.bufsz ∧
      e < ((rs_getline 8 (rs_open [65, 10] none [] 4 10)).get
          (by decide)).2.bufsz ∧
      ((rs_getline 8 (rs_open [65, 10] none [] 4 10)).get
          (by decide)).2.delimiterbyte =
        (rs_open [65, 10] none [] 4 10).delimiterbyte ∧
      ((rs_getline 8 (rs_open [65, 10] none [] 4 10)).get
          (by decide)).2.bufsz = (rs_open [65, 10] none [] 4 10).bufsz) :=
  ⟨by decide, by decide,
   C8_full_line_fidelity 8 (rs_open [65, 10] none [] 4 10)
     ((rs_getline 8 (rs_open [65, 10] none [] 4 10)).get (by decide)).1
     ((rs_getline 8 (rs_open [65, 10] none [] 4 10)).get (by decide)).2
     (by decide) rfl (by decide)⟩

/-- C6 (corrected): with pause mode on and the resume latch clear, a
getline call performs no invalidating action (`ninval` is unchanged);
a Paused return leaves `p` and every arena byte below the call-entry
`q` unchanged and never moves `q` down — but, contrary to the claim,
`q` is not left unchanged: a read (which short reads make possible in
the same call as a Paused return) can advance `q` and write at or
above the entry `q` first.  A Paused return only happens with pause
mode on, and after one resume-from-pause call at most one invalidating
action can happen before the next Paused. -/
theorem C6_pause_frame (fuel : Nat) (s : RS) (hinv : RSInv s) :
    (∀ r s1, rs_getline fuel s = some (r, s1) →
      (s.pause_on_inval = true → s.terminate_current_pause = false →
        s1.ninval = s.ninval) ∧
      (r.type = RT.rt_paused →
        s1.p = s.p ∧ s.q ≤ s1.q ∧
        (∀ k, k < s.q → getByte s1 k = getByte s k) ∧
        s.pause_on_inval = true)) ∧
    (∀ r s1, rs_getline fuel (rs_resume_from_pause s) = some (r, s1) →
      s.pause_on_inval = true → s1.ninval ≤ s.ninval + 1) := by
  constructor
  · intro r s1 h
    obtain ⟨l1, l2, l3, l4, l5, l6, l7, l8, l9, l10, l11, l12, l13,
      l14, l15, l16, l17, l18, l19, l20⟩ := rs_getline_facts fuel s r s1 hinv h
    refine ⟨l4, ?_⟩
    intro ht
    exact ⟨(l19 ht).1, (l19 ht).2.1, (l19 ht).2.2, l18 ht⟩
  · intro r s1 h hpa
    obtain ⟨l1, l2, l3, l4, l5, l6, l7, l8, l9, l10, l11, l12, l13,
      l14, l15, l16, l17, l18, l19, l20⟩ :=
      rs_getline_facts fuel (rs_resume_from_pause s) r s1 hinv h
    exact l20 hpa

/-- C6 counterexample: with a pipe-like handle that first delivers 3
bytes (schedule `[3]`), the first call returns the line `"A\n"` and
leaves two residual bytes at `p = 2, q = 3 < buftop`; pause mode is
then enabled.  The next call first reads one more byte — advancing `q`
from 3 to 4 and overwriting the planted sentinel above the entry `q` —
and then returns Paused: the claim that a Paused-returning call leaves
`q` unchanged from its entry state is false. -/
theorem C6_counterexample :
    (rs_getline 8 (rs_enable_pause ((rs_getline 8 ((rs_set_min1stchunklen (rs_open [65, 10, 66, 67, 68] none [3] 4 10) 3).2)).get (by decide)).2)).map
        (fun pr => pr.1.type) = some RT.rt_paused ∧
    (rs_enable_pause ((rs_getline 8 ((rs_set_min1stchunklen (rs_open [65, 10, 66, 67, 68] none [3] 4 10) 3).2)).get (by decide)).2).q = 3 ∧
    ((rs_getline 8 (rs_enable_pause ((rs_getline 8 ((rs_set_min1stchunklen (rs_open [65, 10, 66, 67, 68] none [3] 4 10) 3).2)).get (by decide)).2)).get (by decide)).2.q = 4 ∧
    ¬ ((rs_getline 8 (rs_enable_pause ((rs_getline 8 ((rs_set_min1stchunklen (rs_open [65, 10, 66, 67, 68] none [3] 4 10) 3).2)).get (by decide)).2)).get (by decide)).2.q =
      (rs_enable_pause ((rs_getline 8 ((rs_set_min1stchunklen (rs_open [65, 10, 66, 67, 68] none [3] 4 10) 3).2)).get (by decide)).2).q := by
  refine ⟨rfl, rfl, rfl, by decide⟩

/-- C6 witness: a pause-enabled scanner with a saturated buffer; the
frame and accounting facts are instantiated on its first call. -/
theorem C6_witness :
    RSInv (rs_enable_pause (rs_open [65, 66] none [] 2 10)) ∧
    (∀ r s1, rs_getline 8 (rs_enable_pause (rs_open [65, 66] none [] 2 10)) =
        some (r, s1) →
      ((rs_enable_pause (rs_open [65, 66] none [] 2 10)).pause_on_inval = true →
       (rs_enable_pause
          (rs_open [65, 66] none [] 2 10)).terminate_current_pause = false →
        s1.ninval = (rs_enable_pause (rs_open [65, 66] none [] 2 10)).ninval) ∧
      (r.type = RT.rt_paused →
        s1.p = (rs_enable_pause (rs_open [65, 66] none [] 2 10)).p ∧
        (rs_enable_pause (rs_open [65, 66] none [] 2 10)).q ≤ s1.q ∧
        (∀ k, k < (rs_enable_pause (rs_open [65, 66] none [] 2 10)).q →
          getByte s1 k =
            getByte (rs_enable_pause (rs_open [65, 66] none [] 2 10)) k) ∧
        (rs_enable_pause
          (rs_open [65, 66] none [] 2 10)).pause_on_inval = true)) :=
  ⟨by decide,
   (C6_pause_frame 8 (rs_enable_pause (rs_open [65, 66] none [] 2 10))
     (by decide)).1⟩

/-- C7: the downward shift moves exactly the bytes `[p, q)` down by
`shift = p - (buftop - min1stchunklen)`, preserving order and values,
leaving `p' = buftop - min1stchunklen`, `q' = q - shift` and
`min1stchunklen` bytes of headroom above `p'`; and the slow loop takes
the shift branch exactly under the claimed guard (buffer full, `p`
above `buf`, fewer than `min1stchunklen` buffered bytes, no end of
input, no pending pause). -/
theorem C7_shift_down (s : RS) (start : Nat)
    (h4 : 1 ≤ s.min1stchunklen) (h5 : s.min1stchunklen ≤ s.bufsz)
    (hq : s.q = s.bufsz) (hpq : s.p ≤ s.q) (hlen : 0 < s.q - s.p)
    (hlt : s.q - s.p < s.min1stchunklen) (hp : 0 < s.p) :
    ((rawscan_shift_buffer_contents_down s).p =
        s.p - (s.p - (s.bufsz - s.min1stchunklen)) ∧
      (rawscan_shift_buffer_contents_down s).p =
        s.bufsz - s.min1stchunklen ∧
      (rawscan_shift_buffer_contents_down s).q =
        s.q - (s.p - (s.bufsz - s.min1stchunklen)) ∧
      s.min1stchunklen ≤
        s.bufsz - (rawscan_shift_buffer_contents_down s).p ∧
      (∀ i, i < s.q - s.p →
        getByte (rawscan_shift_buffer_contents_down s)
          ((rawscan_shift_buffer_contents_down s).p + i) =
          getByte s (s.p + i)) ∧
      bytesBetween (rawscan_shift_buffer_contents_down s)
          (rawscan_shift_buffer_contents_down s).p
          (rawscan_shift_buffer_contents_down s).q =
        bytesBetween s s.p s.q) ∧
    (¬ rawmemchr s start < s.q →
      ¬ (s.eof_seen = true ∨ s.err_seen = true) →
      s.in_longline = false →
      ¬ (s.pause_on_inval = true ∧ s.terminate_current_pause = false) →
      loopStep Phase.slow start s =
        StepRes.cont Phase.slow (rawscan_shift_buffer_contents_down s).bufsz
          { rawscan_shift_buffer_contents_down s with
            terminate_current_pause := false,
            ninval := (rawscan_shift_buffer_contents_down s).ninval + 1 }) := by
  have hplow : s.bufsz - s.min1stchunklen < s.p := by omega
  obtain ⟨g1, g2, g3, g4, g5, g6, g7, g8, g9, g10, g11, g12, g13, g14, g15,
    g16, g17, g18, g19, g20, g21⟩ := shift_spec s hq h5 hplow hpq
  constructor
  · refine ⟨?_, g1, g2, ?_, ?_, g21⟩
    · rw [g1]
      omega
    · rw [g1]
      omega
    · intro i hi
      rw [g1]
      exact g20 i hi
  · intro hd2 hne hill hnpa
    unfold loopStep
    dsimp only
    rw [if_neg hd2, if_neg hne,
      if_neg (show ¬ s.q < s.bufsz from by omega),
      if_neg (show ¬ (s.min1stchunklen ≤ s.q - s.p ∧ s.in_longline = false)
        from by intro hx; omega),
      if_pos hlen, if_pos hp, if_neg hnpa]

/-- C7 witness: a concrete saturated scanner (`bufsz = 4`,
`min1stchunklen = 3`, two residual bytes at `p = 2`) whose shift facts
are instantiated. -/
theorem C7_witness :
    1 ≤ ({ rs_open [] none [] 4 10 with
      p := 2, q := 4, min1stchunklen := 3 } : RS).min1stchunklen ∧
    (rawscan_shift_buffer_contents_down { rs_open [] none [] 4 10 with
      p := 2, q := 4, min1stchunklen := 3 }).p =
      ({ rs_open [] none [] 4 10 with
        p := 2, q := 4, min1stchunklen := 3 } : RS).bufsz -
      ({ rs_open [] none [] 4 10 with
        p := 2, q := 4, min1stchunklen := 3 } : RS).min1stchunklen :=
  ⟨by decide,
   ((C7_shift_down { rs_open [] none [] 4 10 with
       p := 2, q := 4, min1stchunklen := 3 } 0
     (by decide) (by decide) (by decide) (by decide) (by decide) (by decide)
     (by decide)).1).2.1⟩

/-- C10: the cached delimiter hint invariant — established by `rs_open`
(hint parked at `buftop`), preserved by `rs_getline` (as part of the
state invariant) and by the pause and configuration operations; when
the hint is armed inside `[p, q)` the fast path returns
`FullLine{p, hint}` without re-examining the byte there, which the
invariant guarantees is the delimiter with no earlier delimiter in
`[p, hint)`; a hint parked at `buftop` disarms the fast path. -/
theorem C10_peek_invariant :
    (∀ (input : List Nat) (readErr : Option Nat) (readSizes : List Nat)
        (bufsz delimiterbyte : Nat),
      PeekInv (rs_open input readErr readSizes bufsz delimiterbyte) ∧
      (rs_open input readErr readSizes bufsz delimiterbyte).next_delim_ptr_peek =
        bufsz) ∧
    (∀ (fuel : Nat) (s : RS) (r : RSResult) (s1 : RS), RSInv s →
      rs_getline fuel s = some (r, s1) → RSInv s1 ∧ PeekInv s1) ∧
    (∀ s : RS, PeekInv s →
      PeekInv (rs_enable_pause s) ∧ PeekInv (rs_disable_pause s) ∧
      PeekInv (rs_resume_from_pause s) ∧
      ∀ len, PeekInv (rs_set_min1stchunklen s len).2) ∧
    (∀ (fuel : Nat) (s : RS), RSInv s → s.p ≤ s.next_delim_ptr_peek →
      s.next_delim_ptr_peek < s.q →
      rs_getline fuel s =
        some ((rawscan_fast_line s s.next_delim_ptr_peek).1,
          (rawscan_fast_line s s.next_delim_ptr_peek).2) ∧
      getByte s s.next_delim_ptr_peek = s.delimiterbyte ∧
      NoDelim s s.p s.next_delim_ptr_peek ∧
      (rawscan_fast_line s s.next_delim_ptr_peek).1.type = RT.rt_full_line ∧
      (rawscan_fast_line s s.next_delim_ptr_peek).1.line_begin = some s.p ∧
      (rawscan_fast_line s s.next_delim_ptr_peek).1.line_end =
        some s.next_delim_ptr_peek) ∧
    (∀ (fuel : Nat) (s : RS), s.next_delim_ptr_peek = s.bufsz →
      s.q ≤ s.bufsz →
      rs_getline fuel s = rs_getline_morecode fuel s) := by
  refine ⟨?_, ?_, ?_, ?_, ?_⟩
  · intro input readErr readSizes bufsz delimiterbyte
    constructor
    · intro _ hb2
      exact absurd (show bufsz < bufsz from hb2) (by omega)
    · rfl
  · intro fuel s r s1 hinv h
    have l1 := (rs_getline_facts fuel s r s1 hinv h).1
    exact ⟨l1, l1.2.2.2.2.2.2.1⟩
  · intro s hp
    refine ⟨hp, hp, hp, ?_⟩
    intro len
    unfold rs_set_min1stchunklen
    by_cases hc : s.bufsz < len
    · rw [if_pos hc]
      exact hp
    · rw [if_neg hc]
      exact hp
  · intro fuel s hinv hpd hd
    obtain ⟨h1, h2, h3, h4, h5, h6, h7, h8, h9, h10, h11⟩ := hinv
    obtain ⟨hdel, hnd⟩ := h7 hpd hd
    refine ⟨?_, hdel, hnd, rfl, rfl, rfl⟩
    unfold rs_getline
    rw [if_pos ⟨hpd, hd⟩]
  · intro fuel s hpk hqb
    unfold rs_getline
    rw [if_neg (by intro hx; omega)]

/-- C10 witness: after two FullLines of `"A\nB\nC\n"` the hint is
re-armed inside `[p, q)`, and the third call takes the fast path. -/
theorem C10_witness :
    RSInv (((rs_getline 8 (rs_open [65, 10, 66, 10, 67, 10] none [] 8 10)).bind
      (fun pr => rs_getline 8 pr.2)).get (by decide)).2 ∧
    (((rs_getline 8 (rs_open [65, 10, 66, 10, 67, 10] none [] 8 10)).bind
      (fun pr => rs_getline 8 pr.2)).get (by decide)).2.p ≤
      (((rs_getline 8 (rs_open [65, 10, 66, 10, 67, 10] none [] 8 10)).bind
        (fun pr => rs_getline 8 pr.2)).get (by decide)).2.next_delim_ptr_peek ∧
    (((rs_getline 8 (rs_open [65, 10, 66, 10, 67, 10] none [] 8 10)).bind
      (fun pr => rs_getline 8 pr.2)).get (by decide)).2.next_delim_ptr_peek <
      (((rs_getline 8 (rs_open [65, 10, 66, 10, 67, 10] none [] 8 10)).bind
        (fun pr => rs_getline 8 pr.2)).get (by decide)).2.q ∧
    rs_getline 8 (((rs_getline 8
        (rs_open [65, 10, 66, 10, 67, 10] none [] 8 10)).bind
        (fun pr => rs_getline 8 pr.2)).get (by decide)).2 =
      some ((rawscan_fast_line
          (((rs_getline 8 (rs_open [65, 10, 66, 10, 67, 10] none [] 8 10)).bind
            (fun pr => rs_getline 8 pr.2)).get (by decide)).2
          (((rs_getline 8 (rs_open [65, 10, 66, 10, 67, 10] none [] 8 10)).bind
            (fun pr => rs_getline 8 pr.2)).get
              (by decide)).2.next_delim_ptr_peek).1,
        (rawscan_fast_line
          (((rs_getline 8 (rs_open [65, 10, 66, 10, 67, 10] none [] 8 10)).bind
            (fun pr => rs_getline 8 pr.2)).get (by decide)).2
          (((rs_getline 8 (rs_open [65, 10, 66, 10, 67, 10] none [] 8 10)).bind
            (fun pr => rs_getline 8 pr.2)).get
              (by decide)).2.next_delim_ptr_peek).2) :=
  ⟨by decide, by decide, by decide,
   ((C10_peek_invariant.2.2.2.1 8
     (((rs_getline 8 (rs_open [65, 10, 66, 10, 67, 10] none [] 8 10)).bind
       (fun pr => rs_getline 8 pr.2)).get (by decide)).2
     (by decide) (by decide) (by decide))).1⟩
